import Mathlib

/-!
# ArduinoOBD: a shallow embedding of `libraries/OBD/OBD.cpp`

Bytes and characters are natural numbers (`'0' = 48`, `'A' = 65`, `' ' = 32`,
`'\r' = 13`, `'>' = 62`, `'.' = 46`).  A C string is a list of bytes read up to
its first NUL; reading past the end of a list yields NUL.  Arithmetic on
`byte` and `uint16_t` is taken modulo 256 and 65536 where the source can wrap.

A buffer is the list of its cells and a pointer into it is an index.  Member
variables and the serial port are passed in and handed back explicitly.  Loops
whose number of passes depends on the input carry an iteration bound computed
from the input; the theorems `scanFrame_fuel`, `getResponseLoop_fuel` and
`setQueryPIDScan_fuel` show that the bound is never what ends a loop.

`OBD.h` is not among the sources: its timeouts and `MAX_PIDS` are parameters,
its PID numbers and inline value helpers are modelled from the specification.
-/

namespace ArduinoOBD

/-! ## Hex codec (OBD.cpp lines 14-53) -/

/-- Loop of `hex2uint16`: `i` is the accumulator, `n` the number of digits
taken so far, the list is the text from `p` on. -/
def hex2uint16Loop : List Nat → Nat → Nat → Nat
  | [], i, _ => i
  | c :: cs, i, n =>
    if c ≠ 0 ∧ n < 4 then
      if 65 ≤ c ∧ c ≤ 70 then
        hex2uint16Loop cs (((i <<< 4) % 65536) ||| ((c - 7) &&& 0xF)) (n + 1)
      else if 97 ≤ c ∧ c ≤ 102 then
        hex2uint16Loop cs (((i <<< 4) % 65536) ||| ((c - 39) &&& 0xF)) (n + 1)
      else if c = 32 then
        hex2uint16Loop cs i n
      else if c < 48 ∨ c > 57 then
        i
      else
        hex2uint16Loop cs (((i <<< 4) % 65536) ||| (c &&& 0xF)) (n + 1)
    else i

/-- Embedding of `uint16_t hex2uint16(const char *p)`. -/
def hex2uint16 (p : List Nat) : Nat :=
  hex2uint16Loop p 0 0

/-- Embedding of `byte hex2uint8(const char *p)`; `c1 = p[0]`, `c2 = p[1]`. -/
def hex2uint8 (c1 c2 : Nat) : Nat :=
  if 65 ≤ c1 ∧ c1 ≤ 70 then
    hex2uint8Low ((c1 + 256 - 7) % 256) c2
  else if 97 ≤ c1 ∧ c1 ≤ 102 then
    hex2uint8Low ((c1 + 256 - 39) % 256) c2
  else if c1 < 48 ∨ c1 > 57 then
    0
  else
    hex2uint8Low c1 c2
where
  /-- Second half of `hex2uint8`, after `c1` has been adjusted. -/
  hex2uint8Low (c1 c2 : Nat) : Nat :=
    if 65 ≤ c2 ∧ c2 ≤ 70 then
      ((c1 <<< 4) ||| (((c2 + 256 - 7) % 256) &&& 0xf)) % 256
    else if 97 ≤ c2 ∧ c2 ≤ 102 then
      ((c1 <<< 4) ||| (((c2 + 256 - 39) % 256) &&& 0xf)) % 256
    else if c2 < 48 ∨ c2 > 57 then
      0
    else
      ((c1 <<< 4) ||| (c2 &&& 0xf)) % 256

/-! ### Reference definitions for the hex codec, written from the specification -/

/-- A character is a hexadecimal digit: `0-9`, `A-F` or `a-f`. -/
def isHexDigit (c : Nat) : Bool :=
  (48 ≤ c && c ≤ 57) || (65 ≤ c && c ≤ 70) || (97 ≤ c && c ≤ 102)

/-- Value of a hexadecimal digit character (0 for any other character). -/
def hexDigitValue (c : Nat) : Nat :=
  if 48 ≤ c ∧ c ≤ 57 then c - 48
  else if 65 ≤ c ∧ c ≤ 70 then c - 55
  else if 97 ≤ c ∧ c ≤ 102 then c - 87
  else 0

/-- Upper-case hexadecimal digit character of a nibble. -/
def hexCharUpper (d : Nat) : Nat :=
  if d < 10 then 48 + d else 55 + d

/-- Lower-case hexadecimal digit character of a nibble. -/
def hexCharLower (d : Nat) : Nat :=
  if d < 10 then 48 + d else 87 + d

/-- Reference definition of the two-character decoder, following the
specification: 16 * value(first) + value(second) when both characters are
hexadecimal digits, 0 otherwise. -/
def hex2uint8Ref (c1 c2 : Nat) : Nat :=
  if isHexDigit c1 && isHexDigit c2 then 16 * hexDigitValue c1 + hexDigitValue c2 else 0

/-- The characters of a C string: everything before the first NUL. -/
def cstr (s : List Nat) : List Nat :=
  s.takeWhile (fun c => c != 0)

/-- The hexadecimal digits among the characters that precede the first
character that is neither a hexadecimal digit nor a space (spaces skipped). -/
def hexDigitsScanned (s : List Nat) : List Nat :=
  ((cstr s).takeWhile (fun c => isHexDigit c || c == 32)).filter isHexDigit

/-- Digits taken by the reference scanner: the scanned digits, at most four. -/
def hexDigitsTaken (s : List Nat) : List Nat :=
  (hexDigitsScanned s).take 4

/-- Reference definition of the four-digit decoder, following the
specification: the big-endian value of the digits taken, 0 when there are none. -/
def hex2uint16Ref (s : List Nat) : Nat :=
  (hexDigitsTaken s).foldl (fun acc c => 16 * acc + hexDigitValue c) 0

/-! ## Supported-PID map lookup (OBD.cpp lines 298-306) -/

/-- Embedding of `bool COBD::isValidPID(byte pid)`; `pidmap` is the member
array, and a read outside the list yields 0. -/
def isValidPID (pidmap : List Nat) (pid : Nat) : Bool :=
  if pid ≥ 0x7f then true
  else
    let pid := (pid + 256 - 1) % 256
    let i := pid >>> 3
    let b := 0x80 >>> (pid &&& 0x7)
    (pidmap.getD i 0 &&& b) != 0

/-- Reference definition of the lookup, following the specification: PIDs from
0x7F on are always supported; otherwise PID minus one is the key, the byte is
key div 8 and the bit is counted from the most significant one. -/
def isValidPIDRef (pidmap : List Nat) (pid : Nat) : Bool :=
  if pid ≥ 0x7f then true
  else (pidmap.getD ((pid - 1) / 8) 0).testBit (7 - (pid - 1) % 8)

/-! ## I2C query set (OBD.cpp lines 599-611)

`MAX_PIDS` comes from `OBD.h`, which is not part of the sources at hand; it is
a parameter here.  The loop counter is a `byte`, so the embedding follows the
source for `1 ≤ MAX_PIDS ≤ 255`. -/

/-- The `for` loop of `setQueryPID`, started at index `n` with `fuel`
iterations left: `none` when `pid` is found (the early `return`), otherwise the
index at which the loop stops. -/
def setQueryPIDScan (MAX_PIDS pid : Nat) (obdPid : List Nat) : Nat → Nat → Option Nat
  | 0, n => some n
  | fuel + 1, n =>
    if n < MAX_PIDS ∧ obdPid.getD n 0 ≠ 0 then
      if obdPid.getD n 0 = pid then none
      else setQueryPIDScan MAX_PIDS pid obdPid fuel (n + 1)
    else some n

/-- The call `memmove(obdPid, obdPid + 1, sizeof(obdPid[0]) * (MAX_PIDS - 1))`:
the first `MAX_PIDS - 1` cells receive the cells one place to their right, the
others keep their contents. -/
def memmoveLeft (MAX_PIDS : Nat) (obdPid : List Nat) : List Nat :=
  ((obdPid.drop 1).take (MAX_PIDS - 1)) ++ obdPid.drop (MAX_PIDS - 1)

/-- Embedding of `void COBDI2C::setQueryPID(byte pid, byte obdPid[])`; the
result is the array after the call. -/
def setQueryPID (MAX_PIDS pid : Nat) (obdPid : List Nat) : List Nat :=
  match setQueryPIDScan MAX_PIDS pid obdPid MAX_PIDS 0 with
  | none => obdPid
  | some n =>
    if n = MAX_PIDS then (memmoveLeft MAX_PIDS obdPid).set (MAX_PIDS - 1) pid
    else obdPid.set n pid

/-- The array after a sequence of `setQueryPID` calls, first call first. -/
def setQueryPIDs (MAX_PIDS : Nat) (pids : List Nat) (obdPid : List Nat) : List Nat :=
  pids.foldl (fun a pid => setQueryPID MAX_PIDS pid a) obdPid

/-- The entries after `pid` has been added to the entries `es` of a query set
of `M` cells, when `pid` is not among them. -/
def pushEntry (M : Nat) (es : List Nat) (pid : Nat) : List Nat :=
  if es.length < M then es ++ [pid] else es.tail ++ [pid]

/-- The entries of a query set: the non-zero cells before the first zero cell. -/
def queryEntries (obdPid : List Nat) : List Nat :=
  obdPid.takeWhile (fun x => x != 0)

/-! ## Transport and engine state

The serial port and the clock are the environment.  Each pass through the
polling loop of `receive` consumes one event: either a byte is available and is
read, or nothing is available and the clock is read.  A script that has run out
stands for a transport that stays silent until the timeout in force expires. -/

/-- One poll of the serial port inside `COBD::receive`. -/
inductive Event where
  /-- A byte is available: `OBDUART.available()` is true and `OBDUART.read()` returns `c`. -/
  | rx (c : Nat)
  /-- Nothing is available: `OBDUART.available()` is false and `millis() - startTime`
  evaluates to `elapsed`. -/
  | idle (elapsed : Nat)
  deriving DecidableEq, Repr

/-- The environment: the polls to come, and the texts written so far (oldest first). -/
structure World where
  rx : List Event
  tx : List (List Nat)
  deriving DecidableEq, Repr

/-- Constants of `OBD.h` used by the serial engine; the header is not part of
the sources at hand, so they are parameters. -/
structure Header where
  OBD_TIMEOUT_SHORT : Nat
  OBD_TIMEOUT_LONG : Nat
  deriving DecidableEq, Repr

/-- Connection states (`OBD_STATES` of `OBD.h`). -/
inductive OBD_STATES where
  | OBD_DISCONNECTED
  | OBD_CONNECTING
  | OBD_CONNECTED
  deriving DecidableEq, Repr

/-- Member variables of `COBD` that the embedded functions use. -/
structure COBD where
  dataMode : Nat
  errors : Nat
  pidmap : List Nat
  m_state : OBD_STATES
  deriving DecidableEq, Repr

/-- Embedding of `void COBD::write(const char* s)`: the text goes out on the port. -/
def write (s : List Nat) (w : World) : World :=
  { w with tx := w.tx ++ [s] }

/-! ## Byte framer (OBD.cpp lines 327-358) -/

/-- Outcome of `COBD::receive`: the returned length `n`, the buffer (`none` for
a null pointer), the value of `timeout` on exit, and the polls not consumed. -/
structure Received where
  n : Nat
  buffer : Option (List Nat)
  timeout : Nat
  rest : List Event
  deriving DecidableEq, Repr

/-- The exit of `receive`: `if (buffer) buffer[n] = 0; return n;`. -/
def receiveExit (buffer : Option (List Nat)) (n timeout : Nat) (rest : List Event) : Received :=
  ⟨n, buffer.map (fun b => b.set n 0), timeout, rest⟩

/-- The `for (;;)` loop of `COBD::receive`.  `n` is an `unsigned char`; the test
`n < bufsize - 1` is made in `int`, written here as `n + 1 < bufsize`. -/
def receiveLoop (H : Header) (bufsize : Nat) :
    List Event → Option (List Nat) → Nat → Nat → Received
  | [], buffer, n, timeout => receiveExit buffer n timeout []
  | Event.idle elapsed :: rest, buffer, n, timeout =>
    if elapsed > timeout then receiveExit buffer n timeout rest
    else receiveLoop H bufsize rest buffer n timeout
  | Event.rx c :: rest, buffer, n, timeout =>
    if n > 2 ∧ c = 62 then receiveExit buffer n timeout rest
    else
      match buffer with
      | none => receiveLoop H bufsize rest none ((n + 1) % 256) timeout
      | some buf =>
        if n + 1 < bufsize then
          if c = 46 ∧ n > 2 ∧ buf.getD (n - 1) 0 = 46 ∧ buf.getD (n - 2) 0 = 46 then
            receiveLoop H bufsize rest (some buf) 0 H.OBD_TIMEOUT_LONG
          else
            receiveLoop H bufsize rest (some (buf.set n c)) ((n + 1) % 256) timeout
        else receiveLoop H bufsize rest (some buf) n timeout

/-- Embedding of `byte COBD::receive(char* buffer, byte bufsize, int timeout)`. -/
def receive (H : Header) (buffer : Option (List Nat)) (bufsize timeout : Nat)
    (rx : List Event) : Received :=
  receiveLoop H bufsize rx buffer 0 timeout

/-! ## Response scanner (OBD.cpp lines 201-218) -/

/-- The library function `strstr` on the text that starts at index `p` of a
buffer and is given as the list of the cells from `p` on: the index of the
first occurrence of `needle` before the terminating NUL.  `needle` is a string
literal without NUL at every call site. -/
def strstr (needle : List Nat) : List Nat → Nat → Option Nat
  | [], p => if needle.isPrefixOf [] then some p else none
  | c :: cs, p =>
    if needle.isPrefixOf (c :: cs) then some p
    else if c = 0 then none
    else strstr needle cs (p + 1)

/-- Outcome of the inner `while` loop of `getResponse` on one frame: the
returned pointer as an index into the buffer (`none` when the loop ends without
a `return`), and the values of `pid` and `errors`. -/
structure Scanned where
  data : Option Nat
  pid : Nat
  errors : Nat
  deriving DecidableEq, Repr

/-- The inner loop `while ((p = strstr(p, "41 ")))` of `getResponse`, from
index `p`, with `fuel` iterations left.  Cells outside the buffer read as 0. -/
def scanFrame (buffer : List Nat) : Nat → Nat → Nat → Nat → Scanned
  | 0, _, pid, errors => ⟨none, pid, errors⟩
  | fuel + 1, p, pid, errors =>
    match strstr [52, 49, 32] (buffer.drop p) p with
    | none => ⟨none, pid, errors⟩
    | some q =>
      let p := q + 3
      let curpid := hex2uint8 (buffer.getD p 0) (buffer.getD (p + 1) 0)
      let pid := if pid = 0 then curpid else pid
      if curpid = pid then
        let p := p + 2
        if buffer.getD p 0 = 32 then ⟨some (p + 1), pid, 0⟩
        else scanFrame buffer fuel p pid 0
      else scanFrame buffer fuel p pid errors

/-- Outcome of `getResponse`: the returned pointer as an index into the buffer
(`none` for the null pointer), `pid` and `errors` on return, the buffer, and
the polls not consumed. -/
structure Response where
  data : Option Nat
  pid : Nat
  errors : Nat
  buffer : List Nat
  rest : List Event
  deriving DecidableEq, Repr

/-- The outer loop `while (receive(buffer, bufsize) > 0)` of `getResponse`, with
`fuel` iterations left.  Each frame is scanned from index 0; the scan needs at
most one iteration per three cells of the buffer. -/
def getResponseLoop (H : Header) (bufsize : Nat) :
    Nat → Nat → Nat → List Nat → List Event → Response
  | 0, pid, errors, buffer, rx => ⟨none, pid, errors, buffer, rx⟩
  | fuel + 1, pid, errors, buffer, rx =>
    let r := receive H (some buffer) bufsize H.OBD_TIMEOUT_SHORT rx
    let buffer := r.buffer.getD buffer
    if r.n > 0 then
      let s := scanFrame buffer (buffer.length + 1) 0 pid errors
      match s.data with
      | some d => ⟨some d, s.pid, s.errors, buffer, r.rest⟩
      | none => getResponseLoop H bufsize fuel s.pid s.errors buffer r.rest
    else ⟨none, pid, errors, buffer, r.rest⟩

/-- Embedding of `char* COBD::getResponse(byte& pid, char* buffer, byte bufsize)`.
Every frame of positive length consumes at least one poll, so one iteration
more than there are polls is enough. -/
def getResponse (H : Header) (pid errors : Nat) (buffer : List Nat) (bufsize : Nat)
    (rx : List Event) : Response :=
  getResponseLoop H bufsize (rx.length + 1) pid errors buffer rx

/-! ## PID value codec (OBD.cpp lines 115-199)

The PID numbers and the four inline value helpers live in `OBD.h`, which is not
part of the sources at hand. -/

/-- Modelled from the spec: the `PID_*` constants of `OBD.h`.  The specification
leaves their values to the OBD-II standard and names 0x0C as RPM, 0x05 as
coolant temperature and 0x01 as monitor status; the others are the standard
mode-01 numbers. -/
def PID_MONITOR : Nat := 0x01
def PID_ENGINE_LOAD : Nat := 0x04
def PID_COOLANT_TEMP : Nat := 0x05
def PID_SHORT_TERM_FUEL_TRIM_1 : Nat := 0x06
def PID_LONG_TERM_FUEL_TRIM_1 : Nat := 0x07
def PID_SHORT_TERM_FUEL_TRIM_2 : Nat := 0x08
def PID_LONG_TERM_FUEL_TRIM_2 : Nat := 0x09
def PID_FUEL_PRESSURE : Nat := 0x0A
def PID_RPM : Nat := 0x0C
def PID_TIMING_ADVANCE : Nat := 0x0E
def PID_INTAKE_TEMP : Nat := 0x0F
def PID_MAF_FLOW : Nat := 0x10
def PID_THROTTLE : Nat := 0x11
def PID_RUNTIME : Nat := 0x1F
def PID_DISTANCE_WITH_MIL : Nat := 0x21
def PID_COMMANDED_EGR : Nat := 0x2C
def PID_EGR_ERROR : Nat := 0x2D
def PID_COMMANDED_EVAPORATIVE_PURGE : Nat := 0x2E
def PID_FUEL_LEVEL : Nat := 0x2F
def PID_DISTANCE : Nat := 0x31
def PID_EVAP_SYS_VAPOR_PRESSURE : Nat := 0x32
def PID_CATALYST_TEMP_B1S1 : Nat := 0x3C
def PID_CATALYST_TEMP_B2S1 : Nat := 0x3D
def PID_CATALYST_TEMP_B1S2 : Nat := 0x3E
def PID_CATALYST_TEMP_B2S2 : Nat := 0x3F
def PID_CONTROL_MODULE_VOLTAGE : Nat := 0x42
def PID_ABSOLUTE_ENGINE_LOAD : Nat := 0x43
def PID_AIR_FUEL_EQUIV_RATIO : Nat := 0x44
def PID_RELATIVE_THROTTLE_POS : Nat := 0x45
def PID_AMBIENT_TEMP : Nat := 0x46
def PID_ABSOLUTE_THROTTLE_POS_B : Nat := 0x47
def PID_ABSOLUTE_THROTTLE_POS_C : Nat := 0x48
def PID_ACC_PEDAL_POS_D : Nat := 0x49
def PID_ACC_PEDAL_POS_E : Nat := 0x4A
def PID_ACC_PEDAL_POS_F : Nat := 0x4B
def PID_COMMANDED_THROTTLE_ACTUATOR : Nat := 0x4C
def PID_TIME_WITH_MIL : Nat := 0x4D
def PID_TIME_SINCE_CODES_CLEARED : Nat := 0x4E
def PID_ETHANOL_FUEL : Nat := 0x52
def PID_FUEL_RAIL_PRESSURE : Nat := 0x59
def PID_HYBRID_BATTERY_PERCENTAGE : Nat := 0x5B
def PID_ENGINE_OIL_TEMP : Nat := 0x5C
def PID_FUEL_INJECTION_TIMING : Nat := 0x5D
def PID_ENGINE_FUEL_RATE : Nat := 0x5E
def PID_ENGINE_TORQUE_DEMANDED : Nat := 0x61
def PID_ENGINE_TORQUE_PERCENTAGE : Nat := 0x62
def PID_ENGINE_REF_TORQUE : Nat := 0x63

/-- Modelled from the spec: `getSmallValue` of `OBD.h`, the first byte `A` of the
payload text, decoded by `hex2uint8`. -/
def getSmallValue (data : List Nat) : Nat :=
  hex2uint8 (data.getD 0 0) (data.getD 1 0)

/-- Modelled from the spec: `getLargeValue` of `OBD.h`, the two-byte big-endian
value `AB` of the payload text, decoded by `hex2uint16`. -/
def getLargeValue (data : List Nat) : Nat :=
  hex2uint16 data

/-- Modelled from the spec: `getTemperatureValue` of `OBD.h`, the raw byte less
the fixed bias 40. -/
def getTemperatureValue (data : List Nat) : Int :=
  (hex2uint8 (data.getD 0 0) (data.getD 1 0) : Int) - 40

/-- Modelled from the spec: `getPercentageValue` of `OBD.h`, `A * 100 / 255`. -/
def getPercentageValue (data : List Nat) : Nat :=
  hex2uint8 (data.getD 0 0) (data.getD 1 0) * 100 / 255

/-- Conversion of a value to the 16-bit `int` of the AVR targets. -/
def toInt16 (x : Int) : Int :=
  (x + 32768) % 65536 - 32768

/-- Embedding of `int COBD::normalizeData(byte pid, char* data)`; `data` is the
text from the data pointer on.  The case of `PID_MONITOR` assigns `result` and,
having no `break`, runs on into the statement of the next case. -/
def normalizeData (pid : Nat) (data : List Nat) : Int :=
  toInt16 <|
    if pid = PID_MONITOR then
      (fun (_ : Int) => ((getLargeValue data >>> 2 : Nat) : Int))
        ((getSmallValue data >>> 8 : Nat) : Int)
    else if pid = PID_RPM ∨ pid = PID_EVAP_SYS_VAPOR_PRESSURE then
      ((getLargeValue data >>> 2 : Nat) : Int)
    else if pid = PID_FUEL_PRESSURE then
      ((getSmallValue data * 3 : Nat) : Int)
    else if pid = PID_COOLANT_TEMP ∨ pid = PID_INTAKE_TEMP ∨ pid = PID_AMBIENT_TEMP
        ∨ pid = PID_ENGINE_OIL_TEMP then
      getTemperatureValue data
    else if pid = PID_THROTTLE ∨ pid = PID_COMMANDED_EGR
        ∨ pid = PID_COMMANDED_EVAPORATIVE_PURGE ∨ pid = PID_FUEL_LEVEL
        ∨ pid = PID_RELATIVE_THROTTLE_POS ∨ pid = PID_ABSOLUTE_THROTTLE_POS_B
        ∨ pid = PID_ABSOLUTE_THROTTLE_POS_C ∨ pid = PID_ACC_PEDAL_POS_D
        ∨ pid = PID_ACC_PEDAL_POS_E ∨ pid = PID_ACC_PEDAL_POS_F
        ∨ pid = PID_COMMANDED_THROTTLE_ACTUATOR ∨ pid = PID_ENGINE_LOAD
        ∨ pid = PID_ABSOLUTE_ENGINE_LOAD ∨ pid = PID_ETHANOL_FUEL
        ∨ pid = PID_HYBRID_BATTERY_PERCENTAGE then
      ((getPercentageValue data : Nat) : Int)
    else if pid = PID_MAF_FLOW then
      ((getLargeValue data / 100 : Nat) : Int)
    else if pid = PID_TIMING_ADVANCE then
      ((getSmallValue data / 2 : Nat) : Int) - 64
    else if pid = PID_DISTANCE ∨ pid = PID_DISTANCE_WITH_MIL ∨ pid = PID_TIME_WITH_MIL
        ∨ pid = PID_TIME_SINCE_CODES_CLEARED ∨ pid = PID_RUNTIME
        ∨ pid = PID_FUEL_RAIL_PRESSURE ∨ pid = PID_ENGINE_REF_TORQUE then
      (getLargeValue data : Int)
    else if pid = PID_CONTROL_MODULE_VOLTAGE then
      ((getLargeValue data / 1000 : Nat) : Int)
    else if pid = PID_ENGINE_FUEL_RATE then
      ((getLargeValue data / 20 : Nat) : Int)
    else if pid = PID_ENGINE_TORQUE_DEMANDED ∨ pid = PID_ENGINE_TORQUE_PERCENTAGE then
      (getSmallValue data : Int) - 125
    else if pid = PID_SHORT_TERM_FUEL_TRIM_1 ∨ pid = PID_LONG_TERM_FUEL_TRIM_1
        ∨ pid = PID_SHORT_TERM_FUEL_TRIM_2 ∨ pid = PID_LONG_TERM_FUEL_TRIM_2
        ∨ pid = PID_EGR_ERROR then
      Int.tdiv (((getSmallValue data : Int) - 128) * 100) 128
    else if pid = PID_FUEL_INJECTION_TIMING then
      Int.tdiv ((getLargeValue data : Int) - 26880) 128
    else if pid = PID_CATALYST_TEMP_B1S1 ∨ pid = PID_CATALYST_TEMP_B2S1
        ∨ pid = PID_CATALYST_TEMP_B1S2 ∨ pid = PID_CATALYST_TEMP_B2S2 then
      ((getLargeValue data / 10 : Nat) : Int) - 40
    else if pid = PID_AIR_FUEL_EQUIV_RATIO then
      ((getLargeValue data * 200 / 65536 : Nat) : Int)
    else
      (getSmallValue data : Int)

/-! ## Command/response engine (OBD.cpp lines 59-101, 220-231, 360-364) -/

/-- Text printed by `%02X` for a byte `v`: two upper-case hexadecimal digits. -/
def fmt02X (v : Nat) : List Nat :=
  [hexCharUpper (v / 16 % 16), hexCharUpper (v % 16)]

/-- Text built by `sprintf(cmd, "%02X%02X\r", dataMode, pid)`. -/
def queryText (dataMode pid : Nat) : List Nat :=
  fmt02X dataMode ++ fmt02X pid ++ [13]

/-- Embedding of `void COBD::sendQuery(byte pid)`. -/
def sendQuery (obd : COBD) (pid : Nat) (w : World) : World :=
  write (queryText obd.dataMode pid) w

/-- Embedding of `byte COBD::sendCommand(cmd, buf, bufsize, timeout)`; the idle
hook only lets time pass.  The result is the returned length, the buffer and
the world. -/
def sendCommand (H : Header) (cmd : List Nat) (buf : List Nat) (bufsize timeout : Nat)
    (w : World) : Nat × List Nat × World :=
  let w := write cmd w
  let r := receive H (some buf) bufsize timeout w.rx
  (r.n, r.buffer.getD buf, { w with rx := r.rest })

/-- Embedding of `void COBD::recover()`: `sendCommand("AT\r", buf, sizeof(buf))`
with a local `char buf[16]` that is written and never read, and the default
timeout `OBD_TIMEOUT_SHORT`. -/
def recover (H : Header) (w : World) : World :=
  (sendCommand H [65, 84, 13] (List.replicate 16 0) 16 H.OBD_TIMEOUT_SHORT w).2.2

/-- Outcome of `getResult`: the returned flag, `pid` and `result` after the
call (both are passed by reference), the engine and the world. -/
structure Result where
  ok : Bool
  pid : Nat
  result : Int
  obd : COBD
  w : World
  deriving DecidableEq, Repr

/-- Embedding of `bool COBD::getResult(byte& pid, int& result)`.  `buffer` is
the content of the local `char buffer[64]` on entry, which the source does not
initialise. -/
def getResult (H : Header) (pid : Nat) (result : Int) (buffer : List Nat) (obd : COBD)
    (w : World) : Result :=
  let r := getResponse H pid obd.errors buffer 64 w.rx
  let obd := { obd with errors := r.errors }
  let w := { w with rx := r.rest }
  match r.data with
  | none =>
    let w := recover H w
    ⟨false, r.pid, result, { obd with errors := (obd.errors + 1) % 256 }, w⟩
  | some d => ⟨true, r.pid, normalizeData r.pid (r.buffer.drop d), obd, w⟩

/-- Embedding of `bool COBD::readPID(byte pid, int& result)`. -/
def readPID (H : Header) (pid : Nat) (result : Int) (buffer : List Nat) (obd : COBD)
    (w : World) : Result :=
  getResult H pid result buffer obd (sendQuery obd pid w)

/-- Outcome of the batched `readPID`: the returned count, the `result` array,
the engine and the world. -/
structure Results where
  results : Nat
  result : List Int
  obd : COBD
  w : World
  deriving DecidableEq, Repr

/-- The second `for` loop of the batched `readPID`, over the PIDs still to be
read, `n` being the index of the first of them. -/
def readPIDLoop (H : Header) (buffer : List Nat) :
    List Nat → Nat → Nat → List Int → COBD → World → Results
  | [], _, results, result, obd, w => ⟨results, result, obd, w⟩
  | curpid :: pids, n, results, result, obd, w =>
    let r := getResult H curpid (result.getD n 0) buffer obd w
    if r.ok then
      readPIDLoop H buffer pids (n + 1) ((results + 1) % 256) (result.set n r.result) r.obd r.w
    else
      readPIDLoop H buffer pids (n + 1) results result r.obd r.w

/-- Text built by the first `for` loop of the batched `readPID`: one
`"%02X%02X\r"` segment per PID, in list order. -/
def batchText (dataMode : Nat) (pid : List Nat) : List Nat :=
  pid.flatMap (fun p => queryText dataMode p)

/-- Embedding of `byte COBD::readPID(const byte pid[], byte count, int result[])`
for `count ≥ 1`; `buffer` is the content of the uninitialised local array that
each call of `getResult` starts with. -/
def readPIDs (H : Header) (pid : List Nat) (count : Nat) (result : List Int)
    (buffer : List Nat) (obd : COBD) (w : World) : Results :=
  let w := write (batchText obd.dataMode (pid.take count)) w
  readPIDLoop H buffer (pid.take count) 0 0 result obd w

/-! ## MIL status (OBD.cpp lines 479-488) -/

/-- Embedding of `bool COBD::isMILOn()`.  `value` is the content of the local
`int value`, which the source does not initialise and which is what is tested
when the read fails; `buffer` is the local buffer of `getResult`. -/
def isMILOn (H : Header) (value : Int) (buffer : List Nat) (obd : COBD) (w : World) :
    Bool × COBD × World :=
  let r := readPID H PID_MONITOR value buffer obd w
  (if r.result > 126 then true else false, r.obd, r.w)

/-! ## Connection (OBD.cpp lines 233-246, 366-408) -/

/-- Value of `PROTO_AUTO` in the enumeration `OBD_PROTOCOLS` of `OBD.h`. -/
def PROTO_AUTO : Nat := 0

/-- Embedding of `bool COBD::setProtocol(OBD_PROTOCOLS h)`; the local `buf` is
written before it is read. -/
def setProtocol (H : Header) (h : Nat) (w : World) : Bool × World :=
  let w :=
    if h = PROTO_AUTO then write [65, 84, 83, 80, 48, 48, 13] w
    else write ([65, 84, 83, 80] ++ (Nat.toDigits 10 h).map Char.toNat ++ [13]) w
  let r := receive H (some (List.replicate 32 0)) 32 H.OBD_TIMEOUT_LONG w.rx
  let buf := r.buffer.getD []
  (decide (r.n > 0) && (strstr [79, 75] buf 0).isSome, { w with rx := r.rest })

/-- The array `initcmd` of `init`: `"ATZ\r"`, `"ATE0\r"`, `"ATL1\r"`, `"0100\r"`. -/
def initcmd : List (List Nat) :=
  [[65, 84, 90, 13], [65, 84, 69, 48, 13], [65, 84, 76, 49, 13], [48, 49, 48, 48, 13]]

/-- The handshake loop of `init` over the commands still to be sent: `false`
when a command receives an empty frame (the early `return false`). -/
def handshake (H : Header) : List (List Nat) → List Nat → World → Bool × List Nat × World
  | [], buffer, w => (true, buffer, w)
  | cmd :: cmds, buffer, w =>
    let w := write cmd w
    let r := receive H (some buffer) 64 H.OBD_TIMEOUT_LONG w.rx
    if r.n = 0 then (false, r.buffer.getD buffer, { w with rx := r.rest })
    else handshake H cmds (r.buffer.getD buffer) { w with rx := r.rest }

/-- The loop `for (byte n = 0; n < 4; n++)` that stores the bytes of one
capability reply, over the values of `n` still to come; `data` is the index
of the pointer after `data--`. -/
def loadPidBytes (buffer : List Nat) (data i : Nat) : List Nat → List Nat → List Nat
  | [], pidmap => pidmap
  | n :: ns, pidmap =>
    if buffer.getD (data + n * 3) 0 ≠ 32 then pidmap
    else
      loadPidBytes buffer data i ns
        (pidmap.set (i * 4 + n)
          (hex2uint8 (buffer.getD (data + n * 3 + 1) 0) (buffer.getD (data + n * 3 + 2) 0)))

/-- State of the loop that loads the PID map: the value of `i` when the loop is
left (4 when it runs to its end), the engine, the buffer and the world. -/
structure PidMapLoad where
  i : Nat
  obd : COBD
  buffer : List Nat
  w : World
  deriving DecidableEq, Repr

/-- The loop `for (byte i = 0; i < 4; i++)` of `init` that loads the PID map,
over the values of `i` still to come. -/
def loadPidMap (H : Header) : List Nat → Nat → COBD → List Nat → World → PidMapLoad
  | [], iEnd, obd, buffer, w => ⟨iEnd, obd, buffer, w⟩
  | i :: is, iEnd, obd, buffer, w =>
    let pid := (i * 0x20) % 256
    let w := sendQuery obd pid w
    let r := getResponse H pid obd.errors buffer 64 w.rx
    let obd := { obd with errors := r.errors }
    let w := { w with rx := r.rest }
    match r.data with
    | none => ⟨i, obd, r.buffer, w⟩
    | some d =>
      let pidmap := loadPidBytes r.buffer (d - 1) i [0, 1, 2, 3] obd.pidmap
      loadPidMap H is iEnd { obd with pidmap := pidmap } r.buffer w

/-- Outcome of `init`: the returned flag, the engine, the world, and the number
of capability queries answered before the map loading loop was left. -/
structure InitResult where
  ok : Bool
  obd : COBD
  w : World
  answered : Nat
  deriving DecidableEq, Repr

/-- Embedding of `bool COBD::init(OBD_PROTOCOLS protocol)`; `buffer` is the
content of the local `char buffer[64]` on entry. -/
def init (H : Header) (protocol : Nat) (buffer : List Nat) (obd : COBD) (w : World) :
    InitResult :=
  let obd := { obd with m_state := OBD_STATES.OBD_CONNECTING }
  match handshake H initcmd buffer w with
  | (false, _, w) => ⟨false, { obd with m_state := OBD_STATES.OBD_DISCONNECTED }, w, 0⟩
  | (true, buffer, w) =>
    let w := if protocol ≠ PROTO_AUTO then (setProtocol H protocol w).2 else w
    let obd := { obd with pidmap := List.replicate obd.pidmap.length 0 }
    let l := loadPidMap H [0, 1, 2, 3] 4 obd buffer w
    ⟨true, { l.obd with m_state := OBD_STATES.OBD_CONNECTED, errors := 0 }, l.w, l.i⟩

/-- The lengths that `k` calls `receive(buffer, sizeof(buffer), OBD_TIMEOUT_LONG)`
in a row return, each call starting where the one before stopped: the lengths
of the frames that answer the handshake commands. -/
def handshakeLengths (H : Header) : Nat → List Nat → List Event → List Nat
  | 0, _, _ => []
  | k + 1, buffer, rx =>
    let r := receive H (some buffer) 64 H.OBD_TIMEOUT_LONG rx
    r.n :: handshakeLengths H k (r.buffer.getD buffer) r.rest

/-! ## Reply texts of the adapter (specification, section 6) -/

/-- Text of one reply line `"41 XX B0 B1 ...\r"`: the mode echo, the PID and
the data bytes as two upper-case hexadecimal digits each, separated by spaces
and closed by a carriage return. -/
def replyText (pid : Nat) (bytes : List Nat) : List Nat :=
  [52, 49, 32] ++ fmt02X pid ++ bytes.flatMap (fun b => 32 :: fmt02X b) ++ [13]

/-- The polls that deliver the characters of `t` followed by the prompt `'>'`. -/
def promptFrame (t : List Nat) : List Event :=
  t.map Event.rx ++ [Event.rx 62]

/-- The four data bytes `B0 B1 B2 B3` of a capability reply. -/
structure CapabilityBytes where
  b0 : Nat
  b1 : Nat
  b2 : Nat
  b3 : Nat
  deriving DecidableEq, Repr

/-- The 32-bit big-endian value `B0B1B2B3`. -/
def CapabilityBytes.value (c : CapabilityBytes) : Nat :=
  c.b0 * 2 ^ 24 + c.b1 * 2 ^ 16 + c.b2 * 2 ^ 8 + c.b3

/-- Each of the four bytes is below 256. -/
@[reducible] def CapabilityBytes.IsBytes (c : CapabilityBytes) : Prop :=
  c.b0 < 256 ∧ c.b1 < 256 ∧ c.b2 < 256 ∧ c.b3 < 256

/-- The polls that answer capability query `i` (PID `0x20 * i`) with the frame
`"41 XX B0 B1 B2 B3\r"` and the prompt. -/
def capabilityReply (i : Nat) (c : CapabilityBytes) : List Event :=
  promptFrame (replyText (0x20 * i) [c.b0, c.b1, c.b2, c.b3])

/-- The polls that answer the capability queries `i`, `i + 1`, ... in turn. -/
def capabilityReplies : Nat → List CapabilityBytes → List Event
  | _, [] => []
  | i, c :: cs => capabilityReply i c ++ capabilityReplies (i + 1) cs

/-- The state in which `init`, its handshake done, is about to send capability
query `i`: the protocol is selected, the map is cleared and the passes for the
queries before `i` are made.  The field `i` of the result equals `i` exactly
when every earlier query returned data, so that query `i` is reached. -/
def capabilityQueryState (H : Header) (protocol : Nat) (buffer : List Nat) (obd : COBD)
    (w : World) (i : Nat) : PidMapLoad :=
  match handshake H initcmd buffer w with
  | (_, buffer, w) =>
    let w := if protocol ≠ PROTO_AUTO then (setProtocol H protocol w).2 else w
    let obd := { obd with m_state := OBD_STATES.OBD_CONNECTING,
                          pidmap := List.replicate obd.pidmap.length 0 }
    loadPidMap H (List.range' 0 i) i obd buffer w

/-- The text `t` holds no ellipsis burst: no three consecutive `'.'`. -/
def noEllipsis (t : List Nat) : Prop :=
  ∀ i : Nat, i < t.length - 2 →
    ¬ (t.getD i 0 = 46 ∧ t.getD (i + 1) 0 = 46 ∧ t.getD (i + 2) 0 = 46)

instance (t : List Nat) : Decidable (noEllipsis t) :=
  inferInstanceAs (Decidable (∀ i : Nat, i < t.length - 2 →
    ¬ (t.getD i 0 = 46 ∧ t.getD (i + 1) 0 = 46 ∧ t.getD (i + 2) 0 = 46)))

/-! ## I2C byte framer (OBD.cpp lines 554-586)

`MAX_PAYLOAD_SIZE` is a constant of `OBD.h` and is a parameter here.  One pass
of the `do` loop is one bus transaction: `Wire.requestFrom` fetches at most
`MAX_PAYLOAD_SIZE` bytes, which `Wire.read` then hands out one by one. -/

/-- One pass of the `do` loop of `COBDI2C::receive` as the bus shows it: the
bytes the device delivers to `Wire.requestFrom`, and the value of
`millis() - start` when the loop condition of that pass is evaluated. -/
structure Transfer where
  bytes : List Nat
  elapsed : Nat
  deriving DecidableEq, Repr

/-- Outcome of `COBDI2C::receive`: the returned value `n`, the memory of the
buffer (`none` for a null pointer), `offset` and `timeout` on exit, and the
transactions not made. -/
structure I2CReceived where
  n : Nat
  buffer : Option (List Nat)
  offset : Nat
  timeout : Nat
  rest : List Transfer
  deriving DecidableEq, Repr

/-- State after the inner `for` loop of `COBDI2C::receive`: `returned` is true
when the loop left the function with `return offset`. -/
structure I2CInner where
  returned : Bool
  buffer : Option (List Nat)
  offset : Nat
  timeout : Nat
  deriving DecidableEq, Repr

/-- The statement `if (buffer) buffer[offset++] = c;` with `offset` a `byte`. -/
def i2cStore (buffer : Option (List Nat)) (offset c : Nat) : Option (List Nat) × Nat :=
  match buffer with
  | none => (none, offset)
  | some buf => (some (buf.set offset c), (offset + 1) % 256)

/-- The inner loop `for (byte i = 1; i < MAX_PAYLOAD_SIZE && Wire.available(); i++)`
of `COBDI2C::receive`: the first argument counts the passes that `i` still
allows, the second is what `Wire.read` still holds.  The test
`offset == bufsize - 1` is made in `int`, written here as `offset + 1 = bufsize`. -/
def i2cInner (H : Header) (bufsize : Nat) :
    Nat → List Nat → Option (List Nat) → Nat → Nat → I2CInner
  | 0, _, buffer, offset, timeout => ⟨false, buffer, offset, timeout⟩
  | _ + 1, [], buffer, offset, timeout => ⟨false, buffer, offset, timeout⟩
  | k + 1, c :: cs, buffer, offset, timeout =>
    if c = 46 ∧ offset > 2 ∧ (buffer.getD []).getD (offset - 1) 0 = 46
        ∧ (buffer.getD []).getD (offset - 2) 0 = 46 then
      i2cInner H bufsize k cs buffer 0 H.OBD_TIMEOUT_LONG
    else if c = 0 ∨ offset + 1 = bufsize then
      ⟨true, buffer.map (fun b => b.set offset 0), offset, timeout⟩
    else
      i2cInner H bufsize k cs (i2cStore buffer offset c).1 (i2cStore buffer offset c).2 timeout

/-- The `do ... while (millis() - start < timeout)` loop of
`COBDI2C::receive`.  `int c = Wire.read()` is -1 when the transaction delivered
nothing; stored into a `char` cell it is the byte 255.  When the list of
transactions is used up the clock has passed the timeout. -/
def i2cLoop (H : Header) (MAX_PAYLOAD_SIZE bufsize : Nat) :
    List Transfer → Option (List Nat) → Nat → Nat → I2CReceived
  | [], buffer, offset, timeout =>
    ⟨0, buffer.map (fun b => b.set offset 0), offset, timeout, []⟩
  | t :: rest, buffer, offset, timeout =>
    let c : Int :=
      match t.bytes.take MAX_PAYLOAD_SIZE with
      | [] => -1
      | b :: _ => (b : Int)
    if offset = 0 ∧ c < 10 then
      if t.elapsed < timeout then i2cLoop H MAX_PAYLOAD_SIZE bufsize rest buffer offset timeout
      else ⟨0, buffer.map (fun b => b.set offset 0), offset, timeout, rest⟩
    else
      let s := i2cStore buffer offset (c % 256).toNat
      let r := i2cInner H bufsize (MAX_PAYLOAD_SIZE - 1) (t.bytes.take MAX_PAYLOAD_SIZE).tail
        s.1 s.2 timeout
      if r.returned then ⟨r.offset, r.buffer, r.offset, r.timeout, rest⟩
      else if t.elapsed < r.timeout then
        i2cLoop H MAX_PAYLOAD_SIZE bufsize rest r.buffer r.offset r.timeout
      else ⟨0, r.buffer.map (fun b => b.set r.offset 0), r.offset, r.timeout, rest⟩

/-- Embedding of `byte COBDI2C::receive(char* buffer, byte bufsize, int timeout)`.
The buffer is given as the memory from its first cell on; it may be longer than
`bufsize`, the cells from `bufsize` on being what lies behind the buffer. -/
def COBDI2C.receive (H : Header) (MAX_PAYLOAD_SIZE : Nat) (buffer : Option (List Nat))
    (bufsize timeout : Nat) (bus : List Transfer) : I2CReceived :=
  i2cLoop H MAX_PAYLOAD_SIZE bufsize bus buffer 0 timeout

/-! ## Command buffer of the batched query (OBD.cpp lines 84-93) -/

/-- Cells `p`, `p + 1`, ... of a memory overwritten with the characters of a
text, one after the other. -/
def storeAt : List Nat → Nat → List Nat → List Nat
  | mem, _, [] => mem
  | mem, p, c :: cs => storeAt (mem.set p c) (p + 1) cs

/-- The call `sprintf(p, "%02X%02X\r", dataMode, pid)` with `p` an index into
`mem`: the text and its terminating NUL are stored from `p` on; the value is the
number of characters stored, the NUL not counted. -/
def sprintfQuery (mem : List Nat) (p dataMode pid : Nat) : List Nat × Nat :=
  (storeAt mem p (queryText dataMode pid ++ [0]), (queryText dataMode pid).length)

/-- The loop `for (byte n = 0; n < count; n++) p += sprintf(p, ...)` of the
batched `readPID` over the first `count` PIDs; `mem` is the memory from the
first cell of the local `buffer` on.  The result is the memory and `p`. -/
def batchLoop (dataMode : Nat) : List Nat → List Nat → Nat → List Nat × Nat
  | [], mem, p => (mem, p)
  | x :: xs, mem, p =>
    batchLoop dataMode xs (sprintfQuery mem p dataMode x).1
      (p + (sprintfQuery mem p dataMode x).2)

/-! ## Frames that carry the expected PID

The reference side of the failure path of `getResult`: the frames that the
calls of `receive` in `getResponse` deliver, and what it means for a frame to
carry a PID. -/

/-- The text of a frame carries the PID `pid`: at some index `q` with no NUL
before it stands `"41 "`, followed by two characters that `hex2uint8` decodes to
`pid`.  With the sentinel 0 for `pid` every `"41 "` counts. -/
def carriesPID (pid : Nat) (buffer : List Nat) : Prop :=
  ∃ q : Nat, q < buffer.length ∧ (∀ j : Nat, j < q → buffer.getD j 0 ≠ 0) ∧
    (buffer.getD q 0 = 52 ∧ buffer.getD (q + 1) 0 = 49 ∧ buffer.getD (q + 2) 0 = 32) ∧
    (pid = 0 ∨ hex2uint8 (buffer.getD (q + 3) 0) (buffer.getD (q + 4) 0) = pid)

instance (pid : Nat) (buffer : List Nat) : Decidable (carriesPID pid buffer) :=
  inferInstanceAs (Decidable (∃ q : Nat, q < buffer.length ∧ _))

/-- The buffer contents after each of the successive calls
`receive(buffer, bufsize)` with the short timeout, up to the first call that
returns 0; at most `fuel` calls. -/
def receivedFramesLoop (H : Header) (bufsize : Nat) :
    Nat → List Nat → List Event → List (List Nat)
  | 0, _, _ => []
  | fuel + 1, buffer, rx =>
    if (receive H (some buffer) bufsize H.OBD_TIMEOUT_SHORT rx).n > 0 then
      ((receive H (some buffer) bufsize H.OBD_TIMEOUT_SHORT rx).buffer.getD buffer) ::
        receivedFramesLoop H bufsize fuel
          ((receive H (some buffer) bufsize H.OBD_TIMEOUT_SHORT rx).buffer.getD buffer)
          (receive H (some buffer) bufsize H.OBD_TIMEOUT_SHORT rx).rest
    else []

/-- The frames of positive length that precede the first empty frame.  Every
such frame consumes at least one poll, so one call more than there are polls
reaches the empty frame. -/
def receivedFrames (H : Header) (buffer : List Nat) (bufsize : Nat) (rx : List Event) :
    List (List Nat) :=
  receivedFramesLoop H bufsize (rx.length + 1) buffer rx

/-! ## Theorems -/

theorem isHexDigit_ranges (c : Nat) (h : isHexDigit c = true) :
    (48 ≤ c ∧ c ≤ 57) ∨ (65 ≤ c ∧ c ≤ 70) ∨ (97 ≤ c ∧ c ≤ 102) := by
  simp only [isHexDigit, Bool.or_eq_true, Bool.and_eq_true, decide_eq_true_eq] at h
  omega

theorem not_isHexDigit_ranges (c : Nat) (h : isHexDigit c = false) :
    ¬ (48 ≤ c ∧ c ≤ 57) ∧ ¬ (65 ≤ c ∧ c ≤ 70) ∧ ¬ (97 ≤ c ∧ c ≤ 102) := by
  simp only [isHexDigit, Bool.or_eq_false_iff, Bool.and_eq_false_iff, decide_eq_false_iff_not] at h
  omega

theorem hex2uint8_of_hex (c1 c2 : Nat) (h1 : isHexDigit c1 = true) (h2 : isHexDigit c2 = true) :
    hex2uint8 c1 c2 = 16 * hexDigitValue c1 + hexDigitValue c2 := by
  rcases isHexDigit_ranges c1 h1 with ⟨a, b⟩ | ⟨a, b⟩ | ⟨a, b⟩ <;>
  rcases isHexDigit_ranges c2 h2 with ⟨a2, b2⟩ | ⟨a2, b2⟩ | ⟨a2, b2⟩ <;>
  interval_cases c1 <;> interval_cases c2 <;> rfl

theorem hex2uint8_of_not_hex (c1 c2 : Nat) (h : isHexDigit c1 = false ∨ isHexDigit c2 = false) :
    hex2uint8 c1 c2 = 0 := by
  unfold hex2uint8 hex2uint8.hex2uint8Low
  rcases h with h | h
  · have := not_isHexDigit_ranges c1 h
    simp only [this.2.1, this.2.2, if_false]
    rw [if_pos (by omega)]
  · have := not_isHexDigit_ranges c2 h
    have h3 : c2 < 48 ∨ c2 > 57 := by omega
    simp only [this.2.1, this.2.2, if_false, h3, if_true]
    split_ifs <;> rfl

theorem hexChar_digit (d : Nat) (h : d < 16) :
    isHexDigit (hexCharUpper d) = true ∧ hexDigitValue (hexCharUpper d) = d ∧
    isHexDigit (hexCharLower d) = true ∧ hexDigitValue (hexCharLower d) = d := by
  interval_cases d <;> decide

/-- C3: `hex2uint8` agrees with its reference definition on every pair of
characters: 16 * value(first) + value(second) when both are hexadecimal digits
(any mix of case), 0 when either is not; hence every byte rendered as two
hexadecimal digits, upper or lower case, decodes to itself. -/
theorem hex2uint8_eq_reference :
    (∀ c1 c2 : Nat, hex2uint8 c1 c2 = hex2uint8Ref c1 c2) ∧
    (∀ c1 c2 : Nat, isHexDigit c1 = true → isHexDigit c2 = true →
      hex2uint8 c1 c2 = 16 * hexDigitValue c1 + hexDigitValue c2) ∧
    (∀ c1 c2 : Nat, isHexDigit c1 = false ∨ isHexDigit c2 = false → hex2uint8 c1 c2 = 0) ∧
    (∀ v : Nat, v < 256 →
      hex2uint8 (hexCharUpper (v / 16)) (hexCharUpper (v % 16)) = v ∧
      hex2uint8 (hexCharLower (v / 16)) (hexCharLower (v % 16)) = v ∧
      hex2uint8 (hexCharUpper (v / 16)) (hexCharLower (v % 16)) = v ∧
      hex2uint8 (hexCharLower (v / 16)) (hexCharUpper (v % 16)) = v) := by
  refine ⟨?_, hex2uint8_of_hex, hex2uint8_of_not_hex, ?_⟩
  · intro c1 c2
    unfold hex2uint8Ref
    cases h1 : isHexDigit c1 <;> cases h2 : isHexDigit c2
    · simpa using hex2uint8_of_not_hex c1 c2 (Or.inl h1)
    · simpa using hex2uint8_of_not_hex c1 c2 (Or.inl h1)
    · simpa using hex2uint8_of_not_hex c1 c2 (Or.inr h2)
    · simpa using hex2uint8_of_hex c1 c2 h1 h2
  · intro v hv
    have hq : v / 16 < 16 := by omega
    have hr : v % 16 < 16 := by omega
    obtain ⟨a1, a2, a3, a4⟩ := hexChar_digit (v / 16) hq
    obtain ⟨b1, b2, b3, b4⟩ := hexChar_digit (v % 16) hr
    refine ⟨?_, ?_, ?_, ?_⟩
    · rw [hex2uint8_of_hex _ _ a1 b1, a2, b2]; omega
    · rw [hex2uint8_of_hex _ _ a3 b3, a4, b4]; omega
    · rw [hex2uint8_of_hex _ _ a1 b3, a2, b4]; omega
    · rw [hex2uint8_of_hex _ _ a3 b1, a4, b2]; omega

/-- Witness for C3 at the byte 0xAF and at the characters `'1'`, `'a'`, `'G'`. -/
theorem hex2uint8_eq_reference_witness :
    hex2uint8 49 97 = hex2uint8Ref 49 97 ∧ hex2uint8 49 97 = 26 ∧ hex2uint8 49 71 = 0 ∧
    hex2uint8 (hexCharUpper (175 / 16)) (hexCharUpper (175 % 16)) = 175 :=
  ⟨hex2uint8_eq_reference.1 49 97,
   hex2uint8_eq_reference.2.1 49 97 (by decide) (by decide),
   hex2uint8_eq_reference.2.2.1 49 71 (Or.inr (by decide)),
   (hex2uint8_eq_reference.2.2.2 175 (by decide)).1⟩

theorem shl4_or_nibble (i d : Nat) (hi : i < 4096) (hd : d < 16) :
    ((i <<< 4) % 65536) ||| d = 16 * i + d := by
  have h := Nat.mul_add_lt_is_or (i := 4) (b := d) (by simpa using hd) i
  rw [Nat.shiftLeft_eq, Nat.mod_eq_of_lt (by omega)]
  simp only [Nat.reducePow] at h ⊢
  rw [Nat.mul_comm i 16]
  exact h.symm

theorem hexDigit_nibble (c : Nat) (h : isHexDigit c = true) :
    (if 65 ≤ c ∧ c ≤ 70 then (c - 7) &&& 0xF
     else if 97 ≤ c ∧ c ≤ 102 then (c - 39) &&& 0xF else c &&& 0xF) = hexDigitValue c ∧
    hexDigitValue c < 16 := by
  rcases isHexDigit_ranges c h with ⟨a, b⟩ | ⟨a, b⟩ | ⟨a, b⟩ <;> interval_cases c <;> decide

theorem hex2uint16Loop_eq (s : List Nat) : ∀ i n : Nat, i < 16 ^ n → n ≤ 4 →
    hex2uint16Loop s i n =
      ((hexDigitsScanned s).take (4 - n)).foldl (fun acc c => 16 * acc + hexDigitValue c) i := by
  induction s with
  | nil => intro i n _ _; simp [hex2uint16Loop, hexDigitsScanned, cstr]
  | cons c cs ih =>
    intro i n hi hn
    by_cases hc : c = 0
    · subst hc; simp [hex2uint16Loop, hexDigitsScanned, cstr]
    by_cases hn4 : n < 4
    · cases hx : isHexDigit c
      · obtain ⟨x1, x2, x3⟩ := not_isHexDigit_ranges c hx
        by_cases hsp : c = 32
        · subst hsp
          have := ih i n hi hn
          simpa [hex2uint16Loop, hexDigitsScanned, cstr, hn4, hx] using this
        · have h3 : c < 48 ∨ c > 57 := by omega
          simp [hex2uint16Loop, hexDigitsScanned, cstr, hn4, hx, hc, hsp, x2, x3, h3]
      · obtain ⟨v1, v2⟩ := hexDigit_nibble c hx
        have hi4 : i < 4096 := by
          have : (16 : Nat) ^ n ≤ 16 ^ 3 := Nat.pow_le_pow_right (by decide) (by omega)
          omega
        have hstep : 16 * i + hexDigitValue c < 16 ^ (n + 1) := by
          rw [Nat.pow_succ]; omega
        have hrec := ih (16 * i + hexDigitValue c) (n + 1) hstep (by omega)
        have htake : 4 - n = (4 - (n + 1)) + 1 := by omega
        have hscan : hexDigitsScanned (c :: cs) = c :: hexDigitsScanned cs := by
          simp [hexDigitsScanned, cstr, hc, hx]
        rw [hscan, htake, List.take_succ_cons, List.foldl_cons, ← hrec]
        have hsp : c ≠ 32 := by intro h; subst h; simp [isHexDigit] at hx
        have hr : ¬ (c < 48 ∨ c > 57) ∨ (65 ≤ c ∧ c ≤ 70) ∨ (97 ≤ c ∧ c ≤ 102) := by
          have := isHexDigit_ranges c hx; omega
        rw [hex2uint16Loop, if_pos ⟨hc, hn4⟩]
        split_ifs at v1 ⊢ <;> first | omega | (rw [shl4_or_nibble _ _ hi4 (by omega), v1])
    · have hn' : n = 4 := by omega
      subst hn'
      simp [hex2uint16Loop]

theorem hex2uint16_skip_spaces (k : Nat) (t : List Nat) :
    hex2uint16Loop (List.replicate k 32 ++ t) 0 0 = hex2uint16Loop t 0 0 := by
  induction k with
  | zero => simp
  | succ k ih => simpa [List.replicate_succ, hex2uint16Loop] using ih

theorem hex2uint16_eq_ref (s : List Nat) : hex2uint16 s = hex2uint16Ref s := by
  have := hex2uint16Loop_eq s 0 0 (by decide) (by decide)
  simpa [hex2uint16, hex2uint16Ref, hexDigitsTaken] using this

/-- C4: `hex2uint16` agrees with its reference definition on every string:
spaces are skipped, scanning stops at the first character that is neither a
hexadecimal digit nor a space, at the end of the string, or after four digits,
and the result is the big-endian value of the digits taken (0 when there are
none).  `"1A F8\r"` decodes to 0x1AF8, and a string whose first non-space
character is not a hexadecimal digit decodes to 0. -/
theorem hex2uint16_eq_reference :
    (∀ s : List Nat, hex2uint16 s = hex2uint16Ref s) ∧
    hex2uint16 [49, 65, 32, 70, 56, 13] = 0x1AF8 ∧
    (∀ (k c : Nat) (rest : List Nat), isHexDigit c = false → c ≠ 32 →
      hex2uint16 (List.replicate k 32 ++ c :: rest) = 0) := by
  refine ⟨?_, by decide, ?_⟩
  · exact hex2uint16_eq_ref
  · intro k c rest hx hsp
    obtain ⟨x1, x2, x3⟩ := not_isHexDigit_ranges c hx
    have h3 : c < 48 ∨ c > 57 := by omega
    rw [hex2uint16, hex2uint16_skip_spaces]
    simp [hex2uint16Loop, x2, x3, hsp, h3]

/-- Witness for C4: two spaces followed by `'G'` and more text decode to 0. -/
theorem hex2uint16_eq_reference_witness :
    isHexDigit 71 = false ∧ hex2uint16 (List.replicate 2 32 ++ 71 :: [49, 50]) = 0 :=
  ⟨by decide, hex2uint16_eq_reference.2.2 2 71 [49, 50] (by decide) (by decide)⟩

theorem and_two_pow_ne_zero (x j : Nat) : ((x &&& 2 ^ j) != 0) = x.testBit j := by
  cases h : x.testBit j
  · have : x &&& 2 ^ j = 0 := by
      apply Nat.eq_of_testBit_eq
      intro i
      rw [Nat.testBit_and, Nat.testBit_two_pow, Nat.zero_testBit]
      by_cases hji : j = i
      · subst hji; simp [h]
      · simp [hji]
    simp [this]
  · have hbit : (x &&& 2 ^ j).testBit j = true := by
      rw [Nat.testBit_and, Nat.testBit_two_pow_self, h]; rfl
    have : x &&& 2 ^ j ≠ 0 := by
      intro h0
      rw [h0, Nat.zero_testBit] at hbit
      exact Bool.noConfusion hbit
    simpa using this

theorem mask_eq_two_pow (k : Nat) (h : k < 8) : 0x80 >>> k = 2 ^ (7 - k) := by
  interval_cases k <;> rfl

theorem isValidPID_lookup (pidmap : List Nat) (pid : Nat) (h1 : 1 ≤ pid) (h2 : pid ≤ 0x7E) :
    isValidPID pidmap pid = (pidmap.getD ((pid - 1) / 8) 0).testBit (7 - (pid - 1) % 8) := by
  have hdec : (pid + 256 - 1) % 256 = pid - 1 := by omega
  have hand : (pid - 1) &&& 0x7 = (pid - 1) % 8 := Nat.and_pow_two_sub_one_eq_mod (pid - 1) 3
  have hshr : (pid - 1) >>> 3 = (pid - 1) / 8 := by rw [Nat.shiftRight_eq_div_pow]
  unfold isValidPID
  rw [if_neg (by omega)]
  simp only [hdec, hand, hshr]
  rw [mask_eq_two_pow _ (Nat.mod_lt _ (by decide)), and_two_pow_ne_zero]

/-- C5: `isValidPID` agrees with its reference definition for every map and
every PID from 1 on: it is true for every PID from 0x7F on whatever the map
holds, and for a PID from 0x01 to 0x7E it is true exactly when the bit with mask
`0x80 >> ((pid - 1) mod 8)` is set in map byte `(pid - 1) div 8`. -/
theorem isValidPID_eq_reference :
    (∀ (pidmap : List Nat) (pid : Nat), 1 ≤ pid →
      isValidPID pidmap pid = isValidPIDRef pidmap pid) ∧
    (∀ (pidmap : List Nat) (pid : Nat), 0x7F ≤ pid → isValidPID pidmap pid = true) ∧
    (∀ (pidmap : List Nat) (pid : Nat), 1 ≤ pid → pid ≤ 0x7E →
      (isValidPID pidmap pid = true ↔
        pidmap.getD ((pid - 1) / 8) 0 &&& (0x80 >>> ((pid - 1) % 8)) ≠ 0)) := by
  refine ⟨?_, ?_, ?_⟩
  · intro pidmap pid h1
    by_cases h : 0x7F ≤ pid
    · simp [isValidPID, isValidPIDRef, h]
    · rw [isValidPID_lookup pidmap pid h1 (by omega)]
      simp [isValidPIDRef, h]
  · intro pidmap pid h
    simp [isValidPID, h]
  · intro pidmap pid h1 h2
    rw [isValidPID_lookup pidmap pid h1 h2, mask_eq_two_pow _ (Nat.mod_lt _ (by decide)),
      ← and_two_pow_ne_zero]
    simp

/-- Witness for C5: in a 32-byte map whose second byte is 0x40, PID 0x0A is
supported, and PID 0x80 is supported whatever the map holds. -/
theorem isValidPID_eq_reference_witness :
    isValidPID (0 :: 0x40 :: List.replicate 30 0) 0x0A
        = isValidPIDRef (0 :: 0x40 :: List.replicate 30 0) 0x0A ∧
    isValidPID (List.replicate 32 0) 0x80 = true ∧
    (isValidPID (0 :: 0x40 :: List.replicate 30 0) 0x0A = true ↔
      (0 :: 0x40 :: List.replicate 30 0).getD ((0x0A - 1) / 8) 0
        &&& (0x80 >>> ((0x0A - 1) % 8)) ≠ 0) :=
  ⟨isValidPID_eq_reference.1 _ 0x0A (by decide),
   isValidPID_eq_reference.2.1 _ 0x80 (by decide),
   isValidPID_eq_reference.2.2 _ 0x0A (by decide) (by decide)⟩

/-! ### Query set -/

/-- The array that holds the entries `es` followed by zeros. -/
theorem queryArray_getD_lt (M : Nat) (es : List Nat) (n : Nat) (h : n < es.length) :
    (es ++ List.replicate (M - es.length) 0).getD n 0 = es.getD n 0 := by
  simp [List.getD_eq_getElem?_getD, List.getElem?_append_left h]

theorem queryArray_getD_ge (M : Nat) (es : List Nat) (n : Nat) (h : es.length ≤ n) :
    (es ++ List.replicate (M - es.length) 0).getD n 0 = 0 := by
  rw [List.getD_eq_getElem?_getD, List.getElem?_append_right h]
  by_cases h2 : n - es.length < M - es.length
  · simp [List.getElem?_replicate, h2]
  · simp [List.getElem?_replicate, h2]

theorem setQueryPIDScan_eq (M pid : Nat) (es : List Nat) (hlen : es.length ≤ M)
    (hnz : ∀ x ∈ es, x ≠ 0) :
    ∀ (k n : Nat), n + k = es.length →
      setQueryPIDScan M pid (es ++ List.replicate (M - es.length) 0) (M - n) n
        = if pid ∈ es.drop n then none else some es.length := by
  intro k
  induction k with
  | zero =>
    intro n hn
    have hn' : n = es.length := by omega
    subst hn'
    have hz := queryArray_getD_ge M es es.length (Nat.le_refl _)
    rw [List.drop_length]
    rcases Nat.eq_zero_or_pos (M - es.length) with hf | hf
    · rw [hf]; simp [setQueryPIDScan]
    · obtain ⟨f, hf'⟩ : ∃ f, M - es.length = f + 1 := ⟨M - es.length - 1, by omega⟩
      rw [hf'] at hz ⊢
      rw [setQueryPIDScan, if_neg (fun h => h.2 hz)]
      simp
  | succ k ih =>
    intro n hn
    have hlt : n < es.length := by omega
    have hf : M - n = (M - (n + 1)) + 1 := by omega
    have hget := queryArray_getD_lt M es n hlt
    have hdrop : es.drop n = es[n] :: es.drop (n + 1) := List.drop_eq_getElem_cons hlt
    have hes : es.getD n 0 = es[n] := by
      simp [List.getD_eq_getElem?_getD, List.getElem?_eq_getElem hlt]
    have hne : es[n] ≠ 0 := hnz _ (List.getElem_mem hlt)
    rw [hf, setQueryPIDScan, hget, hes, if_pos ⟨by omega, hne⟩, hdrop]
    by_cases hp : es[n] = pid
    · simp [hp]
    · rw [if_neg hp, ih (n + 1) (by omega)]
      have hp' : ¬ pid = es[n] := fun h => hp h.symm
      simp only [List.mem_cons, hp', false_or]

theorem set_append_length (t : List Nat) (x y : Nat) (r : List Nat) :
    (t ++ x :: r).set t.length y = t ++ y :: r := by
  induction t with
  | nil => rfl
  | cons a t ih => simp [ih]

theorem setQueryPID_present (M pid : Nat) (es : List Nat) (hlen : es.length ≤ M)
    (hnz : ∀ x ∈ es, x ≠ 0) (hin : pid ∈ es) :
    setQueryPID M pid (es ++ List.replicate (M - es.length) 0)
      = es ++ List.replicate (M - es.length) 0 := by
  have hscan := setQueryPIDScan_eq M pid es hlen hnz es.length 0 (by omega)
  simp only [Nat.sub_zero, List.drop_zero, hin, if_true] at hscan
  simp [setQueryPID, hscan]

theorem drop_length_pred (l : List Nat) (n : Nat) (h : l.length = n + 1) :
    ∃ x, l.drop n = [x] := by
  apply List.length_eq_one.mp
  simp [h]

theorem setQueryPID_absent (M pid : Nat) (es : List Nat) (hlen : es.length ≤ M)
    (hnz : ∀ x ∈ es, x ≠ 0) (hin : pid ∉ es) (hM : 1 ≤ M) :
    setQueryPID M pid (es ++ List.replicate (M - es.length) 0)
      = pushEntry M es pid ++ List.replicate (M - (pushEntry M es pid).length) 0 := by
  have hscan := setQueryPIDScan_eq M pid es hlen hnz es.length 0 (by omega)
  simp only [Nat.sub_zero, List.drop_zero, hin, if_false] at hscan
  unfold setQueryPID pushEntry
  rw [hscan]
  dsimp only
  by_cases hfull : es.length = M
  · rw [if_pos hfull, if_neg (by omega)]
    cases es with
    | nil => simp at hfull; omega
    | cons e t =>
      have hM' : M = t.length + 1 := by simpa using hfull.symm
      obtain ⟨x, hx⟩ := drop_length_pred (e :: t) t.length (by simp)
      subst hM'
      simp only [memmoveLeft, List.length_cons, Nat.sub_self, List.replicate_zero,
        List.append_nil, Nat.add_sub_cancel, List.drop_succ_cons, List.drop_zero,
        List.take_length, List.tail_cons]
      rw [hx, set_append_length]
      simp
  · have hlt : es.length < M := by omega
    rw [if_neg hfull, if_pos hlt]
    have hk : M - es.length = (M - (es ++ [pid]).length) + 1 := by
      simp; omega
    rw [hk, List.replicate_succ, set_append_length]
    simp

theorem pushEntry_length (M pid : Nat) (es : List Nat) (hlen : es.length ≤ M) (hM : 1 ≤ M) :
    (pushEntry M es pid).length ≤ M := by
  unfold pushEntry
  split_ifs with h
  · simp; omega
  · cases es with
    | nil => simp; omega
    | cons e t => simp at hlen ⊢; omega

theorem setQueryPID_step (M pid : Nat) (hM : 1 ≤ M) (es : List Nat) (hlen : es.length ≤ M)
    (hnz : ∀ x ∈ es, x ≠ 0) (hnd : es.Nodup) :
    ∃ es' : List Nat, es'.length ≤ M ∧ (∀ x ∈ es', x ≠ 0) ∧ es'.Nodup ∧
      setQueryPID M pid (es ++ List.replicate (M - es.length) 0)
        = es' ++ List.replicate (M - es'.length) 0 := by
  by_cases hin : pid ∈ es
  · exact ⟨es, hlen, hnz, hnd, setQueryPID_present M pid es hlen hnz hin⟩
  · have habs := setQueryPID_absent M pid es hlen hnz hin hM
    by_cases hp : pid = 0
    · subst hp
      by_cases hlt : es.length < M
      · refine ⟨es, hlen, hnz, hnd, ?_⟩
        rw [habs]
        have hk : M - es.length = (M - (es ++ [0]).length) + 1 := by simp; omega
        simp only [pushEntry, hlt, if_true]
        rw [hk, List.replicate_succ]
        simp
      · refine ⟨es.tail, ?_, ?_, ?_, ?_⟩
        · have := List.length_tail es; omega
        · intro x hx; exact hnz x (List.mem_of_mem_tail hx)
        · exact hnd.tail
        · rw [habs]
          simp only [pushEntry, hlt, if_false]
          cases es with
          | nil => simp at hlt; omega
          | cons e t =>
            have hM' : M = t.length + 1 := by simp at hlen hlt; omega
            subst hM'
            simp
    · refine ⟨pushEntry M es pid, pushEntry_length M pid es hlen hM, ?_, ?_, habs⟩
      · intro x hx
        unfold pushEntry at hx
        split_ifs at hx
        · rcases List.mem_append.mp hx with h | h
          · exact hnz x h
          · simp at h; omega
        · rcases List.mem_append.mp hx with h | h
          · exact hnz x (List.mem_of_mem_tail h)
          · simp at h; omega
      · unfold pushEntry
        split_ifs
        · exact List.Nodup.append hnd (List.nodup_singleton pid) (by simpa using hin)
        · exact List.Nodup.append hnd.tail (List.nodup_singleton pid)
            (by simpa using fun h => hin (List.mem_of_mem_tail h))

theorem setQueryPIDs_inv (M : Nat) (hM : 1 ≤ M) (pids : List Nat) :
    ∀ es : List Nat, es.length ≤ M → (∀ x ∈ es, x ≠ 0) → es.Nodup →
      ∃ es' : List Nat, es'.length ≤ M ∧ (∀ x ∈ es', x ≠ 0) ∧ es'.Nodup ∧
        setQueryPIDs M pids (es ++ List.replicate (M - es.length) 0)
          = es' ++ List.replicate (M - es'.length) 0 := by
  induction pids with
  | nil => intro es h1 h2 h3; exact ⟨es, h1, h2, h3, rfl⟩
  | cons p ps ih =>
    intro es h1 h2 h3
    obtain ⟨es1, a1, a2, a3, a4⟩ := setQueryPID_step M p hM es h1 h2 h3
    obtain ⟨es2, b1, b2, b3, b4⟩ := ih es1 a1 a2 a3
    refine ⟨es2, b1, b2, b3, ?_⟩
    simp only [setQueryPIDs, List.foldl_cons] at b4 ⊢
    rw [a4, b4]

/-- C9: starting from the all-zero array of `MAX_PIDS` cells, after any sequence
of `setQueryPID` calls the array still has `MAX_PIDS` cells, consists of `k ≤
MAX_PIDS` non-zero entries followed only by zeros, and holds no non-zero PID
twice. -/
theorem setQueryPID_invariant (MAX_PIDS : Nat) (hM : 1 ≤ MAX_PIDS) (pids : List Nat) :
    (setQueryPIDs MAX_PIDS pids (List.replicate MAX_PIDS 0)).length = MAX_PIDS ∧
    (queryEntries (setQueryPIDs MAX_PIDS pids (List.replicate MAX_PIDS 0))).length ≤ MAX_PIDS ∧
    (∃ k : Nat, k ≤ MAX_PIDS ∧
      (∀ i : Nat, i < k →
        (setQueryPIDs MAX_PIDS pids (List.replicate MAX_PIDS 0)).getD i 0 ≠ 0) ∧
      (∀ i : Nat, k ≤ i →
        (setQueryPIDs MAX_PIDS pids (List.replicate MAX_PIDS 0)).getD i 0 = 0)) ∧
    (∀ i j : Nat, i < j →
      (setQueryPIDs MAX_PIDS pids (List.replicate MAX_PIDS 0)).getD i 0 ≠ 0 →
      (setQueryPIDs MAX_PIDS pids (List.replicate MAX_PIDS 0)).getD i 0
        ≠ (setQueryPIDs MAX_PIDS pids (List.replicate MAX_PIDS 0)).getD j 0) := by
  obtain ⟨es, h1, h2, h3, h4⟩ :=
    setQueryPIDs_inv MAX_PIDS hM pids [] (Nat.zero_le _) (by simp) List.nodup_nil
  simp only [List.length_nil, Nat.sub_zero, List.nil_append] at h4
  rw [h4]
  have hnzget : ∀ i : Nat, i < es.length →
      (es ++ List.replicate (MAX_PIDS - es.length) 0).getD i 0 ≠ 0 := by
    intro i hi
    rw [queryArray_getD_lt MAX_PIDS es i hi]
    have : es.getD i 0 = es[i] := by
      simp [List.getD_eq_getElem?_getD, List.getElem?_eq_getElem hi]
    rw [this]
    exact h2 _ (List.getElem_mem hi)
  refine ⟨by simp; omega, ?_, ⟨es.length, h1, hnzget, ?_⟩, ?_⟩
  · have hle : (queryEntries (es ++ List.replicate (MAX_PIDS - es.length) 0)).length
        ≤ (es ++ List.replicate (MAX_PIDS - es.length) 0).length :=
      (List.takeWhile_sublist _).length_le
    have : (es ++ List.replicate (MAX_PIDS - es.length) 0).length = MAX_PIDS := by
      simp; omega
    omega
  · intro i hi
    exact queryArray_getD_ge MAX_PIDS es i hi
  · intro i j hij hne
    by_cases hi : i < es.length
    · by_cases hj : j < es.length
      · rw [queryArray_getD_lt MAX_PIDS es i hi, queryArray_getD_lt MAX_PIDS es j hj]
        have e1 : es.getD i 0 = es[i] := by
          simp [List.getD_eq_getElem?_getD, List.getElem?_eq_getElem hi]
        have e2 : es.getD j 0 = es[j] := by
          simp [List.getD_eq_getElem?_getD, List.getElem?_eq_getElem hj]
        rw [e1, e2]
        intro heq
        have := (List.Nodup.getElem_inj_iff h3).mp heq
        omega
      · rw [queryArray_getD_ge MAX_PIDS es j (by omega)]
        exact hne
    · exact absurd (queryArray_getD_ge MAX_PIDS es i (by omega)) hne

/-- Witness for C9: eight cells, eleven calls with a repetition and a zero. -/
theorem setQueryPID_invariant_witness :
    1 ≤ 8 ∧
    (setQueryPIDs 8 [12, 13, 5, 12, 0, 17, 4, 16, 15, 14, 11]
      (List.replicate 8 0)).length = 8 ∧
    (queryEntries (setQueryPIDs 8 [12, 13, 5, 12, 0, 17, 4, 16, 15, 14, 11]
      (List.replicate 8 0))).length ≤ 8 ∧
    setQueryPIDs 8 [12, 13, 5, 12, 0, 17, 4, 16, 15, 14, 11] (List.replicate 8 0)
      = [13, 5, 17, 4, 16, 15, 14, 11] :=
  ⟨by decide,
   (setQueryPID_invariant 8 (by decide) [12, 13, 5, 12, 0, 17, 4, 16, 15, 14, 11]).1,
   (setQueryPID_invariant 8 (by decide) [12, 13, 5, 12, 0, 17, 4, 16, 15, 14, 11]).2.1,
   by decide⟩

theorem setQueryPIDs_fill (M : Nat) (hM : 1 ≤ M) (qs : List Nat) :
    ∀ es : List Nat, (es ++ qs).length ≤ M → (∀ x ∈ es ++ qs, x ≠ 0) → (es ++ qs).Nodup →
      setQueryPIDs M qs (es ++ List.replicate (M - es.length) 0)
        = (es ++ qs) ++ List.replicate (M - (es ++ qs).length) 0 := by
  induction qs with
  | nil => intro es _ _ _; simp [setQueryPIDs]
  | cons q qs ih =>
    intro es hlen hnz hnd
    have hlen' : es.length < M := by simp at hlen; omega
    have hq : q ∉ es := by
      intro h
      have := List.nodup_append.mp hnd
      exact this.2.2 h (List.mem_cons_self q qs)
    have hstep := setQueryPID_absent M q es (by omega)
      (fun x hx => hnz x (List.mem_append_left _ hx)) hq hM
    simp only [pushEntry, hlen', if_true] at hstep
    have hassoc : es ++ q :: qs = (es ++ [q]) ++ qs := by simp
    rw [hassoc] at hlen hnz hnd ⊢
    have := ih (es ++ [q]) hlen hnz hnd
    simp only [setQueryPIDs, List.foldl_cons] at this ⊢
    rw [hstep, this]

/-- C10: starting from the empty set, `setQueryPID` called with `MAX_PIDS + 1`
pairwise distinct non-zero PIDs, in order, leaves the array equal to the list
of all of them but the first: the first-inserted PID is evicted and the others
keep their insertion order. -/
theorem setQueryPID_fifo_eviction (MAX_PIDS : Nat) (hM : 1 ≤ MAX_PIDS) (ps : List Nat)
    (hlen : ps.length = MAX_PIDS + 1) (hnz : ∀ x ∈ ps, x ≠ 0) (hnd : ps.Nodup) :
    setQueryPIDs MAX_PIDS ps (List.replicate MAX_PIDS 0) = ps.tail := by
  have hne : ps ≠ [] := by intro h; simp [h] at hlen
  obtain ⟨qs, p, rfl⟩ : ∃ qs p, ps = qs ++ [p] :=
    ⟨ps.dropLast, ps.getLast hne, (List.dropLast_append_getLast hne).symm⟩
  have hq : qs.length = MAX_PIDS := by simpa using hlen
  have hfill := setQueryPIDs_fill MAX_PIDS hM qs [] (by simp; omega)
    (fun x hx => hnz x (List.mem_append_left _ (by simpa using hx)))
    (by simpa using (List.nodup_append.mp hnd).1)
  simp only [List.nil_append, List.length_nil, Nat.sub_zero, hq, Nat.sub_self,
    List.replicate_zero, List.append_nil] at hfill
  have hp : p ∉ qs := by
    intro h
    exact (List.nodup_append.mp hnd).2.2 h (List.mem_singleton_self p)
  have hstep := setQueryPID_absent MAX_PIDS p qs (by omega)
    (fun x hx => hnz x (List.mem_append_left _ hx)) hp hM
  simp only [pushEntry, hq, Nat.lt_irrefl, if_false, Nat.sub_self, List.replicate_zero,
    List.append_nil] at hstep
  have hlen2 : (qs.tail ++ [p]).length = MAX_PIDS := by
    have := List.length_tail qs
    simp; omega
  rw [hlen2, Nat.sub_self, List.replicate_zero, List.append_nil] at hstep
  have hsplit : setQueryPIDs MAX_PIDS (qs ++ [p]) (List.replicate MAX_PIDS 0)
      = setQueryPID MAX_PIDS p (setQueryPIDs MAX_PIDS qs (List.replicate MAX_PIDS 0)) := by
    simp [setQueryPIDs, List.foldl_append]
  rw [hsplit, hfill, hstep]
  cases qs with
  | nil => simp at hq; omega
  | cons a t => rfl

/-- Witness for C10 with eight cells and nine PIDs. -/
theorem setQueryPID_fifo_eviction_witness :
    setQueryPIDs 8 [12, 13, 5, 4, 17, 16, 15, 14, 11] (List.replicate 8 0)
      = [13, 5, 4, 17, 16, 15, 14, 11] :=
  setQueryPID_fifo_eviction 8 (by decide) [12, 13, 5, 4, 17, 16, 15, 14, 11] rfl
    (by decide) (by decide)

/-! ### Framing one prompt-terminated reply -/

theorem receiveLoop_frame (H : Header) (bufsize timeout : Nat) (rest : List Event)
    (h256 : bufsize ≤ 256) (t : List Nat) :
    ∀ (pre sfx : List Nat), pre.length + t.length < bufsize → t.length < sfx.length →
      3 ≤ pre.length + t.length → (∀ c ∈ t, c ≠ 62 ∧ c ≠ 46) →
      receiveLoop H bufsize (t.map Event.rx ++ Event.rx 62 :: rest) (some (pre ++ sfx))
          pre.length timeout
        = ⟨pre.length + t.length, some (pre ++ t ++ 0 :: sfx.drop (t.length + 1)),
            timeout, rest⟩ := by
  induction t with
  | nil =>
    intro pre sfx _ hs h3 _
    cases sfx with
    | nil => simp at hs
    | cons x xs =>
      have h3' : pre.length > 2 := by simpa using h3
      simp [receiveLoop, receiveExit, h3', set_append_length]
  | cons c t ih =>
    intro pre sfx hlen hs h3 hc
    cases sfx with
    | nil => simp at hs
    | cons x xs =>
      have hc62 : c ≠ 62 := (hc c (List.mem_cons_self c t)).1
      have hc46 : c ≠ 46 := (hc c (List.mem_cons_self c t)).2
      have hn : pre.length + 1 < bufsize := by simp at hlen; omega
      have hmod : (pre.length + 1) % 256 = (pre ++ [c]).length := by
        simp; omega
      have hrec := ih (pre ++ [c]) xs (by simp at hlen ⊢; omega) (by simpa using hs)
        (by simp at h3 ⊢; omega) (fun d hd => hc d (List.mem_cons_of_mem c hd))
      simp only [List.map_cons, List.cons_append, receiveLoop, hc62, and_false, if_false,
        hn, if_true, hc46, false_and, set_append_length, hmod, List.append_eq]
      rw [show pre ++ c :: xs = (pre ++ [c]) ++ xs by simp, hrec]
      simp [Nat.add_assoc, Nat.add_comm 1]

theorem receive_frame (H : Header) (bufsize timeout : Nat) (rest : List Event)
    (t buf : List Nat) (h256 : bufsize ≤ 256) (hlen : t.length < bufsize)
    (hbuf : t.length < buf.length) (h3 : 3 ≤ t.length) (hc : ∀ c ∈ t, c ≠ 62 ∧ c ≠ 46) :
    receive H (some buf) bufsize timeout (t.map Event.rx ++ Event.rx 62 :: rest)
      = ⟨t.length, some (t ++ 0 :: buf.drop (t.length + 1)), timeout, rest⟩ := by
  have := receiveLoop_frame H bufsize timeout rest h256 t [] buf (by simpa using hlen) hbuf
    (by simpa using h3) hc
  simpa [receive] using this

theorem isHexDigit_ne (c : Nat) (h : isHexDigit c = true) :
    c ≠ 0 ∧ c ≠ 13 ∧ c ≠ 32 ∧ c ≠ 46 ∧ c ≠ 62 := by
  have := isHexDigit_ranges c h
  omega

theorem fmt02X_digits (v : Nat) (hv : v < 256) :
    ∃ c1 c2 : Nat, fmt02X v = [c1, c2] ∧ isHexDigit c1 = true ∧ isHexDigit c2 = true ∧
      hex2uint8 c1 c2 = v := by
  refine ⟨hexCharUpper (v / 16 % 16), hexCharUpper (v % 16), rfl, ?_, ?_, ?_⟩
  · exact (hexChar_digit _ (Nat.mod_lt _ (by decide))).1
  · exact (hexChar_digit _ (Nat.mod_lt _ (by decide))).1
  · obtain ⟨a1, a2, _, _⟩ := hexChar_digit (v / 16 % 16) (Nat.mod_lt _ (by decide))
    obtain ⟨b1, b2, _, _⟩ := hexChar_digit (v % 16) (Nat.mod_lt _ (by decide))
    rw [hex2uint8_of_hex _ _ a1 b1, a2, b2]
    omega

theorem hex2uint16_two_bytes (a1 a2 b1 b2 : Nat) (tail : List Nat)
    (ha1 : isHexDigit a1 = true) (ha2 : isHexDigit a2 = true)
    (hb1 : isHexDigit b1 = true) (hb2 : isHexDigit b2 = true) :
    hex2uint16 (a1 :: a2 :: 32 :: b1 :: b2 :: 13 :: tail)
      = 256 * hex2uint8 a1 a2 + hex2uint8 b1 b2 := by
  have e1 : (a1 != 0) = true := by simpa using (isHexDigit_ne a1 ha1).1
  have e2 : (a2 != 0) = true := by simpa using (isHexDigit_ne a2 ha2).1
  have e3 : (b1 != 0) = true := by simpa using (isHexDigit_ne b1 hb1).1
  have e4 : (b2 != 0) = true := by simpa using (isHexDigit_ne b2 hb2).1
  have hs : isHexDigit 32 = false := by decide
  rw [hex2uint16_eq_ref, hex2uint8_of_hex a1 a2 ha1 ha2, hex2uint8_of_hex b1 b2 hb1 hb2]
  simp [hex2uint16Ref, hexDigitsTaken, hexDigitsScanned, cstr, List.takeWhile, List.filter,
    e1, e2, e3, e4, ha1, ha2, hb1, hb2, hs]
  omega

theorem toInt16_of_small (x : Int) (h0 : 0 ≤ x) (h1 : x < 32768) : toInt16 x = x := by
  unfold toInt16
  omega

theorem toInt16_of_small_neg (x : Int) (h0 : -32768 ≤ x) (h1 : x < 32768) : toInt16 x = x := by
  unfold toInt16
  omega

/-- A frame that starts with `"41 XX "`, where `XX` decodes to the expected PID
(or the expected PID is the sentinel 0), is matched at once: the data pointer is
index 6 and the error counter is reset. -/
theorem getResponse_first_reply (H : Header) (pid errors p1 p2 : Nat)
    (buffer d : List Nat) (rest : List Event)
    (hbuf : buffer.length = 64) (hd : d.length ≤ 57)
    (hpid : pid = 0 ∨ hex2uint8 p1 p2 = pid)
    (hc : ∀ c ∈ p1 :: p2 :: d, c ≠ 62 ∧ c ≠ 46) :
    getResponse H pid errors buffer 64
        ((52 :: 49 :: 32 :: p1 :: p2 :: 32 :: d).map Event.rx ++ Event.rx 62 :: rest)
      = ⟨some 6, hex2uint8 p1 p2, 0,
          (52 :: 49 :: 32 :: p1 :: p2 :: 32 :: d) ++ 0 :: buffer.drop (d.length + 7), rest⟩ := by
  have hframe := receive_frame H 64 H.OBD_TIMEOUT_SHORT rest
    (52 :: 49 :: 32 :: p1 :: p2 :: 32 :: d) buffer (by decide)
    (by simp; omega) (by simp; omega) (by simp)
    (by
      intro c hcm
      simp only [List.mem_cons] at hcm
      rcases hcm with h | h | h | h
      · subst h; decide
      · subst h; decide
      · subst h; decide
      · rcases h with h | h | h | h
        · exact hc c (by simp [h])
        · exact hc c (by simp [h])
        · subst h; decide
        · exact hc c (by simp [h]))
  have hpid' : (if pid = 0 then hex2uint8 p1 p2 else pid) = hex2uint8 p1 p2 := by
    rcases hpid with h | h
    · simp [h]
    · split_ifs with h0
      · rfl
      · exact h.symm
  unfold getResponse
  rw [List.length_append, List.length_cons, ← Nat.add_assoc, getResponseLoop]
  simp only [hframe]
  simp [scanFrame, strstr, hpid', List.getD_eq_getElem?_getD]

theorem frame_chars_ok (l : List Nat)
    (h : (l.all fun c => isHexDigit c || c == 32 || c == 13) = true) :
    ∀ c ∈ l, c ≠ 62 ∧ c ≠ 46 := by
  intro c hc
  have := List.all_eq_true.mp h c hc
  simp only [Bool.or_eq_true, beq_iff_eq] at this
  rcases this with (h1 | h1) | h1
  · have := isHexDigit_ne c h1; omega
  · omega
  · omega

theorem getResult_first_reply (H : Header) (pid p1 p2 : Nat) (result : Int)
    (buffer d : List Nat) (obd : COBD) (rest : List Event) (tx : List (List Nat))
    (hbuf : buffer.length = 64) (hd : d.length ≤ 57)
    (hpid : pid = 0 ∨ hex2uint8 p1 p2 = pid)
    (hc : ∀ c ∈ p1 :: p2 :: d, c ≠ 62 ∧ c ≠ 46) :
    getResult H pid result buffer obd
        ⟨(52 :: 49 :: 32 :: p1 :: p2 :: 32 :: d).map Event.rx ++ Event.rx 62 :: rest, tx⟩
      = ⟨true, hex2uint8 p1 p2,
          normalizeData (hex2uint8 p1 p2) (d ++ 0 :: buffer.drop (d.length + 7)),
          { obd with errors := 0 }, ⟨rest, tx⟩⟩ := by
  unfold getResult
  simp only [getResponse_first_reply H pid obd.errors p1 p2 buffer d rest hbuf hd hpid hc]
  simp

/-- C2: a single-PID read decodes a well-formed reply end to end.  For all
bytes `A`, `B`, when the polls after the query deliver `"41 0C AA BB\r>"`,
`readPID(0x0C)` returns true with result `(256 * A + B) >> 2`, and when they
deliver `"41 05 AA\r>"`, `readPID(0x05)` returns true with result `A - 40`; the
query text is written and the polls after the prompt are left untouched. -/
theorem readPID_decodes_reply (H : Header) (A B : Nat) (hA : A < 256) (hB : B < 256)
    (result : Int) (buffer : List Nat) (hbuf : buffer.length = 64) (obd : COBD)
    (rest : List Event) (tx : List (List Nat)) :
    (readPID H 0x0C result buffer obd ⟨promptFrame (replyText 0x0C [A, B]) ++ rest, tx⟩
      = ⟨true, 0x0C, ((256 * A + B) >>> 2 : Nat), { obd with errors := 0 },
          ⟨rest, tx ++ [queryText obd.dataMode 0x0C]⟩⟩) ∧
    (readPID H 0x05 result buffer obd ⟨promptFrame (replyText 0x05 [A]) ++ rest, tx⟩
      = ⟨true, 0x05, (A : Int) - 40, { obd with errors := 0 },
          ⟨rest, tx ++ [queryText obd.dataMode 0x05]⟩⟩) := by
  obtain ⟨a1, a2, hfA, ha1, ha2, hvA⟩ := fmt02X_digits A hA
  obtain ⟨b1, b2, hfB, hb1, hb2, hvB⟩ := fmt02X_digits B hB
  constructor
  · have ht : promptFrame (replyText 0x0C [A, B]) ++ rest
        = (52 :: 49 :: 32 :: 48 :: 67 :: 32 :: [a1, a2, 32, b1, b2, 13]).map Event.rx
            ++ Event.rx 62 :: rest := by
      have h12 : fmt02X 0x0C = [48, 67] := by decide
      simp [promptFrame, replyText, hfA, hfB, h12]
    have hres := getResult_first_reply H 0x0C 48 67 result buffer [a1, a2, 32, b1, b2, 13] obd
      rest (tx ++ [queryText obd.dataMode 0x0C]) hbuf (by simp) (Or.inr (by decide))
      (frame_chars_ok _ (by
        simp only [List.all_cons, List.all_nil, ha1, ha2, hb1, hb2, Bool.true_or,
          Bool.and_true, Bool.true_and]
        decide))
    have hpid : hex2uint8 48 67 = 0x0C := by decide
    have hval : normalizeData 0x0C ([a1, a2, 32, b1, b2, 13] ++
        0 :: buffer.drop ([a1, a2, 32, b1, b2, 13].length + 7))
        = (((256 * A + B) >>> 2 : Nat) : Int) := by
      have h16 := hex2uint16_two_bytes a1 a2 b1 b2 (0 :: buffer.drop 13) ha1 ha2 hb1 hb2
      rw [hvA, hvB] at h16
      have hsmall : (256 * A + B) >>> 2 < 32768 := by
        rw [Nat.shiftRight_eq_div_pow]; omega
      simp only [normalizeData, getLargeValue, PID_MONITOR, PID_RPM, List.cons_append,
        List.nil_append, List.length_cons, List.length_nil]
      simp only [show ¬ (12 = 1) by decide, if_false, true_or, if_true]
      rw [h16]
      exact toInt16_of_small _ (by omega) (by exact_mod_cast hsmall)
    rw [hpid, hval] at hres
    unfold readPID sendQuery write
    rw [ht]
    exact hres
  · have ht : promptFrame (replyText 0x05 [A]) ++ rest
        = (52 :: 49 :: 32 :: 48 :: 53 :: 32 :: [a1, a2, 13]).map Event.rx
            ++ Event.rx 62 :: rest := by
      have h5 : fmt02X 0x05 = [48, 53] := by decide
      simp [promptFrame, replyText, hfA, h5]
    have hres := getResult_first_reply H 0x05 48 53 result buffer [a1, a2, 13] obd
      rest (tx ++ [queryText obd.dataMode 0x05]) hbuf (by simp) (Or.inr (by decide))
      (frame_chars_ok _ (by
        simp only [List.all_cons, List.all_nil, ha1, ha2, Bool.true_or,
          Bool.and_true, Bool.true_and]
        decide))
    have hpid : hex2uint8 48 53 = 0x05 := by decide
    have hval : normalizeData 0x05 ([a1, a2, 13] ++
        0 :: buffer.drop ([a1, a2, 13].length + 7)) = (A : Int) - 40 := by
      simp only [normalizeData, getTemperatureValue, PID_MONITOR, PID_RPM,
        PID_EVAP_SYS_VAPOR_PRESSURE, PID_FUEL_PRESSURE, PID_COOLANT_TEMP, List.cons_append,
        List.nil_append]
      simp only [show ¬ (5 = 1) by decide, show ¬ (5 = 12 ∨ 5 = 50) by decide,
        show ¬ (5 = 10) by decide, if_false, true_or, if_true]
      have hg : hex2uint8 ((a1 :: a2 :: 13 :: 0 :: buffer.drop ([a1, a2, 13].length + 7)).getD 0 0)
          ((a1 :: a2 :: 13 :: 0 :: buffer.drop ([a1, a2, 13].length + 7)).getD 1 0) = A := by
        simpa using hvA
      rw [hg]
      exact toInt16_of_small_neg _ (by omega) (by omega)
    rw [hpid, hval] at hres
    unfold readPID sendQuery write
    rw [ht]
    exact hres

/-- Witness for C2: `"41 0C 1A F8\r>"` gives 1726 and `"41 05 64\r>"` gives 60. -/
theorem readPID_decodes_reply_witness :
    (readPID ⟨1000, 15000⟩ 0x0C 0 (List.replicate 64 0)
        ⟨1, 0, List.replicate 32 0, OBD_STATES.OBD_CONNECTED⟩
        ⟨promptFrame (replyText 0x0C [0x1A, 0xF8]) ++ [], []⟩).result = 1726 ∧
    (readPID ⟨1000, 15000⟩ 0x05 0 (List.replicate 64 0)
        ⟨1, 0, List.replicate 32 0, OBD_STATES.OBD_CONNECTED⟩
        ⟨promptFrame (replyText 0x05 [0x64]) ++ [], []⟩).result = 60 ∧
    promptFrame (replyText 0x0C [0x1A, 0xF8])
      = [52, 49, 32, 48, 67, 32, 49, 65, 32, 70, 56, 13, 62].map Event.rx :=
  ⟨by rw [(readPID_decodes_reply ⟨1000, 15000⟩ 0x1A 0xF8 (by decide) (by decide) 0
        (List.replicate 64 0) (by decide)
        ⟨1, 0, List.replicate 32 0, OBD_STATES.OBD_CONNECTED⟩ [] []).1]; decide,
   by rw [(readPID_decodes_reply ⟨1000, 15000⟩ 0x64 0 (by decide) (by decide) 0
        (List.replicate 64 0) (by decide)
        ⟨1, 0, List.replicate 32 0, OBD_STATES.OBD_CONNECTED⟩ [] []).2]; decide,
   by decide⟩

/-- One prompt-terminated frame in which the scan finds the reply. -/
theorem getResponse_frame (H : Header) (pid errors : Nat) (buffer t : List Nat)
    (rest : List Event) (d pid' errors' : Nat)
    (hbuf : buffer.length = 64) (hlen : t.length < 64) (h3 : 3 ≤ t.length)
    (hc : ∀ c ∈ t, c ≠ 62 ∧ c ≠ 46)
    (hscan : scanFrame (t ++ 0 :: buffer.drop (t.length + 1)) 65 0 pid errors
      = ⟨some d, pid', errors'⟩) :
    getResponse H pid errors buffer 64 (t.map Event.rx ++ Event.rx 62 :: rest)
      = ⟨some d, pid', errors', t ++ 0 :: buffer.drop (t.length + 1), rest⟩ := by
  have hframe := receive_frame H 64 H.OBD_TIMEOUT_SHORT rest t buffer (by decide) hlen
    (by omega) h3 hc
  have hl : (t ++ 0 :: buffer.drop (t.length + 1)).length + 1 = 65 := by
    simp [hbuf]; omega
  unfold getResponse
  rw [List.length_append, List.length_cons, ← Nat.add_assoc, getResponseLoop]
  simp only [hframe, Option.getD_some, hl, hscan]
  have : t.length > 0 := by omega
  simp [this]

theorem scanFrame_reversed (tail : List Nat) (errors : Nat) :
    scanFrame (52 :: 49 :: 32 :: 48 :: 53 :: 32 :: 54 :: 52 :: 13 :: 52 :: 49 :: 32 :: 48 :: 67
      :: 32 :: 49 :: 65 :: 32 :: 70 :: 56 :: 13 :: 0 :: tail) 65 0 0x0C errors
      = ⟨some 15, 0x0C, 0⟩ := by
  simp [scanFrame, strstr, List.getD_eq_getElem?_getD, show hex2uint8 48 53 = 5 by decide,
    show hex2uint8 48 67 = 12 by decide]

theorem normalizeData_rpm (a1 a2 b1 b2 : Nat) (tail : List Nat)
    (ha1 : isHexDigit a1 = true) (ha2 : isHexDigit a2 = true)
    (hb1 : isHexDigit b1 = true) (hb2 : isHexDigit b2 = true) :
    normalizeData 0x0C (a1 :: a2 :: 32 :: b1 :: b2 :: 13 :: tail)
      = (((256 * hex2uint8 a1 a2 + hex2uint8 b1 b2) >>> 2 : Nat) : Int) := by
  have h16 := hex2uint16_two_bytes a1 a2 b1 b2 tail ha1 ha2 hb1 hb2
  have hA : hex2uint8 a1 a2 < 256 := by
    rw [hex2uint8_of_hex a1 a2 ha1 ha2]
    have := (hexDigit_nibble a1 ha1).2
    have := (hexDigit_nibble a2 ha2).2
    omega
  have hB : hex2uint8 b1 b2 < 256 := by
    rw [hex2uint8_of_hex b1 b2 hb1 hb2]
    have := (hexDigit_nibble b1 hb1).2
    have := (hexDigit_nibble b2 hb2).2
    omega
  have hsmall : (256 * hex2uint8 a1 a2 + hex2uint8 b1 b2) >>> 2 < 32768 := by
    rw [Nat.shiftRight_eq_div_pow]; omega
  simp only [normalizeData, getLargeValue, PID_MONITOR, PID_RPM]
  simp only [show ¬ (12 = 1) by decide, if_false, true_or, if_true]
  rw [h16]
  exact toInt16_of_small _ (by omega) (by exact_mod_cast hsmall)

/-- With no poll left, `getResult` fails: nothing is received, the recovery
command is written and the error counter goes up by one. -/
theorem getResult_silence (H : Header) (pid : Nat) (result : Int) (buffer : List Nat)
    (obd : COBD) (tx : List (List Nat)) :
    getResult H pid result buffer obd ⟨[], tx⟩
      = ⟨false, pid, result, { obd with errors := (obd.errors + 1) % 256 },
          ⟨[], tx ++ [[65, 84, 13]]⟩⟩ := by
  simp [getResult, getResponse, getResponseLoop, receive, receiveLoop, receiveExit, recover,
    sendCommand, write]

theorem readPIDs_reversed (H : Header) (result : List Int) (buffer : List Nat)
    (hbuf : buffer.length = 64) (obd : COBD) (tx : List (List Nat)) :
    readPIDs H [0x0C, 0x05] 2 result buffer obd
        ⟨promptFrame (replyText 0x05 [0x64] ++ replyText 0x0C [0x1A, 0xF8]), tx⟩
      = ⟨1, result.set 0 1726, { obd with errors := 1 },
          ⟨[], tx ++ [batchText obd.dataMode [0x0C, 0x05], [65, 84, 13]]⟩⟩ := by
  have ht : promptFrame (replyText 0x05 [0x64] ++ replyText 0x0C [0x1A, 0xF8])
      = ([52, 49, 32, 48, 53, 32, 54, 52, 13, 52, 49, 32, 48, 67, 32, 49, 65, 32, 70, 56,
          13]).map Event.rx ++ Event.rx 62 :: [] := by decide
  generalize htx : tx ++ [batchText obd.dataMode [0x0C, 0x05]] = tx1
  have hresp := fun errors => getResponse_frame H 0x0C errors buffer
    [52, 49, 32, 48, 53, 32, 54, 52, 13, 52, 49, 32, 48, 67, 32, 49, 65, 32, 70, 56, 13] []
    15 0x0C 0 hbuf (by decide) (by decide) (by decide) (scanFrame_reversed _ errors)
  have hval := normalizeData_rpm 49 65 70 56 (0 :: buffer.drop 22) (by decide) (by decide)
    (by decide) (by decide)
  have h1726 : (((256 * hex2uint8 49 65 + hex2uint8 70 56) >>> 2 : Nat) : Int) = 1726 := by
    decide
  rw [h1726] at hval
  have hfirst : getResult H 0x0C (result.getD 0 0) buffer obd
      ⟨([52, 49, 32, 48, 53, 32, 54, 52, 13, 52, 49, 32, 48, 67, 32, 49, 65, 32, 70, 56,
          13]).map Event.rx ++ Event.rx 62 :: [], tx1⟩
      = ⟨true, 0x0C, 1726, { obd with errors := 0 }, ⟨[], tx1⟩⟩ := by
    unfold getResult
    simp only [hresp]
    simpa using hval
  unfold readPIDs
  simp only [List.take, write, htx, ht, readPIDLoop, hfirst, if_true, getResult_silence,
    Bool.false_eq_true, if_false]
  subst htx
  simp

theorem readPIDs_in_order (H : Header) (p q : Nat) (hp : p < 256) (hq : q < 256)
    (d1 d2 : List Nat) (hd1 : d1.length ≤ 57) (hd2 : d2.length ≤ 57)
    (hc1 : ∀ c ∈ d1, c ≠ 62 ∧ c ≠ 46) (hc2 : ∀ c ∈ d2, c ≠ 62 ∧ c ≠ 46)
    (result : List Int) (buffer : List Nat) (hbuf : buffer.length = 64) (obd : COBD)
    (rest : List Event) (tx : List (List Nat)) :
    readPIDs H [p, q] 2 result buffer obd
        ⟨promptFrame ([52, 49, 32] ++ fmt02X p ++ 32 :: d1)
          ++ promptFrame ([52, 49, 32] ++ fmt02X q ++ 32 :: d2) ++ rest, tx⟩
      = ⟨2,
          (result.set 0 (normalizeData p (d1 ++ 0 :: buffer.drop (d1.length + 7)))).set 1
            (normalizeData q (d2 ++ 0 :: buffer.drop (d2.length + 7))),
          { obd with errors := 0 }, ⟨rest, tx ++ [batchText obd.dataMode [p, q]]⟩⟩ := by
  obtain ⟨p1, p2, hfp, hp1, hp2, hvp⟩ := fmt02X_digits p hp
  obtain ⟨q1, q2, hfq, hq1, hq2, hvq⟩ := fmt02X_digits q hq
  have np1 := isHexDigit_ne p1 hp1
  have np2 := isHexDigit_ne p2 hp2
  have nq1 := isHexDigit_ne q1 hq1
  have nq2 := isHexDigit_ne q2 hq2
  have hcp : ∀ c ∈ p1 :: p2 :: d1, c ≠ 62 ∧ c ≠ 46 := by
    intro c hc
    rcases List.mem_cons.mp hc with h | h
    · subst h; exact ⟨np1.2.2.2.2, np1.2.2.2.1⟩
    · rcases List.mem_cons.mp h with h | h
      · subst h; exact ⟨np2.2.2.2.2, np2.2.2.2.1⟩
      · exact hc1 c h
  have hcq : ∀ c ∈ q1 :: q2 :: d2, c ≠ 62 ∧ c ≠ 46 := by
    intro c hc
    rcases List.mem_cons.mp hc with h | h
    · subst h; exact ⟨nq1.2.2.2.2, nq1.2.2.2.1⟩
    · rcases List.mem_cons.mp h with h | h
      · subst h; exact ⟨nq2.2.2.2.2, nq2.2.2.2.1⟩
      · exact hc2 c h
  generalize htx : tx ++ [batchText obd.dataMode [p, q]] = tx1
  have ht : promptFrame ([52, 49, 32] ++ fmt02X p ++ 32 :: d1)
        ++ promptFrame ([52, 49, 32] ++ fmt02X q ++ 32 :: d2) ++ rest
      = (52 :: 49 :: 32 :: p1 :: p2 :: 32 :: d1).map Event.rx ++ Event.rx 62 ::
          ((52 :: 49 :: 32 :: q1 :: q2 :: 32 :: d2).map Event.rx ++ Event.rx 62 :: rest) := by
    simp [promptFrame, hfp, hfq]
  have h1 := getResult_first_reply H p p1 p2 (result.getD 0 0) buffer d1 obd
    ((52 :: 49 :: 32 :: q1 :: q2 :: 32 :: d2).map Event.rx ++ Event.rx 62 :: rest) tx1
    hbuf hd1 (Or.inr hvp) hcp
  have h2 := getResult_first_reply H q q1 q2
    ((result.set 0 (normalizeData p (d1 ++ 0 :: buffer.drop (d1.length + 7)))).getD 1 0)
    buffer d2 { obd with errors := 0 } rest tx1 hbuf hd2 (Or.inr hvq) hcq
  rw [hvp] at h1
  rw [hvq] at h2
  unfold readPIDs
  simp only [List.take, write, htx, ht, readPIDLoop, h1, if_true, h2]

/-- C1 (amended): the batched read matches a reply by its PID inside the frame that
a call of `getResult` receives, and a frame is discarded with that call.  When
`readPID([0x0C, 0x05], 2)` is followed by exactly `"41 05 64\r41 0C 1A F8\r>"`,
the first `getResult` finds the reply to 0x0C behind the reply to 0x05 and
stores 1726 in `result[0]`; the second finds nothing, so the call returns 1 and
leaves `result[1]` as it was.  When the replies to two PIDs arrive in request
order, each closed by its own prompt, the call returns 2 and each result is the
value decoded from the reply carrying its own PID. -/
theorem readPIDs_matches_by_pid (H : Header) (result : List Int) (buffer : List Nat)
    (hbuf : buffer.length = 64) (obd : COBD) (tx : List (List Nat)) :
    readPIDs H [0x0C, 0x05] 2 result buffer obd
        ⟨promptFrame (replyText 0x05 [0x64] ++ replyText 0x0C [0x1A, 0xF8]), tx⟩
      = ⟨1, result.set 0 1726, { obd with errors := 1 },
          ⟨[], tx ++ [batchText obd.dataMode [0x0C, 0x05], [65, 84, 13]]⟩⟩ ∧
    (∀ (p q : Nat) (d1 d2 : List Nat) (rest : List Event), p < 256 → q < 256 →
      d1.length ≤ 57 → d2.length ≤ 57 →
      (∀ c ∈ d1, c ≠ 62 ∧ c ≠ 46) → (∀ c ∈ d2, c ≠ 62 ∧ c ≠ 46) →
      readPIDs H [p, q] 2 result buffer obd
          ⟨promptFrame ([52, 49, 32] ++ fmt02X p ++ 32 :: d1)
            ++ promptFrame ([52, 49, 32] ++ fmt02X q ++ 32 :: d2) ++ rest, tx⟩
        = ⟨2,
            (result.set 0 (normalizeData p (d1 ++ 0 :: buffer.drop (d1.length + 7)))).set 1
              (normalizeData q (d2 ++ 0 :: buffer.drop (d2.length + 7))),
            { obd with errors := 0 }, ⟨rest, tx ++ [batchText obd.dataMode [p, q]]⟩⟩) :=
  ⟨readPIDs_reversed H result buffer hbuf obd tx,
   fun p q d1 d2 rest hp hq hd1 hd2 hc1 hc2 =>
     readPIDs_in_order H p q hp hq d1 d2 hd1 hd2 hc1 hc2 result buffer hbuf obd rest tx⟩

/-- Witness for C1 (amended): a zeroed buffer, and the replies `"41 0C 1A F8\r>"`,
`"41 05 64\r>"` in request order. -/
theorem readPIDs_matches_by_pid_witness :
    (List.replicate 64 0).length = 64 ∧
    (readPIDs ⟨1000, 15000⟩ [0x0C, 0x05] 2 [0, 0] (List.replicate 64 0)
        ⟨1, 0, List.replicate 32 0, OBD_STATES.OBD_CONNECTED⟩
        ⟨promptFrame (replyText 0x05 [0x64] ++ replyText 0x0C [0x1A, 0xF8]), []⟩).results = 1 ∧
    (readPIDs ⟨1000, 15000⟩ [0x0C, 0x05] 2 [0, 0] (List.replicate 64 0)
        ⟨1, 0, List.replicate 32 0, OBD_STATES.OBD_CONNECTED⟩
        ⟨promptFrame ([52, 49, 32] ++ fmt02X 0x0C ++ 32 :: [49, 65, 32, 70, 56, 13])
          ++ promptFrame ([52, 49, 32] ++ fmt02X 0x05 ++ 32 :: [54, 52, 13]) ++ [], []⟩).results
      = 2 :=
  ⟨by decide,
   by rw [(readPIDs_matches_by_pid ⟨1000, 15000⟩ [0, 0] (List.replicate 64 0) (by decide)
        ⟨1, 0, List.replicate 32 0, OBD_STATES.OBD_CONNECTED⟩ []).1],
   by rw [(readPIDs_matches_by_pid ⟨1000, 15000⟩ [0, 0] (List.replicate 64 0) (by decide)
        ⟨1, 0, List.replicate 32 0, OBD_STATES.OBD_CONNECTED⟩ []).2 0x0C 0x05
        [49, 65, 32, 70, 56, 13] [54, 52, 13] [] (by decide) (by decide) (by decide)
        (by decide) (by decide) (by decide)]⟩

/-- C1 as stated fails: after `readPID([0x0C, 0x05], 2)` the transport delivers
exactly `"41 05 64\r41 0C 1A F8\r>"`; the call returns 1, not 2, and `result[1]`
keeps its old value 0 instead of receiving 60. -/
theorem readPIDs_reversed_counterexample :
    promptFrame (replyText 0x05 [0x64] ++ replyText 0x0C [0x1A, 0xF8])
      = [52, 49, 32, 48, 53, 32, 54, 52, 13, 52, 49, 32, 48, 67, 32, 49, 65, 32, 70, 56, 13,
          62].map Event.rx ∧
    (readPIDs ⟨1000, 15000⟩ [0x0C, 0x05] 2 [0, 0] (List.replicate 64 0)
        ⟨1, 0, List.replicate 32 0, OBD_STATES.OBD_CONNECTED⟩
        ⟨promptFrame (replyText 0x05 [0x64] ++ replyText 0x0C [0x1A, 0xF8]), []⟩).results = 1 ∧
    (readPIDs ⟨1000, 15000⟩ [0x0C, 0x05] 2 [0, 0] (List.replicate 64 0)
        ⟨1, 0, List.replicate 32 0, OBD_STATES.OBD_CONNECTED⟩
        ⟨promptFrame (replyText 0x05 [0x64] ++ replyText 0x0C [0x1A, 0xF8]), []⟩).result
      = [1726, 0] := by
  refine ⟨by decide, by decide, by decide⟩

/-! ### Handshake of `init` -/

theorem handshake_spec (H : Header) (cmds : List (List Nat)) :
    ∀ (buffer : List Nat) (w : World),
      (0 ∈ handshakeLengths H cmds.length buffer w.rx →
        (handshake H cmds buffer w).1 = false ∧
        (handshake H cmds buffer w).2.2.tx
          = w.tx ++ cmds.take ((handshakeLengths H cmds.length buffer w.rx).indexOf 0 + 1)) ∧
      (0 ∉ handshakeLengths H cmds.length buffer w.rx →
        (handshake H cmds buffer w).1 = true ∧
        (handshake H cmds buffer w).2.2.tx = w.tx ++ cmds) := by
  induction cmds with
  | nil => intro buffer w; simp [handshake, handshakeLengths]
  | cons cmd cmds ih =>
    intro buffer w
    by_cases h0 : (receive H (some buffer) 64 H.OBD_TIMEOUT_LONG w.rx).n = 0
    · simp [handshake, handshakeLengths, write, h0]
    · have ih' := ih ((receive H (some buffer) 64 H.OBD_TIMEOUT_LONG w.rx).buffer.getD buffer)
        { rx := (receive H (some buffer) 64 H.OBD_TIMEOUT_LONG w.rx).rest,
          tx := w.tx ++ [cmd] }
      have hne : ¬ (0 = (receive H (some buffer) 64 H.OBD_TIMEOUT_LONG w.rx).n) :=
        fun h => h0 h.symm
      simp only [handshake, handshakeLengths, write, h0, if_false, List.length_cons,
        List.mem_cons, hne, false_or, List.indexOf_cons_ne _ h0, List.take_succ_cons]
      constructor
      · intro hmem
        have := ih'.1 hmem
        simp only [List.append_assoc, List.singleton_append] at this
        exact this
      · intro hmem
        have := ih'.2 hmem
        simp only [List.append_assoc, List.singleton_append] at this
        exact this

/-- C8: `init` fails exactly on an empty handshake frame.  With the lengths of
the frames that answer `"ATZ\r"`, `"ATE0\r"`, `"ATL1\r"`, `"0100\r"` in that
order: `init` returns false with state DISCONNECTED iff one of them is 0; the
commands written are then those up to the first one answered by an empty frame
and no later one; in every other case `init` returns true with state CONNECTED
and error counter 0.  In particular a reply `"OK\r>"` to `"ATZ\r"` followed by
silence leaves the state DISCONNECTED after `"ATE0\r"`. -/
theorem init_fails_iff_empty_handshake (H : Header) (protocol : Nat) (buffer : List Nat)
    (obd : COBD) (w : World) :
    (((init H protocol buffer obd w).ok = false ∧
        (init H protocol buffer obd w).obd.m_state = OBD_STATES.OBD_DISCONNECTED)
      ↔ 0 ∈ handshakeLengths H 4 buffer w.rx) ∧
    (0 ∈ handshakeLengths H 4 buffer w.rx →
      (init H protocol buffer obd w).ok = false ∧
      (init H protocol buffer obd w).obd.m_state = OBD_STATES.OBD_DISCONNECTED ∧
      (init H protocol buffer obd w).w.tx
        = w.tx ++ initcmd.take ((handshakeLengths H 4 buffer w.rx).indexOf 0 + 1)) ∧
    (0 ∉ handshakeLengths H 4 buffer w.rx →
      (init H protocol buffer obd w).ok = true ∧
      (init H protocol buffer obd w).obd.m_state = OBD_STATES.OBD_CONNECTED ∧
      (init H protocol buffer obd w).obd.errors = 0) ∧
    ((init ⟨1000, 15000⟩ PROTO_AUTO (List.replicate 64 0)
        ⟨1, 0, List.replicate 32 0, OBD_STATES.OBD_CONNECTED⟩
        ⟨promptFrame [79, 75, 13], []⟩).ok = false ∧
     (init ⟨1000, 15000⟩ PROTO_AUTO (List.replicate 64 0)
        ⟨1, 0, List.replicate 32 0, OBD_STATES.OBD_CONNECTED⟩
        ⟨promptFrame [79, 75, 13], []⟩).obd.m_state = OBD_STATES.OBD_DISCONNECTED ∧
     (init ⟨1000, 15000⟩ PROTO_AUTO (List.replicate 64 0)
        ⟨1, 0, List.replicate 32 0, OBD_STATES.OBD_CONNECTED⟩
        ⟨promptFrame [79, 75, 13], []⟩).w.tx = [[65, 84, 90, 13], [65, 84, 69, 48, 13]]) := by
  have hs := handshake_spec H initcmd buffer w
  have hlen : initcmd.length = 4 := rfl
  rw [hlen] at hs
  have hfail : 0 ∈ handshakeLengths H 4 buffer w.rx →
      (init H protocol buffer obd w).ok = false ∧
      (init H protocol buffer obd w).obd.m_state = OBD_STATES.OBD_DISCONNECTED ∧
      (init H protocol buffer obd w).w.tx
        = w.tx ++ initcmd.take ((handshakeLengths H 4 buffer w.rx).indexOf 0 + 1) := by
    intro hmem
    obtain ⟨h1, h2⟩ := hs.1 hmem
    rcases hh : handshake H initcmd buffer w with ⟨ok, b, w'⟩
    rw [hh] at h1 h2
    simp only at h1 h2
    subst h1
    simp only [init, hh]
    exact ⟨trivial, trivial, h2⟩
  have hok : 0 ∉ handshakeLengths H 4 buffer w.rx →
      (init H protocol buffer obd w).ok = true ∧
      (init H protocol buffer obd w).obd.m_state = OBD_STATES.OBD_CONNECTED ∧
      (init H protocol buffer obd w).obd.errors = 0 := by
    intro hmem
    obtain ⟨h1, _⟩ := hs.2 hmem
    rcases hh : handshake H initcmd buffer w with ⟨ok, b, w'⟩
    rw [hh] at h1
    simp only at h1
    subst h1
    simp only [init, hh]
    trivial
  refine ⟨⟨?_, fun h => ⟨(hfail h).1, (hfail h).2.1⟩⟩, hfail, hok, by decide, by decide, by decide⟩
  intro hf
  by_contra hmem
  have := (hok hmem).1
  rw [hf.1] at this
  exact Bool.noConfusion this

/-! ### Loading the PID map -/

theorem loadPidBytes_getD (buffer : List Nat) (data i : Nat) :
    ∀ (ns pidmap : List Nat) (j : Nat), (∀ n ∈ ns, j ≠ i * 4 + n) →
      (loadPidBytes buffer data i ns pidmap).getD j 0 = pidmap.getD j 0 := by
  intro ns
  induction ns with
  | nil => intro pidmap j _; rfl
  | cons n ns ih =>
    intro pidmap j hj
    unfold loadPidBytes
    split_ifs
    · rfl
    · rw [ih _ j (fun m hm => hj m (List.mem_cons_of_mem n hm))]
      have hne : i * 4 + n ≠ j := fun h => hj n (List.mem_cons_self n ns) h.symm
      simp [List.getD_eq_getElem?_getD, List.getElem?_set_ne hne]

theorem loadPidBytes_length (buffer : List Nat) (data i : Nat) :
    ∀ (ns pidmap : List Nat), (loadPidBytes buffer data i ns pidmap).length = pidmap.length := by
  intro ns
  induction ns with
  | nil => intro pidmap; rfl
  | cons n ns ih =>
    intro pidmap
    unfold loadPidBytes
    split_ifs
    · rfl
    · rw [ih]; simp

theorem loadPidMap_above (H : Header) :
    ∀ (n i : Nat) (obd : COBD) (buffer : List Nat) (w : World),
      i ≤ (loadPidMap H (List.range' i n) (i + n) obd buffer w).i ∧
      ∀ j : Nat, 4 * (loadPidMap H (List.range' i n) (i + n) obd buffer w).i ≤ j →
        (loadPidMap H (List.range' i n) (i + n) obd buffer w).obd.pidmap.getD j 0
          = obd.pidmap.getD j 0 := by
  intro n
  induction n with
  | zero => intro i obd buffer w; simp [loadPidMap]
  | succ n ih =>
    intro i obd buffer w
    have hend : i + (n + 1) = (i + 1) + n := by omega
    rw [List.range'_succ, hend]
    simp only [loadPidMap]
    split
    · simp
    · refine ⟨Nat.le_of_succ_le (ih (i + 1) _ _ _).1, fun j hj => ?_⟩
      have h4 : 4 * (i + 1) ≤ j := le_trans (Nat.mul_le_mul_left 4 (ih (i + 1) _ _ _).1) hj
      refine ((ih (i + 1) _ _ _).2 j hj).trans ?_
      apply loadPidBytes_getD
      intro m hm
      simp only [List.mem_cons, List.mem_singleton, List.not_mem_nil, or_false] at hm
      omega

theorem getD_replicate_zero (n j : Nat) : (List.replicate n 0).getD j 0 = 0 := by
  rw [List.getD_eq_getElem?_getD, List.getElem?_replicate]
  split_ifs <;> rfl

theorem isValidPID_of_zero_byte (pidmap : List Nat) (p : Nat) (h1 : 1 ≤ p) (h2 : p ≤ 0x7E)
    (hz : pidmap.getD ((p - 1) / 8) 0 = 0) : isValidPID pidmap p = false := by
  rw [isValidPID_lookup pidmap p h1 h2, hz, Nat.zero_testBit]

/-- C7: a capability query without data degrades to "unsupported".  Whatever the
PID map held before, if the handshake of `init` succeeds and the map loading
loop is left at query `k < 4` (the first one for which `getResponse` returns no
data), then `init` returns true and `isValidPID(p)` is false for every `p` with
`32 * k + 1 ≤ p ≤ 0x7E`. -/
theorem init_unanswered_capability (H : Header) (protocol : Nat) (buffer : List Nat)
    (obd : COBD) (w : World) (k : Nat)
    (hs : (handshake H initcmd buffer w).1 = true)
    (hk : (init H protocol buffer obd w).answered = k) (hk4 : k < 4) :
    (init H protocol buffer obd w).ok = true ∧
    ∀ p : Nat, 32 * k + 1 ≤ p → p ≤ 0x7E →
      isValidPID (init H protocol buffer obd w).obd.pidmap p = false := by
  rcases hh : handshake H initcmd buffer w with ⟨ok, b, w'⟩
  rw [hh] at hs
  simp only at hs
  subst hs
  simp only [init, hh] at hk ⊢
  refine ⟨trivial, fun p hp1 hp2 => ?_⟩
  apply isValidPID_of_zero_byte _ p (by omega) hp2
  have habove := (loadPidMap_above H 4 0
    { dataMode := obd.dataMode, errors := obd.errors,
      pidmap := List.replicate obd.pidmap.length 0, m_state := OBD_STATES.OBD_CONNECTING }
    b (if protocol ≠ PROTO_AUTO then (setProtocol H protocol w').2 else w')).2
  have hr : List.range' 0 4 = [0, 1, 2, 3] := rfl
  rw [hr] at habove
  simp only [Nat.zero_add] at habove
  rw [habove ((p - 1) / 8) (by rw [hk]; omega)]
  exact getD_replicate_zero _ _

/-- Witness for C7: four handshake replies `"OK\r>"`, then silence, so that the
first capability query already returns no data; the map held 0xFF before. -/
theorem init_unanswered_capability_witness :
    (init ⟨1000, 15000⟩ PROTO_AUTO (List.replicate 64 0)
        ⟨1, 0, List.replicate 32 0xFF, OBD_STATES.OBD_DISCONNECTED⟩
        ⟨promptFrame [79, 75, 13] ++ promptFrame [79, 75, 13] ++ promptFrame [79, 75, 13]
          ++ promptFrame [79, 75, 13], []⟩).ok = true ∧
    ∀ p : Nat, 32 * 0 + 1 ≤ p → p ≤ 0x7E →
      isValidPID (init ⟨1000, 15000⟩ PROTO_AUTO (List.replicate 64 0)
        ⟨1, 0, List.replicate 32 0xFF, OBD_STATES.OBD_DISCONNECTED⟩
        ⟨promptFrame [79, 75, 13] ++ promptFrame [79, 75, 13] ++ promptFrame [79, 75, 13]
          ++ promptFrame [79, 75, 13], []⟩).obd.pidmap p = false :=
  init_unanswered_capability ⟨1000, 15000⟩ PROTO_AUTO (List.replicate 64 0)
    ⟨1, 0, List.replicate 32 0xFF, OBD_STATES.OBD_DISCONNECTED⟩
    ⟨promptFrame [79, 75, 13] ++ promptFrame [79, 75, 13] ++ promptFrame [79, 75, 13]
      ++ promptFrame [79, 75, 13], []⟩ 0 (by decide) (by decide) (by decide)

theorem receiveLoop_buffer_length (H : Header) (bufsize : Nat) (evs : List Event) :
    ∀ (buf : List Nat) (n timeout : Nat),
      ∃ b' : List Nat, (receiveLoop H bufsize evs (some buf) n timeout).buffer = some b' ∧
        b'.length = buf.length := by
  induction evs with
  | nil => intro buf n timeout; exact ⟨buf.set n 0, rfl, by simp⟩
  | cons ev evs ih =>
    intro buf n timeout
    cases ev with
    | idle elapsed =>
      simp only [receiveLoop]
      split_ifs
      · exact ⟨buf.set n 0, rfl, by simp⟩
      · exact ih buf n timeout
    | rx c =>
      simp only [receiveLoop]
      split_ifs
      · exact ⟨buf.set n 0, rfl, by simp⟩
      · exact ih buf 0 _
      · obtain ⟨b', h1, h2⟩ := ih (buf.set n c) ((n + 1) % 256) timeout
        exact ⟨b', h1, by simpa using h2⟩
      · exact ih buf n timeout

theorem getResponseLoop_buffer_length (H : Header) (bufsize : Nat) (fuel : Nat) :
    ∀ (pid errors : Nat) (buffer : List Nat) (rx : List Event),
      (getResponseLoop H bufsize fuel pid errors buffer rx).buffer.length = buffer.length := by
  induction fuel with
  | zero => intro pid errors buffer rx; rfl
  | succ fuel ih =>
    intro pid errors buffer rx
    obtain ⟨b', h1, h2⟩ := receiveLoop_buffer_length H bufsize rx buffer 0 H.OBD_TIMEOUT_SHORT
    simp only [getResponseLoop, receive, h1, Option.getD_some]
    split_ifs
    · split
      · exact h2
      · rw [ih]; exact h2
    · exact h2

theorem loadPidMap_below (H : Header) (iEnd : Nat) :
    ∀ (n i : Nat) (obd : COBD) (buffer : List Nat) (w : World),
      (loadPidMap H (List.range' i n) iEnd obd buffer w).obd.pidmap.length = obd.pidmap.length ∧
      ∀ j : Nat, j < 4 * i →
        (loadPidMap H (List.range' i n) iEnd obd buffer w).obd.pidmap.getD j 0
          = obd.pidmap.getD j 0 := by
  intro n
  induction n with
  | zero => intro i obd buffer w; simp [loadPidMap]
  | succ n ih =>
    intro i obd buffer w
    rw [List.range'_succ]
    simp only [loadPidMap]
    split
    · simp
    · refine ⟨((ih (i + 1) _ _ _).1).trans (loadPidBytes_length _ _ _ _ _), fun j hj => ?_⟩
      refine ((ih (i + 1) _ _ _).2 j (by omega)).trans ?_
      apply loadPidBytes_getD
      intro m _
      omega

theorem capabilityValue_testBit (c : CapabilityBytes) (hc : c.IsBytes) (e : Nat) :
    c.value.testBit e =
      if e < 8 then c.b3.testBit e
      else if e < 16 then c.b2.testBit (e - 8)
      else if e < 24 then c.b1.testBit (e - 16)
      else c.b0.testBit (e - 24) := by
  obtain ⟨h0, h1, h2, h3⟩ := hc
  have hv : c.value = 2 ^ 8 * (2 ^ 8 * (2 ^ 8 * c.b0 + c.b1) + c.b2) + c.b3 := by
    unfold CapabilityBytes.value; ring
  rw [hv, Nat.testBit_mul_pow_two_add _ (by simpa using h3)]
  split_ifs with a1 a2 a3 <;> try omega
  · rfl
  · rw [Nat.testBit_mul_pow_two_add _ (by simpa using h2), if_pos (by omega)]
  · rw [Nat.testBit_mul_pow_two_add _ (by simpa using h2), if_neg (by omega),
      Nat.testBit_mul_pow_two_add _ (by simpa using h1), if_pos (by omega),
      show e - 8 - 8 = e - 16 by omega]
  · rw [Nat.testBit_mul_pow_two_add _ (by simpa using h2), if_neg (by omega),
      Nat.testBit_mul_pow_two_add _ (by simpa using h1), if_neg (by omega),
      show e - 8 - 8 - 8 = e - 24 by omega]

/-- One pass of the map loading loop over a well-formed capability reply: the
four bytes are stored in the cells of block `i` and the loop goes on. -/
theorem loadPidMap_step_reply (H : Header) (i : Nat) (is : List Nat) (iEnd : Nat)
    (obd : COBD) (buffer : List Nat) (c : CapabilityBytes) (rest : List Event)
    (tx : List (List Nat)) (hi : i < 8) (hbuf : buffer.length = 64) (hc : c.IsBytes) :
    ∃ buffer1 : List Nat, buffer1.length = 64 ∧
      loadPidMap H (i :: is) iEnd obd buffer ⟨capabilityReply i c ++ rest, tx⟩
        = loadPidMap H is iEnd
            { obd with
              errors := 0
              pidmap := (((obd.pidmap.set (i * 4) c.b0).set (i * 4 + 1) c.b1).set
                (i * 4 + 2) c.b2).set (i * 4 + 3) c.b3 }
            buffer1 ⟨rest, tx ++ [queryText obd.dataMode (0x20 * i)]⟩ := by
  obtain ⟨h0, h1, h2, h3⟩ := hc
  obtain ⟨x1, x2, hfx, hx1, hx2, hvx⟩ := fmt02X_digits (0x20 * i) (by omega)
  obtain ⟨p1, p2, hfp, hp1, hp2, hvp⟩ := fmt02X_digits c.b0 h0
  obtain ⟨q1, q2, hfq, hq1, hq2, hvq⟩ := fmt02X_digits c.b1 h1
  obtain ⟨r1, r2, hfr, hr1, hr2, hvr⟩ := fmt02X_digits c.b2 h2
  obtain ⟨s1, s2, hfs, hs1, hs2, hvs⟩ := fmt02X_digits c.b3 h3
  have hpid : i * 32 % 256 = 0x20 * i := by omega
  have ht : capabilityReply i c ++ rest
      = (52 :: 49 :: 32 :: x1 :: x2 :: 32 ::
          [p1, p2, 32, q1, q2, 32, r1, r2, 32, s1, s2, 13]).map Event.rx
          ++ Event.rx 62 :: rest := by
    simp [capabilityReply, promptFrame, replyText, hfx, hfp, hfq, hfr, hfs]
  have hresp := getResponse_first_reply H (0x20 * i) obd.errors x1 x2 buffer
    [p1, p2, 32, q1, q2, 32, r1, r2, 32, s1, s2, 13] rest hbuf (by simp) (Or.inr hvx)
    (frame_chars_ok _ (by
      simp only [List.all_cons, List.all_nil, hx1, hx2, hp1, hp2, hq1, hq2, hr1, hr2, hs1, hs2,
        Bool.true_or, Bool.and_true, Bool.true_and]
      decide))
  refine ⟨(52 :: 49 :: 32 :: x1 :: x2 :: 32 :: [p1, p2, 32, q1, q2, 32, r1, r2, 32, s1, s2, 13])
      ++ 0 :: buffer.drop ([p1, p2, 32, q1, q2, 32, r1, r2, 32, s1, s2, 13].length + 7), ?_, ?_⟩
  · simp [hbuf]
  · rw [loadPidMap]
    simp only [sendQuery, write, hpid, ht, hresp, hvx]
    simp [loadPidBytes, hvp, hvq, hvr, hvs]

theorem getD_set_self (l : List Nat) (j v : Nat) (h : j < l.length) :
    (l.set j v).getD j 0 = v := by
  simp [List.getD_eq_getElem?_getD, List.getElem?_set_self, h]

theorem getD_set_other (l : List Nat) (j k v : Nat) (h : k ≠ j) :
    (l.set k v).getD j 0 = l.getD j 0 := by
  simp [List.getD_eq_getElem?_getD, List.getElem?_set_ne h]

theorem storedBlock_getD (pm : List Nat) (i : Nat) (c : CapabilityBytes)
    (h : i * 4 + 3 < pm.length) :
    ((((pm.set (i * 4) c.b0).set (i * 4 + 1) c.b1).set (i * 4 + 2) c.b2).set
        (i * 4 + 3) c.b3).getD (4 * i) 0 = c.b0 ∧
    ((((pm.set (i * 4) c.b0).set (i * 4 + 1) c.b1).set (i * 4 + 2) c.b2).set
        (i * 4 + 3) c.b3).getD (4 * i + 1) 0 = c.b1 ∧
    ((((pm.set (i * 4) c.b0).set (i * 4 + 1) c.b1).set (i * 4 + 2) c.b2).set
        (i * 4 + 3) c.b3).getD (4 * i + 2) 0 = c.b2 ∧
    ((((pm.set (i * 4) c.b0).set (i * 4 + 1) c.b1).set (i * 4 + 2) c.b2).set
        (i * 4 + 3) c.b3).getD (4 * i + 3) 0 = c.b3 := by
  have e : 4 * i = i * 4 := Nat.mul_comm 4 i
  rw [e]
  refine ⟨?_, ?_, ?_, ?_⟩
  · rw [getD_set_other _ _ _ _ (by omega), getD_set_other _ _ _ _ (by omega),
      getD_set_other _ _ _ _ (by omega), getD_set_self _ _ _ (by omega)]
  · rw [getD_set_other _ _ _ _ (by omega), getD_set_other _ _ _ _ (by omega),
      getD_set_self _ _ _ (by simp; omega)]
  · rw [getD_set_other _ _ _ _ (by omega), getD_set_self _ _ _ (by simp; omega)]
  · rw [getD_set_self _ _ _ (by simp; omega)]

/-- The map loading loop over well-formed replies to the queries `i`, `i + 1`,
...: whatever follows, block `i + m` of the map holds the bytes of reply `m`. -/
theorem loadPidMap_replies (H : Header) (iEnd : Nat) :
    ∀ (caps : List CapabilityBytes) (n i : Nat) (obd : COBD) (buffer : List Nat)
      (rest : List Event) (tx : List (List Nat)),
      caps.length ≤ n → i + caps.length ≤ 8 → buffer.length = 64 →
      4 * (i + caps.length) ≤ obd.pidmap.length → (∀ c ∈ caps, c.IsBytes) →
      ∀ (m : Nat) (c : CapabilityBytes), caps[m]? = some c →
        (loadPidMap H (List.range' i n) iEnd obd buffer
            ⟨capabilityReplies i caps ++ rest, tx⟩).obd.pidmap.getD (4 * (i + m)) 0 = c.b0 ∧
        (loadPidMap H (List.range' i n) iEnd obd buffer
            ⟨capabilityReplies i caps ++ rest, tx⟩).obd.pidmap.getD (4 * (i + m) + 1) 0 = c.b1 ∧
        (loadPidMap H (List.range' i n) iEnd obd buffer
            ⟨capabilityReplies i caps ++ rest, tx⟩).obd.pidmap.getD (4 * (i + m) + 2) 0 = c.b2 ∧
        (loadPidMap H (List.range' i n) iEnd obd buffer
            ⟨capabilityReplies i caps ++ rest, tx⟩).obd.pidmap.getD (4 * (i + m) + 3) 0 = c.b3 := by
  intro caps
  induction caps with
  | nil => intro n i obd buffer rest tx _ _ _ _ _ m c hm; simp at hm
  | cons c0 cs ih =>
    intro n i obd buffer rest tx hn hi hbuf hmap hbytes m c hm
    obtain ⟨n', rfl⟩ : ∃ n', n = n' + 1 := ⟨n - 1, by simp at hn; omega⟩
    have hlen : (c0 :: cs).length = cs.length + 1 := rfl
    rw [hlen] at hn hi hmap
    obtain ⟨buffer1, hb1, hstep⟩ := loadPidMap_step_reply H i (List.range' (i + 1) n') iEnd obd
      buffer c0 (capabilityReplies (i + 1) cs ++ rest) tx (by omega) hbuf
      (hbytes c0 (List.mem_cons_self c0 cs))
    have hscript : capabilityReplies i (c0 :: cs) ++ rest
        = capabilityReply i c0 ++ (capabilityReplies (i + 1) cs ++ rest) := by
      simp [capabilityReplies]
    rw [List.range'_succ, hscript, hstep]
    cases m with
    | zero =>
      simp only [List.getElem?_cons_zero, Option.some.injEq] at hm
      subst hm
      have hbelow := (loadPidMap_below H iEnd n' (i + 1)
        { obd with
          errors := 0
          pidmap := (((obd.pidmap.set (i * 4) c0.b0).set (i * 4 + 1) c0.b1).set
            (i * 4 + 2) c0.b2).set (i * 4 + 3) c0.b3 }
        buffer1 ⟨capabilityReplies (i + 1) cs ++ rest,
          tx ++ [queryText obd.dataMode (0x20 * i)]⟩).2
      obtain ⟨s0, s1, s2, s3⟩ := storedBlock_getD obd.pidmap i c0 (by omega)
      simp only [Nat.add_zero]
      rw [hbelow _ (by omega), hbelow _ (by omega), hbelow _ (by omega), hbelow _ (by omega)]
      exact ⟨s0, s1, s2, s3⟩
    | succ m =>
      have hm' : cs[m]? = some c := by simpa using hm
      have := ih n' (i + 1)
        { obd with
          errors := 0
          pidmap := (((obd.pidmap.set (i * 4) c0.b0).set (i * 4 + 1) c0.b1).set
            (i * 4 + 2) c0.b2).set (i * 4 + 3) c0.b3 }
        buffer1 rest (tx ++ [queryText obd.dataMode (0x20 * i)]) (by omega) (by omega) hb1
        (by simp; omega) (fun c hc => hbytes c (List.mem_cons_of_mem c0 hc)) m c hm'
      have hidx : i + (m + 1) = i + 1 + m := by omega
      rw [hidx]
      exact this

theorem handshake_frames (H : Header) :
    ∀ (cmds hs : List (List Nat)) (buffer : List Nat) (rest : List Event)
      (tx : List (List Nat)), hs.length = cmds.length →
      (∀ t ∈ hs, 3 ≤ t.length ∧ t.length < 64 ∧ ∀ c ∈ t, c ≠ 62 ∧ c ≠ 46) →
      buffer.length = 64 →
      ∃ b' : List Nat, b'.length = 64 ∧
        handshake H cmds buffer ⟨hs.flatMap promptFrame ++ rest, tx⟩
          = (true, b', ⟨rest, tx ++ cmds⟩) := by
  intro cmds
  induction cmds with
  | nil =>
    intro hs buffer rest tx hlen _ hbuf
    have : hs = [] := List.length_eq_zero.mp (by simpa using hlen)
    subst this
    exact ⟨buffer, hbuf, by simp [handshake]⟩
  | cons cmd cmds ih =>
    intro hs buffer rest tx hlen hok hbuf
    cases hs with
    | nil => simp at hlen
    | cons t ts =>
      obtain ⟨h3, h64, hc⟩ := hok t (List.mem_cons_self t ts)
      have hframe := receive_frame H 64 H.OBD_TIMEOUT_LONG (ts.flatMap promptFrame ++ rest)
        t buffer (by decide) h64 (by omega) h3 hc
      have hscript : (t :: ts).flatMap promptFrame ++ rest
          = t.map Event.rx ++ Event.rx 62 :: (ts.flatMap promptFrame ++ rest) := by
        simp [List.flatMap_cons, promptFrame]
      obtain ⟨b', hb', hrec⟩ := ih ts (t ++ 0 :: buffer.drop (t.length + 1))
        rest (tx ++ [cmd]) (by simpa using hlen)
        (fun u hu => hok u (List.mem_cons_of_mem t hu)) (by simp [hbuf]; omega)
      refine ⟨b', hb', ?_⟩
      have hne : ¬ t.length = 0 := by omega
      rw [hscript]
      simp only [handshake, write, hframe, hne, if_false, Option.getD_some, hrec]
      simp

theorem setProtocol_frame (H : Header) (h : Nat) (hp : List Nat) (rest : List Event)
    (tx : List (List Nat)) (h3 : 3 ≤ hp.length) (h32 : hp.length < 32)
    (hc : ∀ c ∈ hp, c ≠ 62 ∧ c ≠ 46) :
    (setProtocol H h ⟨promptFrame hp ++ rest, tx⟩).2.rx = rest := by
  have hframe := receive_frame H 32 H.OBD_TIMEOUT_LONG rest hp (List.replicate 32 0)
    (by decide) h32 (by simpa using h32) h3 hc
  have hscript : promptFrame hp ++ rest = hp.map Event.rx ++ Event.rx 62 :: rest := by
    simp [promptFrame]
  by_cases hauto : h = PROTO_AUTO
  · simp only [setProtocol, hauto, if_true, write, hscript, hframe]
  · simp only [setProtocol, hauto, if_false, write, hscript, hframe]

theorem isValidPID_of_block (pm : List Nat) (i p : Nat) (c : CapabilityBytes) (hc : c.IsBytes)
    (h0 : pm.getD (4 * i) 0 = c.b0) (h1 : pm.getD (4 * i + 1) 0 = c.b1)
    (h2 : pm.getD (4 * i + 2) 0 = c.b2) (h3 : pm.getD (4 * i + 3) 0 = c.b3)
    (hp1 : 32 * i + 1 ≤ p) (hp2 : p ≤ 32 * i + 32) (hp3 : p ≤ 0x7E) :
    isValidPID pm p = c.value.testBit (32 * i + 32 - p) := by
  rw [isValidPID_lookup pm p (by omega) hp3, capabilityValue_testBit c hc]
  split_ifs with a1 a2 a3
  · rw [show (p - 1) / 8 = 4 * i + 3 by omega, h3]
    congr 1; omega
  · rw [show (p - 1) / 8 = 4 * i + 2 by omega, h2]
    congr 1; omega
  · rw [show (p - 1) / 8 = 4 * i + 1 by omega, h1]
    congr 1; omega
  · rw [show (p - 1) / 8 = 4 * i by omega, h0]
    congr 1; omega

/-- A whole session: the four handshake commands are answered by the frames
`hs`, the protocol command (when a protocol is requested) by the frame `hp`,
and the capability queries 0, 1, ... in turn by the frames `"41 XX B0 B1 B2 B3\r"`
of `caps`, whatever follows.  Then `init` returns true and for every answered
query `i` and every PID `p` with `32 * i + 1 ≤ p ≤ 32 * i + 32` and `p ≤ 0x7E`,
`isValidPID(p)` is true iff bit `32 * i + 32 - p` of the big-endian value
`B0B1B2B3` of reply `i` is set. -/
theorem init_session_pidmap (H : Header) (protocol : Nat) (buffer : List Nat)
    (obd : COBD) (tx : List (List Nat)) (hs : List (List Nat)) (hp : List Nat)
    (caps : List CapabilityBytes) (rest : List Event)
    (hbuf : buffer.length = 64) (hmap : 16 ≤ obd.pidmap.length) (hhs : hs.length = 4)
    (hframes : ∀ t ∈ hs, 3 ≤ t.length ∧ t.length < 64 ∧ ∀ c ∈ t, c ≠ 62 ∧ c ≠ 46)
    (hhp : 3 ≤ hp.length ∧ hp.length < 32 ∧ ∀ c ∈ hp, c ≠ 62 ∧ c ≠ 46)
    (hcaps : caps.length ≤ 4) (hbytes : ∀ c ∈ caps, c.IsBytes) :
    (init H protocol buffer obd
        ⟨hs.flatMap promptFrame ++ (if protocol = PROTO_AUTO then [] else promptFrame hp)
          ++ capabilityReplies 0 caps ++ rest, tx⟩).ok = true ∧
    ∀ (i : Nat) (c : CapabilityBytes), caps[i]? = some c →
      ∀ p : Nat, 32 * i + 1 ≤ p → p ≤ 32 * i + 32 → p ≤ 0x7E →
        (isValidPID (init H protocol buffer obd
            ⟨hs.flatMap promptFrame ++ (if protocol = PROTO_AUTO then [] else promptFrame hp)
              ++ capabilityReplies 0 caps ++ rest, tx⟩).obd.pidmap p = true
          ↔ c.value.testBit (32 * i + 32 - p) = true) := by
  have hassoc : hs.flatMap promptFrame ++ (if protocol = PROTO_AUTO then [] else promptFrame hp)
        ++ capabilityReplies 0 caps ++ rest
      = hs.flatMap promptFrame ++ ((if protocol = PROTO_AUTO then [] else promptFrame hp)
          ++ (capabilityReplies 0 caps ++ rest)) := by
    simp only [List.append_assoc]
  obtain ⟨b', hb', hhand⟩ := handshake_frames H initcmd hs buffer
    ((if protocol = PROTO_AUTO then [] else promptFrame hp) ++ (capabilityReplies 0 caps ++ rest))
    tx hhs hframes hbuf
  have hw : ∃ tx2 : List (List Nat),
      (if protocol ≠ PROTO_AUTO then
        (setProtocol H protocol
          ⟨(if protocol = PROTO_AUTO then [] else promptFrame hp)
            ++ (capabilityReplies 0 caps ++ rest), tx ++ initcmd⟩).2
       else
        ⟨(if protocol = PROTO_AUTO then [] else promptFrame hp)
            ++ (capabilityReplies 0 caps ++ rest), tx ++ initcmd⟩)
      = ⟨capabilityReplies 0 caps ++ rest, tx2⟩ := by
    by_cases hauto : protocol = PROTO_AUTO
    · exact ⟨tx ++ initcmd, by simp [hauto]⟩
    · have hrx := setProtocol_frame H protocol hp (capabilityReplies 0 caps ++ rest)
        (tx ++ initcmd) hhp.1 hhp.2.1 hhp.2.2
      have heta : ∀ W : World, W.rx = capabilityReplies 0 caps ++ rest →
          ∃ tx2 : List (List Nat), W = ⟨capabilityReplies 0 caps ++ rest, tx2⟩ := by
        intro W hW
        cases W
        simp only at hW
        exact ⟨_, by rw [hW]⟩
      simp only [hauto, if_false, ne_eq, not_false_eq_true, if_true]
      exact heta _ hrx
  obtain ⟨tx2, hw2⟩ := hw
  rw [hassoc]
  simp only [init, hhand, hw2]
  refine ⟨trivial, fun i c hget p hp1 hp2 hp3 => ?_⟩
  have hc : c.IsBytes := hbytes c (List.getElem?_mem hget)
  have hr : List.range' 0 4 = [0, 1, 2, 3] := rfl
  obtain ⟨g0, g1, g2, g3⟩ := loadPidMap_replies H 4 caps 4 0
    { dataMode := obd.dataMode, errors := obd.errors,
      pidmap := List.replicate obd.pidmap.length 0, m_state := OBD_STATES.OBD_CONNECTING }
    b' rest tx2 hcaps (by omega) hb' (by simp; omega) hbytes i c hget
  rw [hr] at g0 g1 g2 g3
  simp only [Nat.zero_add] at g0 g1 g2 g3
  rw [isValidPID_of_block _ i p c hc g0 g1 g2 g3 hp1 hp2 hp3]

theorem handshake_buffer_length (H : Header) (cmds : List (List Nat)) :
    ∀ (buffer : List Nat) (w : World),
      (handshake H cmds buffer w).2.1.length = buffer.length := by
  induction cmds with
  | nil => intro buffer w; rfl
  | cons cmd cmds ih =>
    intro buffer w
    obtain ⟨b', h1, h2⟩ := receiveLoop_buffer_length H 64 (write cmd w).rx buffer 0
      H.OBD_TIMEOUT_LONG
    simp only [handshake, receive, h1, Option.getD_some]
    split_ifs
    · exact h2
    · rw [ih]; exact h2

theorem loadPidMap_buffer_length (H : Header) (iEnd : Nat) (is : List Nat) :
    ∀ (obd : COBD) (buffer : List Nat) (w : World),
      (loadPidMap H is iEnd obd buffer w).buffer.length = buffer.length := by
  induction is with
  | nil => intro obd buffer w; rfl
  | cons i is ih =>
    intro obd buffer w
    simp only [loadPidMap]
    split
    · exact getResponseLoop_buffer_length H 64 _ _ _ _ _
    · rw [ih]
      exact getResponseLoop_buffer_length H 64 _ _ _ _ _

theorem loadPidMap_split (H : Header) (iEnd : Nat) (n2 : Nat) :
    ∀ (n1 i0 : Nat) (obd : COBD) (buffer : List Nat) (w : World),
      (loadPidMap H (List.range' i0 n1) (i0 + n1) obd buffer w).i = i0 + n1 →
      loadPidMap H (List.range' i0 (n1 + n2)) iEnd obd buffer w
        = loadPidMap H (List.range' (i0 + n1) n2) iEnd
            (loadPidMap H (List.range' i0 n1) (i0 + n1) obd buffer w).obd
            (loadPidMap H (List.range' i0 n1) (i0 + n1) obd buffer w).buffer
            (loadPidMap H (List.range' i0 n1) (i0 + n1) obd buffer w).w := by
  intro n1
  induction n1 with
  | zero => intro i0 obd buffer w _; simp [loadPidMap]
  | succ n1 ih =>
    intro i0 obd buffer w hreach
    have e1 : n1 + 1 + n2 = (n1 + n2) + 1 := by omega
    have e2 : i0 + (n1 + 1) = (i0 + 1) + n1 := by omega
    rw [List.range'_succ] at hreach
    rw [e1, List.range'_succ, List.range'_succ]
    simp only [loadPidMap] at hreach ⊢
    split at hreach
    · simp only at hreach; omega
    · rw [e2] at hreach ⊢
      exact ih (i0 + 1) _ _ _ hreach

/-- C6: after a successful `init` in which capability query `i` (PID `0x20 * i`)
is answered by the frame `"41 XX B0 B1 B2 B3\r"` and the prompt, the PID map
reflects that reply: `init` returns true, and for every PID `p` with
`32 * i + 1 ≤ p ≤ 32 * i + 32` and `p ≤ 0x7E`, `isValidPID(p)` is true iff bit
`32 * i + 32 - p` of the big-endian value `B0B1B2B3` is set.  The handshake may
be answered in any way that lets it succeed, the earlier queries in any way
that returns data, and anything may follow the reply. -/
theorem init_pidmap_reflects_reply (H : Header) (protocol : Nat) (buffer : List Nat)
    (obd : COBD) (w : World) (i : Nat) (c : CapabilityBytes) (rest : List Event)
    (hbuf : buffer.length = 64) (hmap : 16 ≤ obd.pidmap.length)
    (hhand : (handshake H initcmd buffer w).1 = true) (hi : i < 4) (hc : c.IsBytes)
    (hreach : (capabilityQueryState H protocol buffer obd w i).i = i)
    (hrx : (capabilityQueryState H protocol buffer obd w i).w.rx
      = capabilityReply i c ++ rest) :
    (init H protocol buffer obd w).ok = true ∧
    ∀ p : Nat, 32 * i + 1 ≤ p → p ≤ 32 * i + 32 → p ≤ 0x7E →
      (isValidPID (init H protocol buffer obd w).obd.pidmap p = true
        ↔ c.value.testBit (32 * i + 32 - p) = true) := by
  have hb := handshake_buffer_length H initcmd buffer w
  rcases hh : handshake H initcmd buffer w with ⟨ok, b, w1⟩
  rw [hh] at hhand hb
  simp only at hhand hb
  subst hhand
  simp only [capabilityQueryState, hh] at hreach hrx
  simp only [init, hh]
  refine ⟨trivial, fun p hp1 hp2 hp3 => ?_⟩
  generalize hw2 : (if protocol ≠ PROTO_AUTO then (setProtocol H protocol w1).2 else w1) = w2
    at hreach hrx ⊢
  have hsplit := loadPidMap_split H 4 (4 - i) i 0 _ b w2
    (by simpa only [Nat.zero_add] using hreach)
  have hbl := loadPidMap_buffer_length H i (List.range' 0 i)
    ⟨obd.dataMode, obd.errors, List.replicate obd.pidmap.length 0,
      OBD_STATES.OBD_CONNECTING⟩ b w2
  have hpl := (loadPidMap_below H i i 0
    ⟨obd.dataMode, obd.errors, List.replicate obd.pidmap.length 0,
      OBD_STATES.OBD_CONNECTING⟩ b w2).1
  simp only [List.length_replicate] at hpl
  have hr4 : List.range' 0 (i + (4 - i)) = [0, 1, 2, 3] := by
    rw [show i + (4 - i) = 4 by omega]; rfl
  have hr3 : List.range' (0 + i) (4 - i) = i :: List.range' (i + 1) (3 - i) := by
    rw [show 4 - i = (3 - i) + 1 by omega, List.range'_succ, Nat.zero_add]
  rw [hr4, hr3] at hsplit
  simp only [Nat.zero_add] at hsplit
  generalize loadPidMap H (List.range' 0 i) i
    ⟨obd.dataMode, obd.errors, List.replicate obd.pidmap.length 0,
      OBD_STATES.OBD_CONNECTING⟩ b w2 = pre at hreach hrx hsplit hbl hpl
  obtain ⟨pi, pobd, pbuf, ⟨prx, ptx⟩⟩ := pre
  simp only at hreach hrx hsplit hbl hpl
  subst hrx
  obtain ⟨buffer1, _, hstep⟩ := loadPidMap_step_reply H i (List.range' (i + 1) (3 - i)) 4 pobd
    pbuf c rest ptx (by omega) (by rw [hbl, hb, hbuf]) hc
  rw [hsplit, hstep]
  have hbelow := (loadPidMap_below H 4 (3 - i) (i + 1)
    { pobd with
      errors := 0
      pidmap := (((pobd.pidmap.set (i * 4) c.b0).set (i * 4 + 1) c.b1).set
        (i * 4 + 2) c.b2).set (i * 4 + 3) c.b3 }
    buffer1 ⟨rest, ptx ++ [queryText pobd.dataMode (0x20 * i)]⟩).2
  obtain ⟨s0, s1, s2, s3⟩ := storedBlock_getD pobd.pidmap i c (by omega)
  rw [isValidPID_of_block _ i p c hc
    ((hbelow _ (by omega)).trans s0) ((hbelow _ (by omega)).trans s1)
    ((hbelow _ (by omega)).trans s2) ((hbelow _ (by omega)).trans s3) hp1 hp2 hp3]

/-- Witness for C6: four handshake replies `"OK\r>"`, automatic protocol, and
the replies `"41 00 BE 1F B8 10\r>"`, `"41 20 80 00 00 01\r>"` followed by
silence; query 1 is reached and answered, and PID 0x40 lies in its block. -/
theorem init_pidmap_reflects_reply_witness :
    (capabilityQueryState ⟨1000, 15000⟩ PROTO_AUTO (List.replicate 64 0)
        ⟨1, 0, List.replicate 32 0xFF, OBD_STATES.OBD_DISCONNECTED⟩
        ⟨[[79, 75, 13], [79, 75, 13], [79, 75, 13], [79, 75, 13]].flatMap promptFrame
          ++ capabilityReplies 0 [⟨0xBE, 0x1F, 0xB8, 0x10⟩, ⟨0x80, 0, 0, 1⟩], []⟩ 1).w.rx
      = capabilityReply 1 ⟨0x80, 0, 0, 1⟩ ++ [] ∧
    ((isValidPID (init ⟨1000, 15000⟩ PROTO_AUTO (List.replicate 64 0)
        ⟨1, 0, List.replicate 32 0xFF, OBD_STATES.OBD_DISCONNECTED⟩
        ⟨[[79, 75, 13], [79, 75, 13], [79, 75, 13], [79, 75, 13]].flatMap promptFrame
          ++ capabilityReplies 0 [⟨0xBE, 0x1F, 0xB8, 0x10⟩, ⟨0x80, 0, 0, 1⟩], []⟩).obd.pidmap
        0x40 = true)
      ↔ (CapabilityBytes.value ⟨0x80, 0, 0, 1⟩).testBit (32 * 1 + 32 - 0x40) = true) :=
  ⟨by decide,
   (init_pidmap_reflects_reply ⟨1000, 15000⟩ PROTO_AUTO (List.replicate 64 0)
      ⟨1, 0, List.replicate 32 0xFF, OBD_STATES.OBD_DISCONNECTED⟩
      ⟨[[79, 75, 13], [79, 75, 13], [79, 75, 13], [79, 75, 13]].flatMap promptFrame
        ++ capabilityReplies 0 [⟨0xBE, 0x1F, 0xB8, 0x10⟩, ⟨0x80, 0, 0, 1⟩], []⟩
      1 ⟨0x80, 0, 0, 1⟩ [] (by decide) (by decide) (by decide) (by decide) (by decide)
      (by decide) (by decide)).2 0x40 (by decide) (by decide) (by decide)⟩

/-! ### The iteration bounds of the loops are never reached early -/

theorem strstr_ge (needle : List Nat) (l : List Nat) :
    ∀ (p q : Nat), strstr needle l p = some q → p ≤ q := by
  induction l with
  | nil =>
    intro p q h
    simp only [strstr] at h
    split_ifs at h
    simp only [Option.some.injEq] at h
    omega
  | cons c cs ih =>
    intro p q h
    simp only [strstr] at h
    split_ifs at h
    · simp only [Option.some.injEq] at h
      omega
    · have := ih (p + 1) q h
      omega

/-- More iterations than `buffer.length + 1 - p` do not change the scan from
index `p`: each pass moves `p` forward by at least three cells. -/
theorem scanFrame_fuel (buffer : List Nat) :
    ∀ (fuel p pid errors extra : Nat), buffer.length < p + fuel →
      scanFrame buffer (fuel + extra) p pid errors = scanFrame buffer fuel p pid errors := by
  intro fuel
  induction fuel with
  | zero =>
    intro p pid errors extra hlt
    have hdrop : buffer.drop p = [] := List.drop_eq_nil_of_le (by omega)
    cases extra with
    | zero => rfl
    | succ e =>
      rw [Nat.zero_add]
      simp [scanFrame, hdrop, strstr]
  | succ fuel ih =>
    intro p pid errors extra hlt
    rw [show fuel + 1 + extra = (fuel + extra) + 1 by omega]
    simp only [scanFrame]
    split
    · rfl
    · rename_i q hq
      have hge := strstr_ge _ _ _ _ hq
      split_ifs <;> first | rfl | exact ih _ _ _ _ (by omega)

theorem receiveLoop_rest_length (H : Header) (bufsize : Nat) (evs : List Event) :
    ∀ (buffer : Option (List Nat)) (n timeout : Nat),
      (receiveLoop H bufsize evs buffer n timeout).rest.length ≤ evs.length := by
  induction evs with
  | nil => intro buffer n timeout; simp [receiveLoop, receiveExit]
  | cons ev evs ih =>
    intro buffer n timeout
    cases ev with
    | idle elapsed =>
      simp only [receiveLoop]
      split_ifs
      · simp [receiveExit]
      · exact Nat.le_succ_of_le (ih _ _ _)
    | rx c =>
      cases buffer <;> simp only [receiveLoop] <;> split_ifs <;>
        first | exact Nat.le_succ_of_le (ih _ _ _) | simp [receiveExit]

/-- A frame of positive length consumes at least one poll. -/
theorem receive_consumes (H : Header) (buffer : Option (List Nat)) (bufsize timeout : Nat)
    (rx : List Event) (h : (receive H buffer bufsize timeout rx).n > 0) :
    (receive H buffer bufsize timeout rx).rest.length < rx.length := by
  cases rx with
  | nil => simp [receive, receiveLoop, receiveExit] at h
  | cons ev evs =>
    unfold receive at h ⊢
    cases ev with
    | idle elapsed =>
      simp only [receiveLoop]
      split_ifs
      · simp [receiveExit]
      · exact Nat.lt_succ_of_le (receiveLoop_rest_length H bufsize evs _ _ _)
    | rx c =>
      cases buffer <;> simp only [receiveLoop] <;> split_ifs <;>
        first
          | exact Nat.lt_succ_of_le (receiveLoop_rest_length H bufsize evs _ _ _)
          | simp [receiveExit]

/-- More iterations than there are polls, plus one, do not change the outcome
of `getResponse`: its loop ends because a frame is empty or a reply is found,
never because the iteration bound of the embedding is reached. -/
theorem getResponseLoop_fuel (H : Header) (bufsize : Nat) :
    ∀ (fuel pid errors : Nat) (buffer : List Nat) (rx : List Event) (extra : Nat),
      rx.length < fuel →
      getResponseLoop H bufsize (fuel + extra) pid errors buffer rx
        = getResponseLoop H bufsize fuel pid errors buffer rx := by
  intro fuel
  induction fuel with
  | zero => intro pid errors buffer rx extra h; omega
  | succ fuel ih =>
    intro pid errors buffer rx extra hlt
    rw [show fuel + 1 + extra = (fuel + extra) + 1 by omega]
    simp only [getResponseLoop]
    split_ifs with hn
    · have hcons := receive_consumes H (some buffer) bufsize H.OBD_TIMEOUT_SHORT rx hn
      split
      · rfl
      · exact ih _ _ _ _ _ (by omega)
    · rfl

/-- The scan loop of `setQueryPID` stops by its own condition: one iteration
more than `MAX_PIDS - n` changes nothing. -/
theorem setQueryPIDScan_fuel (MAX_PIDS pid : Nat) (obdPid : List Nat) :
    ∀ (fuel n : Nat), MAX_PIDS ≤ n + fuel →
      setQueryPIDScan MAX_PIDS pid obdPid (fuel + 1) n
        = setQueryPIDScan MAX_PIDS pid obdPid fuel n := by
  intro fuel
  induction fuel with
  | zero =>
    intro n h
    simp only [setQueryPIDScan]
    rw [if_neg (by omega)]
  | succ fuel ih =>
    intro n h
    rw [setQueryPIDScan]
    conv_rhs => rw [setQueryPIDScan]
    split_ifs
    · rfl
    · exact ih (n + 1) (by omega)
    · rfl

/-! ### Re-adding a PID to the query set -/

theorem mem_queryArray (M pid : Nat) (es : List Nat) (hp : pid ≠ 0)
    (h : pid ∈ es ++ List.replicate (M - es.length) 0) : pid ∈ es := by
  rcases List.mem_append.mp h with h | h
  · exact h
  · exact absurd (List.eq_of_mem_replicate h) hp

theorem setQueryPID_zero_notfull (M : Nat) (hM : 1 ≤ M) (es : List Nat) (hlt : es.length < M)
    (hnz : ∀ x ∈ es, x ≠ 0) :
    setQueryPID M 0 (es ++ List.replicate (M - es.length) 0)
      = es ++ List.replicate (M - es.length) 0 := by
  have hin : (0 : Nat) ∉ es := fun h => hnz 0 h rfl
  rw [setQueryPID_absent M 0 es (by omega) hnz hin hM]
  have hk : M - es.length = (M - (es ++ [0]).length) + 1 := by simp; omega
  simp only [pushEntry, hlt, if_true]
  rw [hk, List.replicate_succ]
  simp

theorem setQueryPID_idempotent_on (M pid : Nat) (hM : 1 ≤ M) (es : List Nat)
    (hlen : es.length ≤ M) (hnz : ∀ x ∈ es, x ≠ 0) :
    setQueryPID M pid (setQueryPID M pid (es ++ List.replicate (M - es.length) 0))
      = setQueryPID M pid (es ++ List.replicate (M - es.length) 0) := by
  by_cases hin : pid ∈ es
  · rw [setQueryPID_present M pid es hlen hnz hin, setQueryPID_present M pid es hlen hnz hin]
  · have habs := setQueryPID_absent M pid es hlen hnz hin hM
    by_cases hp : pid = 0
    · subst hp
      by_cases hlt : es.length < M
      · rw [setQueryPID_zero_notfull M hM es hlt hnz, setQueryPID_zero_notfull M hM es hlt hnz]
      · have hfull : es.length = M := by omega
        have htail : es.tail.length < M := by
          have := List.length_tail es; omega
        have hform : setQueryPID M 0 (es ++ List.replicate (M - es.length) 0)
            = es.tail ++ List.replicate (M - es.tail.length) 0 := by
          rw [habs]
          simp only [pushEntry, hlt, if_false]
          have hk : M - es.tail.length = (M - (es.tail ++ [0]).length) + 1 := by
            simp; omega
          rw [hk, List.replicate_succ]
          simp
        rw [hform]
        exact setQueryPID_zero_notfull M hM es.tail htail
          (fun x hx => hnz x (List.mem_of_mem_tail hx))
    · rw [habs]
      apply setQueryPID_present M pid _ (pushEntry_length M pid es hlen hM)
      · intro x hx
        unfold pushEntry at hx
        split_ifs at hx
        · rcases List.mem_append.mp hx with h | h
          · exact hnz x h
          · simp at h; omega
        · rcases List.mem_append.mp hx with h | h
          · exact hnz x (List.mem_of_mem_tail h)
          · simp at h; omega
      · unfold pushEntry
        split_ifs <;> simp

/-- C11: re-adding is a no-op.  For every query set reached from the empty set
by `setQueryPID` calls and every non-zero PID present in it, `setQueryPID(pid)`
leaves the whole array unchanged, also when the set is full; and for every PID,
`setQueryPID(pid)` applied twice gives the array that one application gives. -/
theorem setQueryPID_readd_noop (MAX_PIDS : Nat) (hM : 1 ≤ MAX_PIDS) (pids : List Nat)
    (pid : Nat) :
    (pid ≠ 0 → pid ∈ setQueryPIDs MAX_PIDS pids (List.replicate MAX_PIDS 0) →
      setQueryPID MAX_PIDS pid (setQueryPIDs MAX_PIDS pids (List.replicate MAX_PIDS 0))
        = setQueryPIDs MAX_PIDS pids (List.replicate MAX_PIDS 0)) ∧
    setQueryPID MAX_PIDS pid
        (setQueryPID MAX_PIDS pid (setQueryPIDs MAX_PIDS pids (List.replicate MAX_PIDS 0)))
      = setQueryPID MAX_PIDS pid (setQueryPIDs MAX_PIDS pids (List.replicate MAX_PIDS 0)) := by
  obtain ⟨es, h1, h2, _, h4⟩ :=
    setQueryPIDs_inv MAX_PIDS hM pids [] (Nat.zero_le _) (by simp) List.nodup_nil
  simp only [List.length_nil, Nat.sub_zero, List.nil_append] at h4
  rw [h4]
  exact ⟨fun hp hmem => setQueryPID_present MAX_PIDS pid es h1 h2
      (mem_queryArray MAX_PIDS pid es hp hmem),
    setQueryPID_idempotent_on MAX_PIDS pid hM es h1 h2⟩

/-- Witness for C11: a full set of eight cells; PID 5 sits at index 1 and stays
there, and adding the new PID 9 twice is the same as adding it once. -/
theorem setQueryPID_readd_noop_witness :
    setQueryPID 8 5 (setQueryPIDs 8 [12, 5, 4, 17, 16, 15, 14, 11] (List.replicate 8 0))
      = [12, 5, 4, 17, 16, 15, 14, 11] ∧
    setQueryPID 8 9
        (setQueryPID 8 9 (setQueryPIDs 8 [12, 5, 4, 17, 16, 15, 14, 11] (List.replicate 8 0)))
      = [5, 4, 17, 16, 15, 14, 11, 9] :=
  ⟨((setQueryPID_readd_noop 8 (by decide) [12, 5, 4, 17, 16, 15, 14, 11] 5).1 (by decide)
      (by decide)).trans (by decide),
   ((setQueryPID_readd_noop 8 (by decide) [12, 5, 4, 17, 16, 15, 14, 11] 9).2).trans
      (by decide)⟩

/-! ### Bounds of the serial framer -/

theorem receiveExit_bound (buf : List Nat) (n timeout bufsize : Nat) (rest : List Event)
    (h1 : 1 ≤ bufsize) (hn : n ≤ bufsize - 1) (hbuf : bufsize ≤ buf.length) :
    ∃ b' : List Nat, (receiveExit (some buf) n timeout rest).buffer = some b' ∧
      (receiveExit (some buf) n timeout rest).n ≤ bufsize - 1 ∧
      b'.getD (receiveExit (some buf) n timeout rest).n 0 = 0 ∧
      b'.length = buf.length ∧
      ∀ j : Nat, bufsize - 1 ≤ j → j ≠ (receiveExit (some buf) n timeout rest).n →
        b'.getD j 0 = buf.getD j 0 :=
  ⟨buf.set n 0, rfl, hn, getD_set_self buf n 0 (by omega), by simp,
    fun j _ hj => getD_set_other buf j n 0 (fun h => hj h.symm)⟩

theorem receiveLoop_bound (H : Header) (bufsize : Nat) (h1 : 1 ≤ bufsize) (evs : List Event) :
    ∀ (buf : List Nat) (n timeout : Nat), n ≤ bufsize - 1 → bufsize ≤ buf.length →
      ∃ b' : List Nat, (receiveLoop H bufsize evs (some buf) n timeout).buffer = some b' ∧
        (receiveLoop H bufsize evs (some buf) n timeout).n ≤ bufsize - 1 ∧
        b'.getD (receiveLoop H bufsize evs (some buf) n timeout).n 0 = 0 ∧
        b'.length = buf.length ∧
        ∀ j : Nat, bufsize - 1 ≤ j →
          j ≠ (receiveLoop H bufsize evs (some buf) n timeout).n →
          b'.getD j 0 = buf.getD j 0 := by
  induction evs with
  | nil =>
    intro buf n timeout hn hbuf
    exact receiveExit_bound buf n timeout bufsize [] h1 hn hbuf
  | cons ev evs ih =>
    intro buf n timeout hn hbuf
    cases ev with
    | idle elapsed =>
      simp only [receiveLoop]
      split_ifs
      · exact receiveExit_bound buf n timeout bufsize evs h1 hn hbuf
      · exact ih buf n timeout hn hbuf
    | rx c =>
      simp only [receiveLoop]
      split_ifs with hprompt hroom hdots
      · exact receiveExit_bound buf n timeout bufsize evs h1 hn hbuf
      · exact ih buf 0 _ (Nat.zero_le _) hbuf
      · have hmod : (n + 1) % 256 ≤ bufsize - 1 := by
          have := Nat.mod_le (n + 1) 256
          omega
        obtain ⟨b', e1, e2, e3, e4, e5⟩ := ih (buf.set n c) ((n + 1) % 256) timeout hmod
          (by simpa using hbuf)
        refine ⟨b', e1, e2, e3, by simpa using e4, fun j hj1 hj2 => ?_⟩
        rw [e5 j hj1 hj2]
        exact getD_set_other buf j n c (by omega)
      · exact ih buf n timeout hn hbuf

/-- C12: bound of the serial framer.  For every non-null buffer of capacity
`bufsize ≥ 1` (the first `bufsize` cells of the memory `buf`), every timeout
and every sequence of polls, `COBD::receive` returns a length `n ≤ bufsize - 1`,
leaves `buffer[n] = 0`, and changes no cell at an index from `bufsize - 1` on
other than that terminator: bytes are stored only below index `bufsize - 1`. -/
theorem receive_within_buffer (H : Header) (buf : List Nat) (bufsize timeout : Nat)
    (rx : List Event) (h1 : 1 ≤ bufsize) (hbuf : bufsize ≤ buf.length) :
    ∃ b' : List Nat, (receive H (some buf) bufsize timeout rx).buffer = some b' ∧
      (receive H (some buf) bufsize timeout rx).n ≤ bufsize - 1 ∧
      b'.getD (receive H (some buf) bufsize timeout rx).n 0 = 0 ∧
      b'.length = buf.length ∧
      ∀ j : Nat, bufsize - 1 ≤ j → j ≠ (receive H (some buf) bufsize timeout rx).n →
        b'.getD j 0 = buf.getD j 0 :=
  receiveLoop_bound H bufsize h1 rx buf 0 timeout (Nat.zero_le _) hbuf

/-- Witness for C12: capacity 4 inside a memory of six cells that hold 7; the
stream `"ABCDE>"` leaves `"ABC"`, the terminator at index 3 and the two cells
behind the buffer untouched. -/
theorem receive_within_buffer_witness :
    ∃ b' : List Nat,
      (receive ⟨1000, 15000⟩ (some (List.replicate 6 7)) 4 1000
        ([65, 66, 67, 68, 69, 62].map Event.rx)).buffer = some b' ∧
      (receive ⟨1000, 15000⟩ (some (List.replicate 6 7)) 4 1000
        ([65, 66, 67, 68, 69, 62].map Event.rx)).n ≤ 4 - 1 ∧
      b'.getD (receive ⟨1000, 15000⟩ (some (List.replicate 6 7)) 4 1000
        ([65, 66, 67, 68, 69, 62].map Event.rx)).n 0 = 0 ∧
      b'.length = (List.replicate 6 7).length ∧
      ∀ j : Nat, 4 - 1 ≤ j →
        j ≠ (receive ⟨1000, 15000⟩ (some (List.replicate 6 7)) 4 1000
          ([65, 66, 67, 68, 69, 62].map Event.rx)).n →
        b'.getD j 0 = (List.replicate 6 7).getD j 0 :=
  receive_within_buffer ⟨1000, 15000⟩ (List.replicate 6 7) 4 1000
    ([65, 66, 67, 68, 69, 62].map Event.rx) (by decide) (by decide)

/-! ### Storing, ellipsis reset and full buffer in the serial framer -/

theorem getD_append_left (pre l : List Nat) (j : Nat) (h : j < pre.length) :
    (pre ++ l).getD j 0 = pre.getD j 0 := by
  simp [List.getD_eq_getElem?_getD, List.getElem?_append_left h]

theorem getD_append_right (pre l : List Nat) (j : Nat) :
    (pre ++ l).getD (pre.length + j) 0 = l.getD j 0 := by
  simp [List.getD_eq_getElem?_getD, List.getElem?_append_right]

/-- Characters that are neither a prompt nor the third dot of a burst are
stored one after the other. -/
theorem receiveLoop_store (H : Header) (bufsize timeout : Nat) (rest : List Event)
    (h256 : bufsize ≤ 256) (t : List Nat) :
    ∀ (pre sfx : List Nat), pre.length + t.length < bufsize → t.length ≤ sfx.length →
      (∀ c ∈ t, c ≠ 62) →
      (∀ i : Nat, pre.length ≤ i + 2 → i + 2 < pre.length + t.length →
        ¬ ((pre ++ t).getD i 0 = 46 ∧ (pre ++ t).getD (i + 1) 0 = 46 ∧
            (pre ++ t).getD (i + 2) 0 = 46)) →
      receiveLoop H bufsize (t.map Event.rx ++ rest) (some (pre ++ sfx)) pre.length timeout
        = receiveLoop H bufsize rest (some (pre ++ t ++ sfx.drop t.length))
            (pre.length + t.length) timeout := by
  induction t with
  | nil => intro pre sfx _ _ _ _; simp
  | cons c t ih =>
    intro pre sfx hlen hs hc hdots
    cases sfx with
    | nil => simp at hs
    | cons x xs =>
      have hc62 : c ≠ 62 := hc c (List.mem_cons_self c t)
      have hn : pre.length + 1 < bufsize := by simp at hlen; omega
      have hmod : (pre.length + 1) % 256 = (pre ++ [c]).length := by
        simp; omega
      have hnodots : ¬ (c = 46 ∧ pre.length > 2 ∧ (pre ++ x :: xs).getD (pre.length - 1) 0 = 46
          ∧ (pre ++ x :: xs).getD (pre.length - 2) 0 = 46) := by
        rintro ⟨h1, h2, h3, h4⟩
        apply hdots (pre.length - 2) (by omega) (by simp; omega)
        rw [getD_append_left pre _ _ (by omega)] at h3 h4
        refine ⟨?_, ?_, ?_⟩
        · rw [getD_append_left pre _ _ (by omega)]; exact h4
        · rw [show pre.length - 2 + 1 = pre.length - 1 by omega,
            getD_append_left pre _ _ (by omega)]
          exact h3
        · rw [show pre.length - 2 + 2 = pre.length + 0 by omega, getD_append_right]
          simpa using h1
      have hrec := ih (pre ++ [c]) xs (by simp at hlen ⊢; omega) (by simpa using hs)
        (fun d hd => hc d (List.mem_cons_of_mem c hd))
        (by
          intro i hi1 hi2
          have := hdots i (by simp at hi1; omega) (by simp at hi2 ⊢; omega)
          simpa using this)
      simp only [List.map_cons, List.cons_append, receiveLoop, hc62, and_false, if_false,
        hn, if_true, hnodots, set_append_length, hmod, List.append_eq]
      rw [show pre ++ c :: xs = (pre ++ [c]) ++ xs by simp, hrec]
      simp [Nat.add_assoc, Nat.add_comm 1]

/-- With the buffer full nothing more is stored: whatever polls follow, the
length and the cells stay as they are and the terminator goes to index `n`. -/
theorem receiveLoop_full (H : Header) (bufsize : Nat) (evs : List Event) :
    ∀ (buf : List Nat) (n timeout : Nat), ¬ (n + 1 < bufsize) →
      (receiveLoop H bufsize evs (some buf) n timeout).n = n ∧
      (receiveLoop H bufsize evs (some buf) n timeout).buffer = some (buf.set n 0) ∧
      (receiveLoop H bufsize evs (some buf) n timeout).timeout = timeout := by
  induction evs with
  | nil => intro buf n timeout _; exact ⟨rfl, rfl, rfl⟩
  | cons ev evs ih =>
    intro buf n timeout hfull
    cases ev with
    | idle elapsed =>
      simp only [receiveLoop]
      split_ifs
      · exact ⟨rfl, rfl, rfl⟩
      · exact ih buf n timeout hfull
    | rx c =>
      simp only [receiveLoop, hfull, if_false]
      split_ifs
      · exact ⟨rfl, rfl, rfl⟩
      · exact ih buf n timeout hfull

/-- With the buffer full, bytes other than the prompt are read and dropped
until the prompt arrives. -/
theorem receiveLoop_full_drain (H : Header) (bufsize : Nat) (buf : List Nat)
    (n timeout : Nat) (rest : List Event) (hfull : ¬ (n + 1 < bufsize)) (hn : n > 2)
    (ds : List Nat) (hds : ∀ c ∈ ds, c ≠ 62) :
    receiveLoop H bufsize (ds.map Event.rx ++ Event.rx 62 :: rest) (some buf) n timeout
      = ⟨n, some (buf.set n 0), timeout, rest⟩ := by
  induction ds with
  | nil => simp [receiveLoop, receiveExit, hn]
  | cons d ds ih =>
    have hd : d ≠ 62 := hds d (List.mem_cons_self d ds)
    simp only [List.map_cons, List.cons_append, receiveLoop, hd, and_false, if_false, hfull,
      List.append_eq]
    exact ih (fun c hc => hds c (List.mem_cons_of_mem d hc))

theorem take_set_append (Y l : List Nat) : ((Y ++ l).set Y.length 0).take Y.length = Y := by
  cases l with
  | nil => rw [List.set_eq_of_length_le (by simp)]; simp
  | cons x xs => rw [set_append_length]; simp

theorem noEllipsis_store (t : List Nat) (h : noEllipsis t) :
    ∀ i : Nat, ([] : List Nat).length ≤ i + 2 → i + 2 < ([] : List Nat).length + t.length →
      ¬ (([] ++ t).getD i 0 = 46 ∧ ([] ++ t).getD (i + 1) 0 = 46 ∧
          ([] ++ t).getD (i + 2) 0 = 46) := by
  intro i _ hi
  simp only [List.length_nil, Nat.zero_add] at hi
  simpa using h i (by omega)

theorem receive_ellipsis_state (H : Header) (buf X : List Nat) (bufsize timeout : Nat)
    (evs : List Event) (h256 : bufsize ≤ 256) (hbuf : bufsize ≤ buf.length)
    (hX1 : 1 ≤ X.length) (hroom : X.length + 3 < bufsize) (hX62 : ∀ c ∈ X, c ≠ 62)
    (hXd : noEllipsis (X ++ [46, 46])) :
    receive H (some buf) bufsize timeout
        (X.map Event.rx ++ Event.rx 46 :: Event.rx 46 :: Event.rx 46 :: evs)
      = receiveLoop H bufsize evs (some (X ++ 46 :: 46 :: buf.drop (X.length + 2))) 0
          H.OBD_TIMEOUT_LONG := by
  have hscript : X.map Event.rx ++ Event.rx 46 :: Event.rx 46 :: Event.rx 46 :: evs
      = (X ++ [46, 46]).map Event.rx ++ (Event.rx 46 :: evs) := by simp
  have hstore := receiveLoop_store H bufsize timeout (Event.rx 46 :: evs) h256 (X ++ [46, 46])
    [] buf (by simp; omega) (by simp; omega)
    (by
      intro c hc
      rcases List.mem_append.mp hc with h | h
      · exact hX62 c h
      · simp at h; omega)
    (noEllipsis_store _ hXd)
  simp only [List.nil_append, List.length_nil, Nat.zero_add] at hstore
  have hlen : (X ++ [46, 46]).length = X.length + 2 := by simp
  have hn1 : (X ++ [46, 46] ++ buf.drop (X.length + 2)).getD (X.length + 2 - 1) 0 = 46 := by
    rw [getD_append_left _ _ _ (by simp), show X.length + 2 - 1 = X.length + 1 by omega,
      getD_append_right]
    rfl
  have hn2 : (X ++ [46, 46] ++ buf.drop (X.length + 2)).getD (X.length + 2 - 2) 0 = 46 := by
    rw [getD_append_left _ _ _ (by simp), show X.length + 2 - 2 = X.length + 0 by omega,
      getD_append_right]
    rfl
  unfold receive
  rw [hscript, hstore, hlen, receiveLoop]
  have hgt : X.length + 2 > 2 := by omega
  have hroom' : X.length + 2 + 1 < bufsize := by omega
  simp only [show ¬ ((46 : Nat) = 62) by decide, and_false, if_false, hroom', if_true, hgt,
    hn1, hn2, and_self]
  simp

/-- C13 (amended): ellipsis reset in the serial framer.  For every frame prefix
`X` of at least one byte, free of prompts, that with two dots appended holds no
ellipsis burst (so `X` holds none and does not end in a dot), received into a
buffer with room for three more bytes: on the third of three `'.'` bytes that
follow `X` the framer sets the length back to 0 and replaces the timeout in
force by `OBD_TIMEOUT_LONG`; so for the input `X "..." Y ">"` with `Y` of at
least 3 bytes, free of prompts and ellipsis bursts, the returned frame is `Y`. -/
theorem receive_ellipsis_reset (H : Header) (buf X Y : List Nat) (bufsize timeout : Nat)
    (rest : List Event) (h256 : bufsize ≤ 256) (hbuf : bufsize ≤ buf.length)
    (hX1 : 1 ≤ X.length) (hroom : X.length + 3 < bufsize) (hX62 : ∀ c ∈ X, c ≠ 62)
    (hXd : noEllipsis (X ++ [46, 46])) :
    (∀ evs : List Event,
      receive H (some buf) bufsize timeout
          (X.map Event.rx ++ Event.rx 46 :: Event.rx 46 :: Event.rx 46 :: evs)
        = receiveLoop H bufsize evs (some (X ++ 46 :: 46 :: buf.drop (X.length + 2))) 0
            H.OBD_TIMEOUT_LONG) ∧
    (3 ≤ Y.length → Y.length < bufsize → (∀ c ∈ Y, c ≠ 62) → noEllipsis Y →
      ∃ b' : List Nat,
        receive H (some buf) bufsize timeout
            (X.map Event.rx ++ Event.rx 46 :: Event.rx 46 :: Event.rx 46 ::
              (Y.map Event.rx ++ Event.rx 62 :: rest))
          = ⟨Y.length, some b', H.OBD_TIMEOUT_LONG, rest⟩ ∧
        b'.take Y.length = Y ∧ b'.getD Y.length 0 = 0) := by
  refine ⟨fun evs => receive_ellipsis_state H buf X bufsize timeout evs h256 hbuf hX1 hroom
    hX62 hXd, fun hY3 hYlen hY62 hYd => ?_⟩
  have hblen : (X ++ 46 :: 46 :: buf.drop (X.length + 2)).length = buf.length := by
    simp; omega
  have hstore := receiveLoop_store H bufsize H.OBD_TIMEOUT_LONG (Event.rx 62 :: rest) h256 Y
    [] (X ++ 46 :: 46 :: buf.drop (X.length + 2)) (by simpa using hYlen)
    (by rw [hblen]; omega) hY62 (noEllipsis_store Y hYd)
  simp only [List.nil_append, List.length_nil, Nat.zero_add] at hstore
  have hgt : Y.length > 2 := by omega
  refine ⟨(Y ++ (X ++ 46 :: 46 :: buf.drop (X.length + 2)).drop Y.length).set Y.length 0,
    ?_, ?_, ?_⟩
  · rw [receive_ellipsis_state H buf X bufsize timeout _ h256 hbuf hX1 hroom hX62 hXd, hstore]
    simp [receiveLoop, receiveExit, hgt]
  · exact take_set_append Y _
  · apply getD_set_self
    simp only [List.length_append, List.length_drop, hblen]
    omega

/-- Witness for C13 (amended): `"OK..."` resets, and `"OK...41 05 64\r>"`
returns the frame `"41 05 64\r"`. -/
theorem receive_ellipsis_reset_witness :
    receive ⟨1000, 15000⟩ (some (List.replicate 16 0)) 16 1000
        ([79, 75].map Event.rx ++ Event.rx 46 :: Event.rx 46 :: Event.rx 46 :: [])
      = receiveLoop ⟨1000, 15000⟩ 16 []
          (some ([79, 75] ++ 46 :: 46 :: (List.replicate 16 0).drop ([79, 75].length + 2))) 0
          15000 ∧
    (receive ⟨1000, 15000⟩ (some (List.replicate 16 0)) 16 1000
        ([79, 75].map Event.rx ++ Event.rx 46 :: Event.rx 46 :: Event.rx 46 ::
          ([52, 49, 32, 48, 53, 32, 54, 52, 13].map Event.rx ++ Event.rx 62 :: []))).n = 9 :=
  ⟨(receive_ellipsis_reset ⟨1000, 15000⟩ (List.replicate 16 0) [79, 75]
      [52, 49, 32, 48, 53, 32, 54, 52, 13] 16 1000 [] (by decide) (by decide) (by decide)
      (by decide) (by decide) (by decide)).1 [],
   by
    obtain ⟨b', h, _, _⟩ := (receive_ellipsis_reset ⟨1000, 15000⟩ (List.replicate 16 0) [79, 75]
      [52, 49, 32, 48, 53, 32, 54, 52, 13] 16 1000 [] (by decide) (by decide) (by decide)
      (by decide) (by decide) (by decide)).2 (by decide) (by decide) (by decide) (by decide)
    rw [h]; rfl⟩

/-- C13 as stated fails for the empty prefix: of the input `"...ABC>"` the three
dots are stored, the timeout stays 1000 and the returned frame is `"...ABC"`,
of length 6, not `"ABC"`. -/
theorem receive_ellipsis_counterexample :
    receive ⟨1000, 15000⟩ (some (List.replicate 16 0)) 16 1000
        (([] : List Nat).map Event.rx ++ Event.rx 46 :: Event.rx 46 :: Event.rx 46 ::
          ([65, 66, 67].map Event.rx ++ Event.rx 62 :: []))
      = ⟨6, some ([46, 46, 46, 65, 66, 67] ++ List.replicate 10 0), 1000, []⟩ := by
  decide

/-- C19 (amended): a full buffer does not end the frame.  For every non-null
buffer of capacity `bufsize ≥ 1`, once the `bufsize - 1` bytes of `t` are
stored, `COBD::receive` stores nothing more whatever follows and returns
`bufsize - 1` with the buffer NUL-terminated at that index; the bytes that
follow the one that filled the buffer are read and dropped until the prompt
(or the timeout) ends the frame. -/
theorem receive_full_buffer (H : Header) (buf t : List Nat) (bufsize timeout : Nat)
    (h256 : bufsize ≤ 256) (hbuf : bufsize ≤ buf.length) (ht : t.length + 1 = bufsize)
    (ht62 : ∀ c ∈ t, c ≠ 62) (htd : noEllipsis t) :
    (∀ evs : List Event,
      (receive H (some buf) bufsize timeout (t.map Event.rx ++ evs)).n = bufsize - 1 ∧
      (receive H (some buf) bufsize timeout (t.map Event.rx ++ evs)).buffer
        = some ((t ++ buf.drop t.length).set t.length 0) ∧
      ((t ++ buf.drop t.length).set t.length 0).take t.length = t ∧
      ((t ++ buf.drop t.length).set t.length 0).getD (bufsize - 1) 0 = 0) ∧
    (∀ (ds : List Nat) (rest : List Event), 3 ≤ t.length → (∀ c ∈ ds, c ≠ 62) →
      (receive H (some buf) bufsize timeout
        (t.map Event.rx ++ (ds.map Event.rx ++ Event.rx 62 :: rest))).rest = rest) := by
  have hstore := fun evs => receiveLoop_store H bufsize timeout evs h256 t [] buf
    (by simp; omega) (by omega) ht62 (noEllipsis_store t htd)
  simp only [List.nil_append, List.length_nil, Nat.zero_add] at hstore
  have hfull : ¬ (t.length + 1 < bufsize) := by omega
  refine ⟨fun evs => ?_, fun ds rest h3 hds => ?_⟩
  · obtain ⟨f1, f2, _⟩ := receiveLoop_full H bufsize evs (t ++ buf.drop t.length) t.length
      timeout hfull
    unfold receive
    rw [hstore evs]
    refine ⟨by rw [f1]; omega, f2, take_set_append t _, ?_⟩
    rw [show bufsize - 1 = t.length by omega]
    apply getD_set_self
    simp only [List.length_append, List.length_drop]
    omega
  · unfold receive
    rw [hstore, receiveLoop_full_drain H bufsize _ t.length timeout rest hfull (by omega) ds hds]

/-- Witness for C19 (amended): capacity 4 and the stream `"ABCDE>XY"`; `"ABC"`
is stored, `"DE"` and the prompt are consumed, `"XY"` is left. -/
theorem receive_full_buffer_witness :
    (receive ⟨1000, 15000⟩ (some (List.replicate 4 0)) 4 1000
        ([65, 66, 67].map Event.rx ++ [])).n = 4 - 1 ∧
    (receive ⟨1000, 15000⟩ (some (List.replicate 4 0)) 4 1000
        ([65, 66, 67].map Event.rx ++
          ([68, 69].map Event.rx ++ Event.rx 62 :: [Event.rx 88, Event.rx 89]))).rest
      = [Event.rx 88, Event.rx 89] :=
  ⟨((receive_full_buffer ⟨1000, 15000⟩ (List.replicate 4 0) [65, 66, 67] 4 1000 (by decide)
      (by decide) (by decide) (by decide) (by decide)).1 []).1,
   (receive_full_buffer ⟨1000, 15000⟩ (List.replicate 4 0) [65, 66, 67] 4 1000 (by decide)
      (by decide) (by decide) (by decide) (by decide)).2 [68, 69] [Event.rx 88, Event.rx 89]
      (by decide) (by decide)⟩

/-- C19 as stated fails: with capacity 4 and the stream `"ABCDE>XY"` the buffer
is full after `"ABC"`, yet `receive` goes on reading: `'D'`, `'E'` and the
prompt are consumed and only `"XY"` remains for the next call. -/
theorem receive_full_buffer_counterexample :
    receive ⟨1000, 15000⟩ (some (List.replicate 4 0)) 4 1000
        ([65, 66, 67, 68, 69, 62, 88, 89].map Event.rx)
      = ⟨3, some [65, 66, 67, 0], 1000, [Event.rx 88, Event.rx 89]⟩ := by
  decide

/-! ### Failure path of `getResult` -/

theorem scanFrame_errors (buffer : List Nat) :
    ∀ (fuel p pid errors : Nat),
      (scanFrame buffer fuel p pid errors).errors = errors ∨
      (scanFrame buffer fuel p pid errors).errors = 0 := by
  intro fuel
  induction fuel with
  | zero => intro p pid errors; exact Or.inl rfl
  | succ fuel ih =>
    intro p pid errors
    simp only [scanFrame]
    split
    · exact Or.inl rfl
    · split_ifs
      · exact Or.inr rfl
      · rcases ih _ _ 0 with h | h <;> exact Or.inr h
      · exact ih _ _ errors
      · exact Or.inr rfl
      · rcases ih _ _ 0 with h | h <;> exact Or.inr h
      · exact ih _ _ errors

theorem getResponseLoop_errors (H : Header) (bufsize : Nat) :
    ∀ (fuel pid errors : Nat) (buffer : List Nat) (rx : List Event),
      (getResponseLoop H bufsize fuel pid errors buffer rx).errors = errors ∨
      (getResponseLoop H bufsize fuel pid errors buffer rx).errors = 0 := by
  intro fuel
  induction fuel with
  | zero => intro pid errors buffer rx; exact Or.inl rfl
  | succ fuel ih =>
    intro pid errors buffer rx
    simp only [getResponseLoop]
    split_ifs
    · split
      · exact scanFrame_errors _ _ _ _ _
      · rcases scanFrame_errors
            ((receive H (some buffer) bufsize H.OBD_TIMEOUT_SHORT rx).buffer.getD buffer)
            (((receive H (some buffer) bufsize H.OBD_TIMEOUT_SHORT rx).buffer.getD
              buffer).length + 1) 0 pid errors with h | h
        · rw [h]; exact ih _ _ _ _
        · rw [h]
          rcases ih (scanFrame
            ((receive H (some buffer) bufsize H.OBD_TIMEOUT_SHORT rx).buffer.getD buffer)
            (((receive H (some buffer) bufsize H.OBD_TIMEOUT_SHORT rx).buffer.getD
              buffer).length + 1) 0 pid errors).pid 0
            ((receive H (some buffer) bufsize H.OBD_TIMEOUT_SHORT rx).buffer.getD buffer)
            (receive H (some buffer) bufsize H.OBD_TIMEOUT_SHORT rx).rest with h2 | h2
          · exact Or.inr h2
          · exact Or.inr h2
    · exact Or.inl rfl

theorem getD_set_zero (l : List Nat) (n : Nat) : (l.set n 0).getD n 0 = 0 := by
  by_cases h : n < l.length
  · exact getD_set_self l n 0 h
  · rw [List.set_eq_of_length_le (by omega), List.getD_eq_getElem?_getD,
      List.getElem?_eq_none (by omega)]
    rfl

theorem receiveLoop_rest_mem (H : Header) (bufsize : Nat) (evs : List Event) :
    ∀ (buffer : Option (List Nat)) (n timeout : Nat) (e : Event),
      e ∈ (receiveLoop H bufsize evs buffer n timeout).rest → e ∈ evs := by
  induction evs with
  | nil => intro buffer n timeout e h; simp [receiveLoop, receiveExit] at h
  | cons ev evs ih =>
    intro buffer n timeout e h
    cases ev with
    | idle elapsed =>
      simp only [receiveLoop] at h
      split_ifs at h
      · exact List.mem_cons_of_mem _ (by simpa [receiveExit] using h)
      · exact List.mem_cons_of_mem _ (ih _ _ _ e h)
    | rx c =>
      cases buffer <;> simp only [receiveLoop] at h <;> split_ifs at h <;>
        first
          | exact List.mem_cons_of_mem _ (ih _ _ _ e h)
          | exact List.mem_cons_of_mem _ (by simpa [receiveExit] using h)

/-- A frame received from polls that carry no `'4'` holds no `'4'` before its
terminator. -/
theorem receiveLoop_no_four (H : Header) (bufsize : Nat) (evs : List Event) :
    ∀ (buf : List Nat) (n timeout : Nat), (∀ j : Nat, j < n → buf.getD j 0 ≠ 52) →
      (∀ c : Nat, Event.rx c ∈ evs → c ≠ 52) →
      ∃ b' : List Nat, (receiveLoop H bufsize evs (some buf) n timeout).buffer = some b' ∧
        (∀ j : Nat, j < (receiveLoop H bufsize evs (some buf) n timeout).n →
          b'.getD j 0 ≠ 52) ∧
        b'.getD (receiveLoop H bufsize evs (some buf) n timeout).n 0 = 0 := by
  have hexit : ∀ (buf : List Nat) (n timeout : Nat) (rest : List Event),
      (∀ j : Nat, j < n → buf.getD j 0 ≠ 52) →
      ∃ b' : List Nat, (receiveExit (some buf) n timeout rest).buffer = some b' ∧
        (∀ j : Nat, j < (receiveExit (some buf) n timeout rest).n → b'.getD j 0 ≠ 52) ∧
        b'.getD (receiveExit (some buf) n timeout rest).n 0 = 0 := by
    intro buf n timeout rest hpre
    refine ⟨buf.set n 0, rfl, fun j hj => ?_, getD_set_zero buf n⟩
    have hj' : j < n := hj
    rw [getD_set_other buf j n 0 (by omega)]
    exact hpre j hj'
  induction evs with
  | nil => intro buf n timeout hpre _; exact hexit buf n timeout [] hpre
  | cons ev evs ih =>
    intro buf n timeout hpre hrx
    have hrx' : ∀ c : Nat, Event.rx c ∈ evs → c ≠ 52 :=
      fun c hc => hrx c (List.mem_cons_of_mem _ hc)
    cases ev with
    | idle elapsed =>
      simp only [receiveLoop]
      split_ifs
      · exact hexit buf n timeout evs hpre
      · exact ih buf n timeout hpre hrx'
    | rx c =>
      have hc : c ≠ 52 := hrx c (List.mem_cons_self _ _)
      simp only [receiveLoop]
      split_ifs
      · exact hexit buf n timeout evs hpre
      · exact ih buf 0 _ (fun j hj => absurd hj (Nat.not_lt_zero j)) hrx'
      · apply ih (buf.set n c) ((n + 1) % 256) timeout _ hrx'
        intro j hj
        have hle : (n + 1) % 256 ≤ n + 1 := Nat.mod_le _ _
        by_cases hjn : j = n
        · subst hjn
          by_cases hlen : j < buf.length
          · rw [getD_set_self buf j c hlen]; exact hc
          · rw [List.set_eq_of_length_le (by omega), List.getD_eq_getElem?_getD,
              List.getElem?_eq_none (by omega)]
            decide
        · rw [getD_set_other buf j n c (fun h => hjn h.symm)]
          exact hpre j (by omega)
      · exact ih buf n timeout hpre hrx'

theorem strstr_marker_none :
    ∀ (l : List Nat) (n p : Nat), (∀ j : Nat, j < n → l.getD j 0 ≠ 52) → l.getD n 0 = 0 →
      strstr [52, 49, 32] l p = none := by
  intro l
  induction l with
  | nil => intro n p _ _; simp [strstr, List.isPrefixOf]
  | cons c cs ih =>
    intro n p hpre hz
    cases n with
    | zero =>
      have hc : c = 0 := by simpa using hz
      subst hc
      simp [strstr, List.isPrefixOf]
    | succ m =>
      have hc : c ≠ 52 := by simpa using hpre 0 (Nat.succ_pos m)
      have hc' : ¬ (52 = c) := fun h => hc h.symm
      have hrec := ih m (p + 1) (fun j hj => by simpa using hpre (j + 1) (by omega))
        (by simpa using hz)
      simp only [strstr, List.isPrefixOf, beq_iff_eq, hc', Bool.false_and]
      simp [hrec, hc']

theorem getResponseLoop_no_four (H : Header) (bufsize : Nat) :
    ∀ (fuel pid errors : Nat) (buffer : List Nat) (rx : List Event),
      (∀ c : Nat, Event.rx c ∈ rx → c ≠ 52) →
      (getResponseLoop H bufsize fuel pid errors buffer rx).data = none ∧
      (getResponseLoop H bufsize fuel pid errors buffer rx).errors = errors := by
  intro fuel
  induction fuel with
  | zero => intro pid errors buffer rx _; exact ⟨rfl, rfl⟩
  | succ fuel ih =>
    intro pid errors buffer rx hrx
    obtain ⟨b', hb, h4, hz⟩ := receiveLoop_no_four H bufsize rx buffer 0 H.OBD_TIMEOUT_SHORT
      (fun j hj => absurd hj (Nat.not_lt_zero j)) hrx
    have hscan : scanFrame b' (b'.length + 1) 0 pid errors = ⟨none, pid, errors⟩ := by
      simp only [scanFrame, List.drop_zero]
      rw [strstr_marker_none b' _ 0 h4 hz]
    have hrest : ∀ c : Nat,
        Event.rx c ∈ (receive H (some buffer) bufsize H.OBD_TIMEOUT_SHORT rx).rest → c ≠ 52 :=
      fun c hc => hrx c (receiveLoop_rest_mem H bufsize rx _ _ _ _ hc)
    simp only [getResponseLoop]
    split_ifs
    · unfold receive at hrest ⊢
      simp only [hb, Option.getD_some, hscan]
      exact ih pid errors b' _ hrest
    · exact ⟨rfl, rfl⟩

/-! ### Monitor status -/

theorem hexDigitValue_lt (c : Nat) : hexDigitValue c < 16 := by
  unfold hexDigitValue
  split_ifs <;> omega

theorem foldl_hex_lt (l : List Nat) :
    ∀ (acc m : Nat), acc < 16 ^ m →
      l.foldl (fun a c => 16 * a + hexDigitValue c) acc < 16 ^ (m + l.length) := by
  induction l with
  | nil => intro acc m h; simpa using h
  | cons c cs ih =>
    intro acc m h
    have hc := hexDigitValue_lt c
    have hstep : 16 * acc + hexDigitValue c < 16 ^ (m + 1) := by
      rw [Nat.pow_succ]; omega
    have := ih (16 * acc + hexDigitValue c) (m + 1) hstep
    rw [List.foldl_cons, List.length_cons, show m + (cs.length + 1) = m + 1 + cs.length by omega]
    exact this

theorem hex2uint16_lt (s : List Nat) : hex2uint16 s < 65536 := by
  rw [hex2uint16_eq_ref]
  unfold hex2uint16Ref
  have h := foldl_hex_lt (hexDigitsTaken s) 0 0 (by decide)
  have hlen : (hexDigitsTaken s).length ≤ 4 := by
    unfold hexDigitsTaken
    simp [List.length_take]
  have hpow : 16 ^ (0 + (hexDigitsTaken s).length) ≤ 16 ^ 4 :=
    Nat.pow_le_pow_right (by decide) (by omega)
  have h4 : (16 : Nat) ^ 4 = 65536 := by decide
  omega

theorem normalizeData_monitor (d : List Nat) :
    normalizeData PID_MONITOR d = (((getLargeValue d >>> 2 : Nat)) : Int) := by
  have hlt := hex2uint16_lt d
  have hsmall : getLargeValue d >>> 2 < 32768 := by
    unfold getLargeValue
    rw [Nat.shiftRight_eq_div_pow]
    omega
  simp only [normalizeData, if_true]
  exact toInt16_of_small _ (by omega) (by exact_mod_cast hsmall)

theorem normalizeData_rpm_large (d : List Nat) :
    normalizeData PID_RPM d = (((getLargeValue d >>> 2 : Nat)) : Int) := by
  have hlt := hex2uint16_lt d
  have hsmall : getLargeValue d >>> 2 < 32768 := by
    unfold getLargeValue
    rw [Nat.shiftRight_eq_div_pow]
    omega
  simp only [normalizeData, show ¬ (PID_RPM = PID_MONITOR) by decide, if_false, true_or, if_true]
  exact toInt16_of_small _ (by omega) (by exact_mod_cast hsmall)

/-- C18: monitor-status fall-through.  For every payload text `d`,
`normalizeData(PID_MONITOR, d)` equals `normalizeData(PID_RPM, d)`, namely
`getLargeValue(d) >> 2`; the value `getSmallValue(d) >> 8` of the monitor
case's own statement, which is 0 for every payload, does not reach the result
(the payload `"1A F8"` gives 1726). -/
theorem normalizeData_monitor_fallthrough :
    (∀ d : List Nat, normalizeData PID_MONITOR d = normalizeData PID_RPM d) ∧
    (∀ d : List Nat, normalizeData PID_MONITOR d = (((getLargeValue d >>> 2 : Nat)) : Int)) ∧
    (∀ d : List Nat, getSmallValue d >>> 8 = 0) ∧
    normalizeData PID_MONITOR [49, 65, 32, 70, 56, 13] = 1726 := by
  refine ⟨fun d => ?_, normalizeData_monitor, fun d => ?_, by decide⟩
  · rw [normalizeData_monitor, normalizeData_rpm_large]
  · have hlt : getSmallValue d < 256 := by
      unfold getSmallValue
      cases h1 : isHexDigit (d.getD 0 0) <;> cases h2 : isHexDigit (d.getD 1 0)
      · rw [hex2uint8_of_not_hex _ _ (Or.inl h1)]; decide
      · rw [hex2uint8_of_not_hex _ _ (Or.inl h1)]; decide
      · rw [hex2uint8_of_not_hex _ _ (Or.inr h2)]; decide
      · rw [hex2uint8_of_hex _ _ h1 h2]
        have := hexDigitValue_lt (d.getD 0 0)
        have := hexDigitValue_lt (d.getD 1 0)
        omega
    rw [Nat.shiftRight_eq_div_pow]
    exact Nat.div_eq_of_lt (by omega)

theorem hex2uint16_four_digits (a1 a2 b1 b2 : Nat) (tail : List Nat)
    (ha1 : isHexDigit a1 = true) (ha2 : isHexDigit a2 = true)
    (hb1 : isHexDigit b1 = true) (hb2 : isHexDigit b2 = true) :
    hex2uint16 (a1 :: a2 :: 32 :: b1 :: b2 :: tail)
      = 256 * hex2uint8 a1 a2 + hex2uint8 b1 b2 := by
  have e1 : (a1 != 0) = true := by simpa using (isHexDigit_ne a1 ha1).1
  have e2 : (a2 != 0) = true := by simpa using (isHexDigit_ne a2 ha2).1
  have e3 : (b1 != 0) = true := by simpa using (isHexDigit_ne b1 hb1).1
  have e4 : (b2 != 0) = true := by simpa using (isHexDigit_ne b2 hb2).1
  have hs : isHexDigit 32 = false := by decide
  rw [hex2uint16_eq_ref, hex2uint8_of_hex a1 a2 ha1 ha2, hex2uint8_of_hex b1 b2 hb1 hb2]
  simp [hex2uint16Ref, hexDigitsTaken, hexDigitsScanned, cstr, List.takeWhile, List.filter,
    e1, e2, e3, e4, ha1, ha2, hb1, hb2, hs]
  omega

/-- What `isMILOn` answers on a well-formed monitor reply `"41 01 AA BB CC DD\r>"`:
true exactly when `(256 * A + B) >> 2` exceeds 126, that is when `256 * A + B`
is at least 508. -/
theorem isMILOn_reply (H : Header) (A B C D : Nat) (hA : A < 256) (hB : B < 256)
    (hC : C < 256) (hD : D < 256) (value : Int) (buffer : List Nat)
    (hbuf : buffer.length = 64) (obd : COBD) (rest : List Event) (tx : List (List Nat)) :
    (isMILOn H value buffer obd ⟨promptFrame (replyText 0x01 [A, B, C, D]) ++ rest, tx⟩).1
      = decide (508 ≤ 256 * A + B) := by
  obtain ⟨a1, a2, hfA, ha1, ha2, hvA⟩ := fmt02X_digits A hA
  obtain ⟨b1, b2, hfB, hb1, hb2, hvB⟩ := fmt02X_digits B hB
  obtain ⟨c1, c2, hfC, hc1, hc2, hvC⟩ := fmt02X_digits C hC
  obtain ⟨d1, d2, hfD, hd1, hd2, hvD⟩ := fmt02X_digits D hD
  have ht : promptFrame (replyText 0x01 [A, B, C, D]) ++ rest
      = (52 :: 49 :: 32 :: 48 :: 49 :: 32 ::
          [a1, a2, 32, b1, b2, 32, c1, c2, 32, d1, d2, 13]).map Event.rx
          ++ Event.rx 62 :: rest := by
    have h1 : fmt02X 0x01 = [48, 49] := by decide
    simp [promptFrame, replyText, hfA, hfB, hfC, hfD, h1]
  have hres := getResult_first_reply H 0x01 48 49 value buffer
    [a1, a2, 32, b1, b2, 32, c1, c2, 32, d1, d2, 13] obd
    rest (tx ++ [queryText obd.dataMode 0x01]) hbuf (by simp) (Or.inr (by decide))
    (frame_chars_ok _ (by
      simp only [List.all_cons, List.all_nil, ha1, ha2, hb1, hb2, hc1, hc2, hd1, hd2,
        Bool.true_or, Bool.and_true, Bool.true_and]
      decide))
  have hpid : hex2uint8 48 49 = PID_MONITOR := by decide
  have h16 := hex2uint16_four_digits a1 a2 b1 b2
    (32 :: c1 :: c2 :: 32 :: d1 :: d2 :: 13 :: 0 ::
      buffer.drop ([a1, a2, 32, b1, b2, 32, c1, c2, 32, d1, d2, 13].length + 7))
    ha1 ha2 hb1 hb2
  rw [hvA, hvB] at h16
  rw [hpid, normalizeData_monitor] at hres
  simp only [List.cons_append, List.nil_append, getLargeValue, h16] at hres
  unfold isMILOn readPID sendQuery write
  rw [ht]
  simp only [show PID_MONITOR = 0x01 by rfl] at hres ⊢
  rw [hres]
  simp only [Nat.shiftRight_eq_div_pow]
  by_cases h : 508 ≤ 256 * A + B <;> simp [h] <;> omega

/-- C15, the code at a failing input: the monitor reply `"41 01 02 00 00 00\r>"`
has first data byte 0x02, whose bit 7 is clear (MIL off), yet `isMILOn` returns
true; with first data byte 0x01 and second 0x00 it returns false. -/
theorem isMILOn_reports_on_with_mil_off :
    (isMILOn ⟨1000, 15000⟩ 0 (List.replicate 64 0)
        ⟨1, 0, List.replicate 32 0, OBD_STATES.OBD_CONNECTED⟩
        ⟨promptFrame (replyText 0x01 [0x02, 0, 0, 0]), []⟩).1 = true ∧
    Nat.testBit 0x02 7 = false ∧
    (isMILOn ⟨1000, 15000⟩ 0 (List.replicate 64 0)
        ⟨1, 0, List.replicate 32 0, OBD_STATES.OBD_CONNECTED⟩
        ⟨promptFrame (replyText 0x01 [0x01, 0, 0, 0]), []⟩).1 = false := by
  refine ⟨by decide, by decide, by decide⟩

/-! ### Soundness of the response scanner -/

theorem strstr_marker_sound :
    ∀ (l : List Nat) (p q : Nat), strstr [52, 49, 32] l p = some q →
      p ≤ q ∧ l.getD (q - p) 0 = 52 ∧ l.getD (q - p + 1) 0 = 49 ∧
        l.getD (q - p + 2) 0 = 32 := by
  intro l
  induction l with
  | nil => intro p q h; simp [strstr, List.isPrefixOf] at h
  | cons c cs ih =>
    intro p q h
    simp only [strstr] at h
    split_ifs at h with hpre hz
    · simp only [Option.some.injEq] at h
      subst h
      cases cs with
      | nil => simp [List.isPrefixOf] at hpre
      | cons c2 cs2 =>
        cases cs2 with
        | nil => simp [List.isPrefixOf] at hpre
        | cons c3 cs3 =>
          simp only [List.isPrefixOf, Bool.and_eq_true, beq_iff_eq, Bool.and_true] at hpre
          obtain ⟨h1, h2, h3⟩ := hpre
          simp [h1.symm, h2.symm, h3.symm]
    · obtain ⟨g0, g1, g2, g3⟩ := ih (p + 1) q h
      have e : q - p = (q - (p + 1)) + 1 := by omega
      rw [e]
      exact ⟨by omega, by simpa using g1, by simpa using g2, by simpa using g3⟩

theorem getD_drop (l : List Nat) (p k : Nat) : (l.drop p).getD k 0 = l.getD (p + k) 0 := by
  simp [List.getD_eq_getElem?_getD, List.getElem?_drop]

theorem scan_hit (buffer : List Nat) (q pid : Nat) (g1 : buffer.getD q 0 = 52)
    (g2 : buffer.getD (q + 1) 0 = 49) (g3 : buffer.getD (q + 2) 0 = 32)
    (hm : hex2uint8 (buffer.getD (q + 3) 0) (buffer.getD (q + 3 + 1) 0) = pid)
    (hsp : buffer.getD (q + 3 + 2) 0 = 32) :
    6 ≤ q + 3 + 2 + 1 ∧ buffer.getD (q + 3 + 2 + 1 - 6) 0 = 52 ∧
      buffer.getD (q + 3 + 2 + 1 - 5) 0 = 49 ∧ buffer.getD (q + 3 + 2 + 1 - 4) 0 = 32 ∧
      hex2uint8 (buffer.getD (q + 3 + 2 + 1 - 3) 0) (buffer.getD (q + 3 + 2 + 1 - 2) 0) = pid ∧
      buffer.getD (q + 3 + 2 + 1 - 1) 0 = 32 := by
  rw [show q + 3 + 2 + 1 - 6 = q by omega, show q + 3 + 2 + 1 - 5 = q + 1 by omega,
    show q + 3 + 2 + 1 - 4 = q + 2 by omega, show q + 3 + 2 + 1 - 3 = q + 3 by omega,
    show q + 3 + 2 + 1 - 2 = q + 3 + 1 by omega, show q + 3 + 2 + 1 - 1 = q + 3 + 2 by omega]
  exact ⟨by omega, g1, g2, g3, hm, hsp⟩

/-- A pointer returned by the scan of one frame stands right behind `"41 "`,
two characters that decode to the PID the scan ends with, and a space; the
error counter is then 0. -/
theorem scanFrame_sound (buffer : List Nat) :
    ∀ (fuel p pid errors d : Nat), (scanFrame buffer fuel p pid errors).data = some d →
      (6 ≤ d ∧ buffer.getD (d - 6) 0 = 52 ∧ buffer.getD (d - 5) 0 = 49 ∧
        buffer.getD (d - 4) 0 = 32 ∧
        hex2uint8 (buffer.getD (d - 3) 0) (buffer.getD (d - 2) 0)
          = (scanFrame buffer fuel p pid errors).pid ∧
        buffer.getD (d - 1) 0 = 32) ∧ (scanFrame buffer fuel p pid errors).errors = 0 := by
  intro fuel
  induction fuel with
  | zero => intro p pid errors d h; simp [scanFrame] at h
  | succ fuel ih =>
    intro p pid errors d h
    simp only [scanFrame] at h ⊢
    split at h
    · simp at h
    · rename_i q hq
      obtain ⟨g0, g1, g2, g3⟩ := strstr_marker_sound _ _ _ hq
      rw [getD_drop] at g1 g2 g3
      rw [show p + (q - p) = q by omega] at g1
      rw [show p + (q - p + 1) = q + 1 by omega] at g2
      rw [show p + (q - p + 2) = q + 2 by omega] at g3
      by_cases hp0 : pid = 0
      · simp only [hp0, if_true] at h ⊢
        split_ifs at h ⊢ with hsp
        · simp only [Option.some.injEq] at h
          subst h
          exact ⟨scan_hit buffer q _ g1 g2 g3 rfl hsp, rfl⟩
        · exact ih _ _ _ d h
      · simp only [hp0, if_false] at h ⊢
        split_ifs at h ⊢ with hm hsp
        · simp only [Option.some.injEq] at h
          subst h
          exact ⟨scan_hit buffer q _ g1 g2 g3 hm hsp, rfl⟩
        · exact ih _ _ _ d h
        · exact ih _ _ _ d h

theorem scanFrame_pid (buffer : List Nat) :
    ∀ (fuel p pid errors : Nat), pid ≠ 0 → (scanFrame buffer fuel p pid errors).pid = pid := by
  intro fuel
  induction fuel with
  | zero => intro p pid errors _; rfl
  | succ fuel ih =>
    intro p pid errors hpid
    simp only [scanFrame, hpid, if_false]
    split
    · rfl
    · split_ifs
      · rfl
      · exact ih _ _ _ hpid
      · exact ih _ _ _ hpid

theorem getResponseLoop_pid (H : Header) (bufsize : Nat) :
    ∀ (fuel pid errors : Nat) (buffer : List Nat) (rx : List Event), pid ≠ 0 →
      (getResponseLoop H bufsize fuel pid errors buffer rx).pid = pid := by
  intro fuel
  induction fuel with
  | zero => intro pid errors buffer rx _; rfl
  | succ fuel ih =>
    intro pid errors buffer rx hpid
    simp only [getResponseLoop]
    split_ifs
    · split
      · exact scanFrame_pid _ _ _ _ _ hpid
      · rw [scanFrame_pid _ _ _ _ _ hpid]
        exact ih _ _ _ _ hpid
    · rfl

theorem getResponseLoop_sound (H : Header) (bufsize : Nat) :
    ∀ (fuel pid errors : Nat) (buffer : List Nat) (rx : List Event) (d : Nat),
      (getResponseLoop H bufsize fuel pid errors buffer rx).data = some d →
      (6 ≤ d ∧
        (getResponseLoop H bufsize fuel pid errors buffer rx).buffer.getD (d - 6) 0 = 52 ∧
        (getResponseLoop H bufsize fuel pid errors buffer rx).buffer.getD (d - 5) 0 = 49 ∧
        (getResponseLoop H bufsize fuel pid errors buffer rx).buffer.getD (d - 4) 0 = 32 ∧
        hex2uint8
            ((getResponseLoop H bufsize fuel pid errors buffer rx).buffer.getD (d - 3) 0)
            ((getResponseLoop H bufsize fuel pid errors buffer rx).buffer.getD (d - 2) 0)
          = (getResponseLoop H bufsize fuel pid errors buffer rx).pid ∧
        (getResponseLoop H bufsize fuel pid errors buffer rx).buffer.getD (d - 1) 0 = 32) ∧
      (getResponseLoop H bufsize fuel pid errors buffer rx).errors = 0 := by
  intro fuel
  induction fuel with
  | zero => intro pid errors buffer rx d h; simp [getResponseLoop] at h
  | succ fuel ih =>
    intro pid errors buffer rx d h
    simp only [getResponseLoop] at h ⊢
    split_ifs at h ⊢
    · split at h
      · rename_i d' hd'
        simp only [Option.some.injEq] at h
        subst h
        simp only [hd']
        exact scanFrame_sound _ _ _ _ _ _ hd'
      · exact ih _ _ _ _ d h

theorem scanFrame_latch (buffer : List Nat) (fuel errors q : Nat)
    (hq : strstr [52, 49, 32] buffer 0 = some q)
    (hv : hex2uint8 (buffer.getD (q + 3) 0) (buffer.getD (q + 3 + 1) 0) ≠ 0) :
    (scanFrame buffer (fuel + 1) 0 0 errors).pid
      = hex2uint8 (buffer.getD (q + 3) 0) (buffer.getD (q + 3 + 1) 0) := by
  simp only [scanFrame, List.drop_zero, hq, if_true]
  split_ifs
  · rfl
  · exact scanFrame_pid _ _ _ _ _ hv

/-- C17 (amended).  Soundness of `getResponse`: a returned pointer `d` stands
right behind `"41 "`, two characters that `hex2uint8` decodes to the PID on
return, and a space; the error counter is then 0; and for an expected PID other
than 0 the PID on return is the expected one.  With the sentinel 0 expected, a
non-empty first frame whose first `"41 "` marker is followed by characters that
decode to a value other than 0 sets the caller's PID to that value. -/
theorem getResponse_sound (H : Header) (pid errors : Nat) (buffer : List Nat) (bufsize : Nat)
    (rx : List Event) :
    (∀ d : Nat, (getResponse H pid errors buffer bufsize rx).data = some d →
      (6 ≤ d ∧
        (getResponse H pid errors buffer bufsize rx).buffer.getD (d - 6) 0 = 52 ∧
        (getResponse H pid errors buffer bufsize rx).buffer.getD (d - 5) 0 = 49 ∧
        (getResponse H pid errors buffer bufsize rx).buffer.getD (d - 4) 0 = 32 ∧
        hex2uint8
            ((getResponse H pid errors buffer bufsize rx).buffer.getD (d - 3) 0)
            ((getResponse H pid errors buffer bufsize rx).buffer.getD (d - 2) 0)
          = (getResponse H pid errors buffer bufsize rx).pid ∧
        (getResponse H pid errors buffer bufsize rx).buffer.getD (d - 1) 0 = 32) ∧
      (getResponse H pid errors buffer bufsize rx).errors = 0 ∧
      (pid ≠ 0 → (getResponse H pid errors buffer bufsize rx).pid = pid)) ∧
    (∀ q : Nat, pid = 0 →
      0 < (receive H (some buffer) bufsize H.OBD_TIMEOUT_SHORT rx).n →
      strstr [52, 49, 32]
        ((receive H (some buffer) bufsize H.OBD_TIMEOUT_SHORT rx).buffer.getD buffer) 0
        = some q →
      hex2uint8
        (((receive H (some buffer) bufsize H.OBD_TIMEOUT_SHORT rx).buffer.getD buffer).getD
          (q + 3) 0)
        (((receive H (some buffer) bufsize H.OBD_TIMEOUT_SHORT rx).buffer.getD buffer).getD
          (q + 3 + 1) 0) ≠ 0 →
      (getResponse H pid errors buffer bufsize rx).pid
        = hex2uint8
          (((receive H (some buffer) bufsize H.OBD_TIMEOUT_SHORT rx).buffer.getD buffer).getD
            (q + 3) 0)
          (((receive H (some buffer) bufsize H.OBD_TIMEOUT_SHORT rx).buffer.getD buffer).getD
            (q + 3 + 1) 0)) := by
  constructor
  · intro d hd
    obtain ⟨h1, h2⟩ := getResponseLoop_sound H bufsize (rx.length + 1) pid errors buffer rx d hd
    exact ⟨h1, h2, fun hp => getResponseLoop_pid H bufsize (rx.length + 1) pid errors buffer rx hp⟩
  · intro q hp hn hq hv
    subst hp
    have hl := scanFrame_latch
      ((receive H (some buffer) bufsize H.OBD_TIMEOUT_SHORT rx).buffer.getD buffer)
      ((receive H (some buffer) bufsize H.OBD_TIMEOUT_SHORT rx).buffer.getD buffer).length
      errors q hq hv
    unfold getResponse
    simp only [getResponseLoop, gt_iff_lt, hn, if_true]
    split
    · exact hl
    · rw [getResponseLoop_pid _ _ _ _ _ _ _ (by rw [hl]; exact hv)]
      exact hl

/-- Witness for C17 (amended): the frame `"41 0C 1A F8\r>"`, once with PID 0x0C
expected and once with the sentinel 0; the pointer is 6 and the PID on return is
0x0C both times. -/
theorem getResponse_sound_witness :
    ((getResponse ⟨1000, 15000⟩ 0x0C 7 (List.replicate 64 0) 64
        ([52, 49, 32, 48, 67, 32, 49, 65, 32, 70, 56, 13, 62].map Event.rx)).data = some 6 ∧
      (getResponse ⟨1000, 15000⟩ 0x0C 7 (List.replicate 64 0) 64
        ([52, 49, 32, 48, 67, 32, 49, 65, 32, 70, 56, 13, 62].map Event.rx)).errors = 0 ∧
      (getResponse ⟨1000, 15000⟩ 0x0C 7 (List.replicate 64 0) 64
        ([52, 49, 32, 48, 67, 32, 49, 65, 32, 70, 56, 13, 62].map Event.rx)).pid = 0x0C) ∧
    (getResponse ⟨1000, 15000⟩ 0 7 (List.replicate 64 0) 64
        ([52, 49, 32, 48, 67, 32, 49, 65, 32, 70, 56, 13, 62].map Event.rx)).pid = 0x0C :=
  ⟨⟨by decide,
    ((getResponse_sound ⟨1000, 15000⟩ 0x0C 7 (List.replicate 64 0) 64
      ([52, 49, 32, 48, 67, 32, 49, 65, 32, 70, 56, 13, 62].map Event.rx)).1 6
        (by decide)).2.1,
    ((getResponse_sound ⟨1000, 15000⟩ 0x0C 7 (List.replicate 64 0) 64
      ([52, 49, 32, 48, 67, 32, 49, 65, 32, 70, 56, 13, 62].map Event.rx)).1 6
        (by decide)).2.2 (by decide)⟩,
   ((getResponse_sound ⟨1000, 15000⟩ 0 7 (List.replicate 64 0) 64
      ([52, 49, 32, 48, 67, 32, 49, 65, 32, 70, 56, 13, 62].map Event.rx)).2 0
        rfl (by decide) (by decide) (by decide)).trans (by decide)⟩

/-- C17 as stated fails for the sentinel: expecting PID 0, the frame
`"41 00\r41 0C 1A F8\r>"` has a first `"41 "` marker followed by `"00"`, which
decodes to 0, and no space after it; the PID variable is still 0 at the second
marker and takes the value 0x0C there. -/
theorem getResponse_sentinel_counterexample :
    (receive ⟨1000, 15000⟩ (some (List.replicate 64 0)) 64 1000
        ([52, 49, 32, 48, 48, 13, 52, 49, 32, 48, 67, 32, 49, 65, 32, 70, 56, 13, 62].map
          Event.rx)).n = 18 ∧
    strstr [52, 49, 32]
        ((receive ⟨1000, 15000⟩ (some (List.replicate 64 0)) 64 1000
          ([52, 49, 32, 48, 48, 13, 52, 49, 32, 48, 67, 32, 49, 65, 32, 70, 56, 13, 62].map
            Event.rx)).buffer.getD []) 0 = some 0 ∧
    hex2uint8 48 48 = 0 ∧
    (getResponse ⟨1000, 15000⟩ 0 0 (List.replicate 64 0) 64
        ([52, 49, 32, 48, 48, 13, 52, 49, 32, 48, 67, 32, 49, 65, 32, 70, 56, 13, 62].map
          Event.rx)).pid = 0x0C ∧
    (getResponse ⟨1000, 15000⟩ 0 0 (List.replicate 64 0) 64
        ([52, 49, 32, 48, 48, 13, 52, 49, 32, 48, 67, 32, 49, 65, 32, 70, 56, 13, 62].map
          Event.rx)).data = some 12 := by
  refine ⟨by decide, by decide, by decide, by decide, by decide⟩

/-! ### Bounds of the I2C framer -/

/-- C16 fails on the code.  A buffer of capacity 4 followed by four further
memory cells, all 0; the first transaction delivers `"ABC"`, the second `"DE"`
and a NUL.  The first byte of the second transaction is stored at index 3
without a test, `offset` becomes 4 and the test `offset == bufsize - 1` never
holds again: `'E'` goes to index 4 and the NUL to index 5, both behind the
buffer, and 5 is returned.  The same with capacity 64 and transactions of 32,
31 and 3 bytes: the cells 63 and 64 receive `'C'` and `'D'`, and 65 is returned. -/
theorem i2c_receive_writes_past_buffer :
    (COBDI2C.receive ⟨1000, 15000⟩ 32 (some (List.replicate 8 0)) 4 1000
        [⟨[65, 66, 67], 10⟩, ⟨[68, 69, 0], 20⟩]).buffer
      = some [65, 66, 67, 68, 69, 0, 0, 0] ∧
    (COBDI2C.receive ⟨1000, 15000⟩ 32 (some (List.replicate 8 0)) 4 1000
        [⟨[65, 66, 67], 10⟩, ⟨[68, 69, 0], 20⟩]).n = 5 ∧
    ((COBDI2C.receive ⟨1000, 15000⟩ 32 (some (List.replicate 8 0)) 4 1000
        [⟨[65, 66, 67], 10⟩, ⟨[68, 69, 0], 20⟩]).buffer.getD []).getD 4 0
      ≠ (List.replicate 8 0).getD 4 0 ∧
    (COBDI2C.receive ⟨1000, 15000⟩ 32 (some (List.replicate 70 0)) 64 1000
        [⟨List.replicate 32 65, 10⟩, ⟨List.replicate 31 66, 20⟩, ⟨[67, 68, 0], 30⟩]).n = 65 ∧
    ((COBDI2C.receive ⟨1000, 15000⟩ 32 (some (List.replicate 70 0)) 64 1000
        [⟨List.replicate 32 65, 10⟩, ⟨List.replicate 31 66, 20⟩, ⟨[67, 68, 0], 30⟩]).buffer.getD
          []).drop 62 = [66, 67, 68, 0, 0, 0, 0, 0] := by
  refine ⟨by decide, by decide, by decide, by decide, by decide⟩

/-! ### Text of the batched query -/

theorem storeAt_length : ∀ (t mem : List Nat) (p : Nat), (storeAt mem p t).length = mem.length
  | [], _, _ => rfl
  | c :: cs, mem, p => by
    simp only [storeAt]
    rw [storeAt_length cs]
    simp

theorem storeAt_frame : ∀ (t mem : List Nat) (p j : Nat), (j < p ∨ p + t.length ≤ j) →
    (storeAt mem p t).getD j 0 = mem.getD j 0
  | [], _, _, _, _ => rfl
  | c :: cs, mem, p, j, h => by
    simp only [storeAt]
    rw [storeAt_frame cs _ _ j (by simp only [List.length_cons] at h; omega)]
    exact getD_set_other _ _ _ _ (by simp only [List.length_cons] at h; omega)

theorem storeAt_content : ∀ (t mem : List Nat) (p k : Nat), k < t.length → p + k < mem.length →
    (storeAt mem p t).getD (p + k) 0 = t.getD k 0
  | [], _, _, _, h, _ => by simp at h
  | c :: cs, mem, p, 0, _, h2 => by
    simp only [storeAt, Nat.add_zero]
    rw [storeAt_frame cs _ _ p (Or.inl (by omega))]
    simpa using getD_set_self mem p c (by omega)
  | c :: cs, mem, p, k + 1, h1, h2 => by
    simp only [storeAt]
    have := storeAt_content cs (mem.set p c) (p + 1) k
      (by simp only [List.length_cons] at h1; omega) (by simp; omega)
    rw [show p + (k + 1) = p + 1 + k by omega, this]
    simp

theorem queryText_length (m x : Nat) : (queryText m x).length = 5 := rfl

theorem batchText_cons (m x : Nat) (xs : List Nat) :
    batchText m (x :: xs) = queryText m x ++ batchText m xs := by
  simp [batchText, List.flatMap]

theorem batchText_length (m : Nat) (xs : List Nat) : (batchText m xs).length = 5 * xs.length := by
  induction xs with
  | nil => rfl
  | cons x xs ih =>
    rw [batchText_cons, List.length_append, ih, queryText_length, List.length_cons]
    omega

theorem batchText_segment (m : Nat) : ∀ (xs : List Nat) (i : Nat), i < xs.length →
    ((batchText m xs).drop (5 * i)).take 5 = queryText m (xs.getD i 0)
  | [], _, h => by simp at h
  | x :: xs, 0, _ => by
    rw [batchText_cons]
    simp [queryText, fmt02X]
  | x :: xs, i + 1, h => by
    rw [batchText_cons, show 5 * (i + 1) = (queryText m x).length + 5 * i by
      rw [queryText_length]; omega, List.drop_append]
    simpa using batchText_segment m xs i (by simpa using h)

theorem batchLoop_ptr (m : Nat) : ∀ (xs mem : List Nat) (p : Nat),
    (batchLoop m xs mem p).2 = p + 5 * xs.length
  | [], _, _ => rfl
  | x :: xs, mem, p => by
    simp only [batchLoop, sprintfQuery, queryText_length]
    rw [batchLoop_ptr m xs, List.length_cons]
    omega

theorem batchLoop_length (m : Nat) : ∀ (xs mem : List Nat) (p : Nat),
    (batchLoop m xs mem p).1.length = mem.length
  | [], _, _ => rfl
  | x :: xs, mem, p => by
    simp only [batchLoop, sprintfQuery]
    rw [batchLoop_length m xs, storeAt_length]

theorem batchLoop_frame (m : Nat) : ∀ (xs mem : List Nat) (p j : Nat),
    (j < p ∨ p + 5 * xs.length < j) → (batchLoop m xs mem p).1.getD j 0 = mem.getD j 0
  | [], _, _, _, _ => rfl
  | x :: xs, mem, p, j, h => by
    simp only [batchLoop, sprintfQuery, queryText_length]
    simp only [List.length_cons] at h
    rw [batchLoop_frame m xs _ _ j (by omega)]
    exact storeAt_frame _ _ _ _ (by simp [queryText_length]; omega)

theorem batchLoop_content (m : Nat) : ∀ (xs mem : List Nat) (p k : Nat),
    k < 5 * xs.length → p + k < mem.length →
    (batchLoop m xs mem p).1.getD (p + k) 0 = (batchText m xs).getD k 0
  | [], _, _, _, h, _ => by simp at h
  | x :: xs, mem, p, k, h1, h2 => by
    simp only [batchLoop, sprintfQuery, queryText_length]
    simp only [List.length_cons] at h1
    rw [batchText_cons]
    by_cases hk : k < 5
    · rw [batchLoop_frame m xs _ _ _ (Or.inl (by omega))]
      rw [storeAt_content _ _ _ _ (by simp [queryText_length]; omega) h2]
      rw [getD_append_left _ _ _ (by rw [queryText_length]; exact hk)]
      rw [getD_append_left _ _ _ (by rw [queryText_length]; exact hk)]
    · obtain ⟨k2, rfl⟩ : ∃ k2, k = 5 + k2 := ⟨k - 5, by omega⟩
      have := batchLoop_content m xs (storeAt mem p (queryText m x ++ [0])) (p + 5) k2
        (by omega) (by rw [storeAt_length]; omega)
      rw [show p + (5 + k2) = p + 5 + k2 by omega, this]
      have e := getD_append_right (queryText m x) (batchText m xs) k2
      rw [queryText_length] at e
      exact e.symm

theorem batchLoop_nul (m : Nat) : ∀ (xs mem : List Nat) (p : Nat),
    xs ≠ [] → p + 5 * xs.length < mem.length →
    (batchLoop m xs mem p).1.getD (p + 5 * xs.length) 0 = 0
  | [], _, _, h, _ => absurd rfl h
  | [x], mem, p, _, h2 => by
    simp only [batchLoop, sprintfQuery, List.length_cons, List.length_nil]
    simp only [List.length_cons, List.length_nil] at h2
    rw [storeAt_content _ _ _ 5 (by simp [queryText_length]) (by omega)]
    rfl
  | x :: y :: xs, mem, p, _, h2 => by
    rw [batchLoop]
    simp only [sprintfQuery, queryText_length]
    simp only [List.length_cons] at h2
    have := batchLoop_nul m (y :: xs) (storeAt mem p (queryText m x ++ [0])) (p + 5)
      (by simp) (by rw [storeAt_length]; simp only [List.length_cons]; omega)
    simp only [List.length_cons] at this ⊢
    rw [show p + 5 * (xs.length + 1 + 1) = p + 5 + 5 * (xs.length + 1) by omega]
    exact this

theorem hex2uint8_upper (v : Nat) (hv : v < 256) :
    hex2uint8 (hexCharUpper (v / 16)) (hexCharUpper (v % 16)) = v := by
  obtain ⟨a1, a2, _, _⟩ := hexChar_digit (v / 16) (by omega)
  obtain ⟨b1, b2, _, _⟩ := hexChar_digit (v % 16) (Nat.mod_lt _ (by decide))
  rw [hex2uint8_of_hex _ _ a1 b1, a2, b2]
  omega

theorem hexCharUpper_ne_zero (d : Nat) : hexCharUpper d ≠ 0 := by
  unfold hexCharUpper
  split <;> omega

theorem batchText_ne_zero (m : Nat) (xs : List Nat) : ∀ c ∈ batchText m xs, c ≠ 0 := by
  induction xs with
  | nil => intro c hc; simp [batchText] at hc
  | cons x xs ih =>
    intro c hc
    rw [batchText_cons, List.mem_append] at hc
    rcases hc with hc | hc
    · simp only [queryText, fmt02X, List.cons_append, List.nil_append, List.mem_cons,
        List.mem_singleton, List.not_mem_nil, or_false] at hc
      rcases hc with rfl | rfl | rfl | rfl | rfl
      · exact hexCharUpper_ne_zero _
      · exact hexCharUpper_ne_zero _
      · exact hexCharUpper_ne_zero _
      · exact hexCharUpper_ne_zero _
      · decide
    · exact ih c hc

theorem cstr_prefix (t rest : List Nat) (h : ∀ c ∈ t, c ≠ 0) : cstr (t ++ 0 :: rest) = t := by
  induction t with
  | nil => simp [cstr]
  | cons c cs ih =>
    have hc : c ≠ 0 := h c (by simp)
    have := ih (fun d hd => h d (by simp [hd]))
    simp only [cstr] at this ⊢
    simp [List.takeWhile_cons, hc, this]

theorem eq_append_of_getD (l t : List Nat) (h1 : t.length < l.length)
    (h2 : ∀ k : Nat, k < t.length → l.getD k 0 = t.getD k 0) (h3 : l.getD t.length 0 = 0) :
    l = t ++ 0 :: l.drop (t.length + 1) := by
  apply List.ext_getElem?
  intro k
  rcases Nat.lt_trichotomy k t.length with hk | hk | hk
  · have := h2 k hk
    rw [List.getD_eq_getElem?_getD, List.getD_eq_getElem?_getD,
      List.getElem?_eq_getElem (by omega), List.getElem?_eq_getElem hk] at this
    rw [List.getElem?_append_left hk, List.getElem?_eq_getElem (by omega),
      List.getElem?_eq_getElem hk]
    simpa using this
  · subst hk
    rw [List.getD_eq_getElem?_getD, List.getElem?_eq_getElem h1] at h3
    rw [List.getElem?_append_right (le_refl _), List.getElem?_eq_getElem h1]
    simpa using h3
  · rw [List.getElem?_append_right (by omega)]
    obtain ⟨k2, rfl⟩ : ∃ k2, k = t.length + 1 + k2 := ⟨k - t.length - 1, by omega⟩
    rw [show t.length + 1 + k2 - t.length = k2 + 1 by omega]
    simp [List.getElem?_drop]

/-- C20.  The first loop of the batched `readPID`, for a data mode and PIDs that
are bytes: the text built from the first `count` PIDs has `5 * count`
characters; its segment `i` is two upper-case hexadecimal digits of the mode,
two of `pid[i]`, on which `hex2uint8` returns `pid[i]`, and a carriage return;
the loop leaves `p` at `5 * count`, stores that text in the cells below
`5 * count` and a NUL at `5 * count`, and touches no cell above, so that what
`write` then sends is that text; and text and NUL fit 128 cells exactly when
`count ≤ 25`. -/
theorem readPID_batch_text (dataMode count : Nat) (pid mem : List Nat)
    (hm : dataMode < 256) (hp : ∀ x ∈ pid, x < 256) (hc : count ≤ pid.length) :
    (batchText dataMode (pid.take count)).length = 5 * count ∧
    (∀ i : Nat, i < count →
      ((batchText dataMode (pid.take count)).drop (5 * i)).take 5
        = [hexCharUpper (dataMode / 16), hexCharUpper (dataMode % 16),
           hexCharUpper (pid.getD i 0 / 16), hexCharUpper (pid.getD i 0 % 16), 13] ∧
      hex2uint8 (hexCharUpper (pid.getD i 0 / 16)) (hexCharUpper (pid.getD i 0 % 16))
        = pid.getD i 0) ∧
    (batchLoop dataMode (pid.take count) mem 0).2 = 5 * count ∧
    (∀ k : Nat, k < 5 * count → k < mem.length →
      (batchLoop dataMode (pid.take count) mem 0).1.getD k 0
        = (batchText dataMode (pid.take count)).getD k 0) ∧
    (1 ≤ count → 5 * count < mem.length →
      (batchLoop dataMode (pid.take count) mem 0).1.getD (5 * count) 0 = 0 ∧
      cstr (batchLoop dataMode (pid.take count) mem 0).1
        = batchText dataMode (pid.take count)) ∧
    (∀ j : Nat, 5 * count < j →
      (batchLoop dataMode (pid.take count) mem 0).1.getD j 0 = mem.getD j 0) ∧
    (5 * count + 1 ≤ 128 ↔ count ≤ 25) := by
  have hlen : (pid.take count).length = count := by simp [hc]
  have htl : (batchText dataMode (pid.take count)).length = 5 * count := by
    rw [batchText_length, hlen]
  have hcontent : ∀ k : Nat, k < 5 * count → k < mem.length →
      (batchLoop dataMode (pid.take count) mem 0).1.getD k 0
        = (batchText dataMode (pid.take count)).getD k 0 := by
    intro k hk hk2
    have := batchLoop_content dataMode (pid.take count) mem 0 k (by rw [hlen]; exact hk)
      (by omega)
    simpa using this
  have hnul : 1 ≤ count → 5 * count < mem.length →
      (batchLoop dataMode (pid.take count) mem 0).1.getD (5 * count) 0 = 0 := by
    intro h1 h2
    have := batchLoop_nul dataMode (pid.take count) mem 0
      (by intro h; rw [h] at hlen; simp at hlen; omega) (by rw [hlen]; omega)
    rw [hlen] at this
    simpa using this
  refine ⟨htl, ?_, ?_, hcontent, ?_, ?_, by omega⟩
  · intro i hi
    have hget : (pid.take count).getD i 0 = pid.getD i 0 := by
      simp [List.getD_eq_getElem?_getD, List.getElem?_take, hi]
    have hx : pid.getD i 0 < 256 := by
      apply hp
      rw [List.getD_eq_getElem?_getD, List.getElem?_eq_getElem (by omega)]
      simp
    refine ⟨?_, hex2uint8_upper _ hx⟩
    rw [batchText_segment dataMode _ i (by rw [hlen]; exact hi), hget]
    simp only [queryText, fmt02X, List.cons_append, List.nil_append]
    rw [Nat.mod_eq_of_lt (show dataMode / 16 < 16 by omega),
      Nat.mod_eq_of_lt (show pid.getD i 0 / 16 < 16 by omega)]
  · rw [batchLoop_ptr, hlen]
    omega
  · intro h1 h2
    refine ⟨hnul h1 h2, ?_⟩
    have e := eq_append_of_getD (batchLoop dataMode (pid.take count) mem 0).1
      (batchText dataMode (pid.take count))
      (by rw [batchLoop_length, htl]; exact h2)
      (by intro k hk; rw [htl] at hk; exact hcontent k hk (by omega))
      (by rw [htl]; exact hnul h1 h2)
    rw [e]
    exact cstr_prefix _ _ (batchText_ne_zero _ _)
  · intro j hj
    exact batchLoop_frame dataMode _ mem 0 j (Or.inr (by rw [hlen]; omega))

/-- Witness for C20: mode 1 and the PIDs 0x0C, 0x05 in a buffer of 128 cells;
the text is `"010C\r0105\r"`. -/
theorem readPID_batch_text_witness :
    (1 < 256 ∧ (∀ x ∈ [0x0C, 0x05], x < 256) ∧ 2 ≤ [0x0C, 0x05].length) ∧
    batchText 1 ([0x0C, 0x05].take 2) = [48, 49, 48, 67, 13, 48, 49, 48, 53, 13] ∧
    (batchText 1 ([0x0C, 0x05].take 2)).length = 5 * 2 ∧
    cstr (batchLoop 1 ([0x0C, 0x05].take 2) (List.replicate 128 255) 0).1
      = batchText 1 ([0x0C, 0x05].take 2) :=
  ⟨⟨by decide, by decide, by decide⟩, by decide,
   (readPID_batch_text 1 2 [0x0C, 0x05] (List.replicate 128 255) (by decide) (by decide)
      (by decide)).1,
   ((readPID_batch_text 1 2 [0x0C, 0x05] (List.replicate 128 255) (by decide) (by decide)
      (by decide)).2.2.2.2.1 (by decide) (by simp)).2⟩

/-! ### The error counter after a scan -/

theorem marker_isPrefixOf (l : List Nat) :
    [52, 49, 32].isPrefixOf l = true ↔
      l.getD 0 0 = 52 ∧ l.getD 1 0 = 49 ∧ l.getD 2 0 = 32 := by
  rcases l with _ | ⟨a, _ | ⟨b, _ | ⟨c, l⟩⟩⟩
  · simp [List.isPrefixOf]
  · simp [List.isPrefixOf]
  · simp [List.isPrefixOf]
  · simp only [List.isPrefixOf, Bool.and_eq_true, beq_iff_eq, Bool.and_true,
      List.getD_cons_zero, List.getD_cons_succ]
    constructor <;> (rintro ⟨h1, h2, h3⟩; exact ⟨h1.symm, h2.symm, h3.symm⟩)

/-- The marker found by `strstr` is the first one: before it stands neither a
NUL nor `"41 "`. -/
theorem strstr_first :
    ∀ (l : List Nat) (p q : Nat), strstr [52, 49, 32] l p = some q →
      ∀ k : Nat, k < q - p → l.getD k 0 ≠ 0 ∧
        ¬(l.getD k 0 = 52 ∧ l.getD (k + 1) 0 = 49 ∧ l.getD (k + 2) 0 = 32) := by
  intro l
  induction l with
  | nil => intro p q h; simp [strstr, List.isPrefixOf] at h
  | cons c cs ih =>
    intro p q h k hk
    simp only [strstr] at h
    split_ifs at h with hpre hz
    · simp only [Option.some.injEq] at h
      omega
    · have hge := strstr_ge _ _ _ _ h
      cases k with
      | zero =>
        refine ⟨by simpa using hz, fun hm => hpre ?_⟩
        exact (marker_isPrefixOf (c :: cs)).2 hm
      | succ k =>
        have := ih (p + 1) q h k (by omega)
        simpa using this

/-- When `strstr` finds nothing, no `"41 "` stands before the first NUL. -/
theorem strstr_none_marker :
    ∀ (l : List Nat) (p k : Nat), strstr [52, 49, 32] l p = none →
      (∀ j : Nat, j < k → l.getD j 0 ≠ 0) →
      ¬(l.getD k 0 = 52 ∧ l.getD (k + 1) 0 = 49 ∧ l.getD (k + 2) 0 = 32) := by
  intro l
  induction l with
  | nil => intro p k _ _ hm; simp at hm
  | cons c cs ih =>
    intro p k h hnz hm
    simp only [strstr] at h
    split_ifs at h with hpre hz
    · cases k with
      | zero => exact hpre ((marker_isPrefixOf (c :: cs)).2 hm)
      | succ k =>
        have := hnz 0 (by omega)
        simp only [List.getD_cons_zero] at this
        exact this hz
    · cases k with
      | zero => exact hpre ((marker_isPrefixOf (c :: cs)).2 hm)
      | succ k =>
        refine ih (p + 1) k h (fun j hj => ?_) (by simpa using hm)
        have := hnz (j + 1) (by omega)
        simpa using this

/-- The error counter after the scan of one frame from index `p`: 0 when a
`"41 "` that the scan can reach is followed by the expected PID (any `"41 "`
for the sentinel 0); otherwise the scan returns nothing and leaves the counter
and the PID as they were. -/
theorem scanFrame_errors_exact (buffer : List Nat) :
    ∀ (fuel p pid errors : Nat), buffer.length < p + fuel →
      ((∃ q : Nat, p ≤ q ∧ (∀ j : Nat, p ≤ j → j < q → buffer.getD j 0 ≠ 0) ∧
          (buffer.getD q 0 = 52 ∧ buffer.getD (q + 1) 0 = 49 ∧ buffer.getD (q + 2) 0 = 32) ∧
          (pid = 0 ∨ hex2uint8 (buffer.getD (q + 3) 0) (buffer.getD (q + 4) 0) = pid)) →
        (scanFrame buffer fuel p pid errors).errors = 0) ∧
      (¬(∃ q : Nat, p ≤ q ∧ (∀ j : Nat, p ≤ j → j < q → buffer.getD j 0 ≠ 0) ∧
          (buffer.getD q 0 = 52 ∧ buffer.getD (q + 1) 0 = 49 ∧ buffer.getD (q + 2) 0 = 32) ∧
          (pid = 0 ∨ hex2uint8 (buffer.getD (q + 3) 0) (buffer.getD (q + 4) 0) = pid)) →
        scanFrame buffer fuel p pid errors = ⟨none, pid, errors⟩) := by
  intro fuel
  induction fuel with
  | zero =>
    intro p pid errors hlt
    refine ⟨fun hM => ?_, fun _ => rfl⟩
    obtain ⟨q, hq, _, ⟨h52, _, _⟩, _⟩ := hM
    rw [List.getD_eq_getElem?_getD, List.getElem?_eq_none (by omega)] at h52
    simp at h52
  | succ fuel ih =>
    intro p pid errors hlt
    simp only [scanFrame]
    cases hs : strstr [52, 49, 32] (buffer.drop p) p with
    | none =>
      refine ⟨fun hM => ?_, fun _ => rfl⟩
      exfalso
      obtain ⟨q, hq, hnz, hm, _⟩ := hM
      refine strstr_none_marker (buffer.drop p) p (q - p) hs (fun j hj => ?_) ?_
      · rw [getD_drop]
        exact hnz (p + j) (by omega) (by omega)
      · rw [getD_drop, getD_drop, getD_drop, show p + (q - p) = q by omega,
          show p + (q - p + 1) = q + 1 by omega, show p + (q - p + 2) = q + 2 by omega]
        exact hm
    | some q0 =>
      obtain ⟨g0, g1, g2, g3⟩ := strstr_marker_sound _ _ _ hs
      rw [getD_drop] at g1 g2 g3
      rw [show p + (q0 - p) = q0 by omega] at g1
      rw [show p + (q0 - p + 1) = q0 + 1 by omega] at g2
      rw [show p + (q0 - p + 2) = q0 + 2 by omega] at g3
      have hfirst : ∀ j : Nat, p ≤ j → j < q0 → buffer.getD j 0 ≠ 0 ∧
          ¬(buffer.getD j 0 = 52 ∧ buffer.getD (j + 1) 0 = 49 ∧ buffer.getD (j + 2) 0 = 32) := by
        intro j hj1 hj2
        have := strstr_first _ _ _ hs (j - p) (by omega)
        rw [getD_drop, getD_drop, getD_drop, show p + (j - p) = j by omega,
          show p + (j - p + 1) = j + 1 by omega, show p + (j - p + 2) = j + 2 by omega] at this
        exact this
      have hreach : ∀ j : Nat, p ≤ j → j < q0 → buffer.getD j 0 ≠ 0 :=
        fun j h1 h2 => (hfirst j h1 h2).1
      simp only []
      by_cases hp0 : pid = 0
      · refine ⟨fun _ => ?_, fun hM => absurd ⟨q0, g0, hreach, ⟨g1, g2, g3⟩, Or.inl hp0⟩ hM⟩
        simp only [if_pos hp0, if_true]
        split_ifs
        · rfl
        · rcases scanFrame_errors buffer fuel (q0 + 3 + 2)
            (hex2uint8 (buffer.getD (q0 + 3) 0) (buffer.getD (q0 + 3 + 1) 0)) 0 with h | h <;>
            exact h
      · by_cases hm : hex2uint8 (buffer.getD (q0 + 3) 0) (buffer.getD (q0 + 3 + 1) 0) = pid
        · refine ⟨fun _ => ?_,
            fun hM => absurd ⟨q0, g0, hreach, ⟨g1, g2, g3⟩, Or.inr hm⟩ hM⟩
          simp only [if_neg hp0, if_pos hm]
          split_ifs
          · rfl
          · rcases scanFrame_errors buffer fuel (q0 + 3 + 2) pid 0 with h | h <;> exact h
        · simp only [if_neg hp0, if_neg hm]
          have hiff : (∃ q : Nat, p ≤ q ∧ (∀ j : Nat, p ≤ j → j < q → buffer.getD j 0 ≠ 0) ∧
                (buffer.getD q 0 = 52 ∧ buffer.getD (q + 1) 0 = 49 ∧ buffer.getD (q + 2) 0 = 32) ∧
                (pid = 0 ∨ hex2uint8 (buffer.getD (q + 3) 0) (buffer.getD (q + 4) 0) = pid)) ↔
              (∃ q : Nat, q0 + 3 ≤ q ∧
                (∀ j : Nat, q0 + 3 ≤ j → j < q → buffer.getD j 0 ≠ 0) ∧
                (buffer.getD q 0 = 52 ∧ buffer.getD (q + 1) 0 = 49 ∧ buffer.getD (q + 2) 0 = 32) ∧
                (pid = 0 ∨ hex2uint8 (buffer.getD (q + 3) 0) (buffer.getD (q + 4) 0) = pid)) := by
            constructor
            · rintro ⟨q, hq, hnz, hmk, hd⟩
              have hge : q0 ≤ q := by
                by_contra hlt2
                exact (hfirst q hq (by omega)).2 hmk
              have hne0 : q ≠ q0 := by
                rintro rfl
                rcases hd with hd | hd
                · exact hp0 hd
                · exact hm hd
              have hne1 : q ≠ q0 + 1 := by
                rintro rfl
                rw [hmk.1] at g2
                omega
              have hne2 : q ≠ q0 + 2 := by
                rintro rfl
                rw [hmk.1] at g3
                omega
              exact ⟨q, by omega, fun j h1 h2 => hnz j (by omega) h2, hmk, hd⟩
            · rintro ⟨q, hq, hnz, hmk, hd⟩
              refine ⟨q, by omega, fun j h1 h2 => ?_, hmk, hd⟩
              by_cases hj : j < q0
              · exact hreach j h1 hj
              · by_cases hj3 : q0 + 3 ≤ j
                · exact hnz j hj3 h2
                · have hcase : j = q0 ∨ j = q0 + 1 ∨ j = q0 + 2 := by omega
                  rcases hcase with rfl | rfl | rfl
                  · rw [g1]; omega
                  · rw [g2]; omega
                  · rw [g3]; omega
          rw [hiff]
          exact ih (q0 + 3) pid errors (by omega)

theorem scanFrame_frame (buffer : List Nat) (pid errors : Nat) :
    (carriesPID pid buffer →
      (scanFrame buffer (buffer.length + 1) 0 pid errors).errors = 0) ∧
    (¬carriesPID pid buffer →
      scanFrame buffer (buffer.length + 1) 0 pid errors = ⟨none, pid, errors⟩) := by
  have h := scanFrame_errors_exact buffer (buffer.length + 1) 0 pid errors (by omega)
  have hiff : carriesPID pid buffer ↔
      (∃ q : Nat, 0 ≤ q ∧ (∀ j : Nat, 0 ≤ j → j < q → buffer.getD j 0 ≠ 0) ∧
        (buffer.getD q 0 = 52 ∧ buffer.getD (q + 1) 0 = 49 ∧ buffer.getD (q + 2) 0 = 32) ∧
        (pid = 0 ∨ hex2uint8 (buffer.getD (q + 3) 0) (buffer.getD (q + 4) 0) = pid)) := by
    constructor
    · rintro ⟨q, _, hnz, hm, hd⟩
      exact ⟨q, Nat.zero_le _, fun j _ hj => hnz j hj, hm, hd⟩
    · rintro ⟨q, _, hnz, hm, hd⟩
      refine ⟨q, ?_, fun j hj => hnz j (Nat.zero_le _) hj, hm, hd⟩
      by_contra hge
      have h52 := hm.1
      rw [List.getD_eq_getElem?_getD, List.getElem?_eq_none (by omega)] at h52
      simp at h52
  rw [hiff]
  exact h

/-- The error counter after `getResponse`: 0 when one of the frames received
carries the expected PID; otherwise nothing is returned and counter and PID
are as they were. -/
theorem getResponseLoop_errors_exact (H : Header) (bufsize : Nat) :
    ∀ (fuel pid errors : Nat) (buffer : List Nat) (rx : List Event),
      ((∃ f ∈ receivedFramesLoop H bufsize fuel buffer rx, carriesPID pid f) →
        (getResponseLoop H bufsize fuel pid errors buffer rx).errors = 0) ∧
      (¬(∃ f ∈ receivedFramesLoop H bufsize fuel buffer rx, carriesPID pid f) →
        (getResponseLoop H bufsize fuel pid errors buffer rx).data = none ∧
        (getResponseLoop H bufsize fuel pid errors buffer rx).errors = errors ∧
        (getResponseLoop H bufsize fuel pid errors buffer rx).pid = pid) := by
  intro fuel
  induction fuel with
  | zero =>
    intro pid errors buffer rx
    exact ⟨fun h => by simp [receivedFramesLoop] at h, fun _ => ⟨rfl, rfl, rfl⟩⟩
  | succ fuel ih =>
    intro pid errors buffer rx
    simp only [getResponseLoop, receivedFramesLoop]
    by_cases hn : (receive H (some buffer) bufsize H.OBD_TIMEOUT_SHORT rx).n > 0
    · simp only [hn, if_true]
      by_cases hc : carriesPID pid
          ((receive H (some buffer) bufsize H.OBD_TIMEOUT_SHORT rx).buffer.getD buffer)
      · have h0 := (scanFrame_frame _ pid errors).1 hc
        refine ⟨fun _ => ?_, fun hM => absurd ⟨_, List.mem_cons_self _ _, hc⟩ hM⟩
        split
        · exact h0
        · rcases getResponseLoop_errors H bufsize fuel
            (scanFrame ((receive H (some buffer) bufsize H.OBD_TIMEOUT_SHORT rx).buffer.getD
              buffer) (((receive H (some buffer) bufsize H.OBD_TIMEOUT_SHORT rx).buffer.getD
              buffer).length + 1) 0 pid errors).pid
            (scanFrame ((receive H (some buffer) bufsize H.OBD_TIMEOUT_SHORT rx).buffer.getD
              buffer) (((receive H (some buffer) bufsize H.OBD_TIMEOUT_SHORT rx).buffer.getD
              buffer).length + 1) 0 pid errors).errors
            ((receive H (some buffer) bufsize H.OBD_TIMEOUT_SHORT rx).buffer.getD buffer)
            (receive H (some buffer) bufsize H.OBD_TIMEOUT_SHORT rx).rest with h | h
          · rw [h]; exact h0
          · exact h
      · have hs := (scanFrame_frame _ pid errors).2 hc
        rw [hs]
        have hiff : (∃ f ∈ ((receive H (some buffer) bufsize H.OBD_TIMEOUT_SHORT rx).buffer.getD
              buffer) :: receivedFramesLoop H bufsize fuel
              ((receive H (some buffer) bufsize H.OBD_TIMEOUT_SHORT rx).buffer.getD buffer)
              (receive H (some buffer) bufsize H.OBD_TIMEOUT_SHORT rx).rest, carriesPID pid f) ↔
            (∃ f ∈ receivedFramesLoop H bufsize fuel
              ((receive H (some buffer) bufsize H.OBD_TIMEOUT_SHORT rx).buffer.getD buffer)
              (receive H (some buffer) bufsize H.OBD_TIMEOUT_SHORT rx).rest, carriesPID pid f) := by
          constructor
          · rintro ⟨f, hf, hcf⟩
            rcases List.mem_cons.mp hf with rfl | hf
            · exact absurd hcf hc
            · exact ⟨f, hf, hcf⟩
          · rintro ⟨f, hf, hcf⟩
            exact ⟨f, List.mem_cons_of_mem _ hf, hcf⟩
        rw [hiff]
        exact ih pid errors _ _
    · simp only [hn, if_false]
      exact ⟨fun h => by simp at h, fun _ => ⟨trivial, trivial, trivial⟩⟩

/-- More calls than there are polls, plus one, do not change the list of the
frames received: the list ends at an empty frame, never at the bound. -/
theorem receivedFramesLoop_fuel (H : Header) (bufsize : Nat) :
    ∀ (fuel : Nat) (buffer : List Nat) (rx : List Event) (extra : Nat), rx.length < fuel →
      receivedFramesLoop H bufsize (fuel + extra) buffer rx
        = receivedFramesLoop H bufsize fuel buffer rx := by
  intro fuel
  induction fuel with
  | zero => intro buffer rx extra h; omega
  | succ fuel ih =>
    intro buffer rx extra hlt
    rw [show fuel + 1 + extra = (fuel + extra) + 1 by omega]
    simp only [receivedFramesLoop]
    split_ifs with hn
    · have hcons := receive_consumes H (some buffer) bufsize H.OBD_TIMEOUT_SHORT rx hn
      rw [ih _ _ _ (by omega)]
    · rfl

/-! ### Failure of `getResult` -/

/-- C14 (amended): failure path of `getResult`.  Whenever `getResult` fails it
leaves the result variable untouched, sends `"AT\r"` once and leaves the
connection state unchanged.  The error counter after the failed call is 1 when
one of the frames received during the call carries `"41 "` followed by the
expected PID (`getResponse` resets the counter on the PID match, before it
tests for the space that must follow), and one more (mod 256) than before the
call when none does.  When no frame carries the expected PID the call fails. -/
theorem getResult_failure (H : Header) (pid : Nat) (result : Int) (buffer : List Nat)
    (obd : COBD) (w : World) :
    ((getResult H pid result buffer obd w).ok = false →
      (getResult H pid result buffer obd w).w.tx = w.tx ++ [[65, 84, 13]] ∧
      (getResult H pid result buffer obd w).obd.m_state = obd.m_state ∧
      (getResult H pid result buffer obd w).result = result ∧
      ((∃ f ∈ receivedFrames H buffer 64 w.rx, carriesPID pid f) →
        (getResult H pid result buffer obd w).obd.errors = 1) ∧
      (¬(∃ f ∈ receivedFrames H buffer 64 w.rx, carriesPID pid f) →
        (getResult H pid result buffer obd w).obd.errors = (obd.errors + 1) % 256)) ∧
    (¬(∃ f ∈ receivedFrames H buffer 64 w.rx, carriesPID pid f) →
      (getResult H pid result buffer obd w).ok = false) := by
  have hex := getResponseLoop_errors_exact H 64 (w.rx.length + 1) pid obd.errors buffer w.rx
  unfold receivedFrames
  unfold getResult getResponse
  constructor
  · intro hfail
    cases hd : (getResponseLoop H 64 (w.rx.length + 1) pid obd.errors buffer w.rx).data with
    | some d => simp [hd] at hfail
    | none =>
      simp only [hd]
      refine ⟨?_, trivial, trivial, fun hc => ?_, fun hc => ?_⟩
      · simp [recover, sendCommand, write]
      · rw [hex.1 hc]
      · rw [(hex.2 hc).2.1]
  · intro hc
    simp only [(hex.2 hc).1]

/-- Witness for C14 (amended): with the counter at 5 and PID 0x0C expected, the
reply `"41 05 64\r>"` to another PID makes the call fail, `"AT\r"` is written
and the counter goes to 6. -/
theorem getResult_failure_witness :
    (getResult ⟨1000, 15000⟩ 0x0C 0 (List.replicate 64 0)
        ⟨1, 5, List.replicate 32 0, OBD_STATES.OBD_CONNECTED⟩
        ⟨[52, 49, 32, 48, 53, 32, 54, 52, 13, 62].map Event.rx, []⟩).ok = false ∧
    (getResult ⟨1000, 15000⟩ 0x0C 0 (List.replicate 64 0)
        ⟨1, 5, List.replicate 32 0, OBD_STATES.OBD_CONNECTED⟩
        ⟨[52, 49, 32, 48, 53, 32, 54, 52, 13, 62].map Event.rx, []⟩).w.tx
      = [] ++ [[65, 84, 13]] ∧
    (getResult ⟨1000, 15000⟩ 0x0C 0 (List.replicate 64 0)
        ⟨1, 5, List.replicate 32 0, OBD_STATES.OBD_CONNECTED⟩
        ⟨[52, 49, 32, 48, 53, 32, 54, 52, 13, 62].map Event.rx, []⟩).obd.errors
      = (5 + 1) % 256 :=
  ⟨by decide,
   ((getResult_failure ⟨1000, 15000⟩ 0x0C 0 (List.replicate 64 0)
      ⟨1, 5, List.replicate 32 0, OBD_STATES.OBD_CONNECTED⟩
      ⟨[52, 49, 32, 48, 53, 32, 54, 52, 13, 62].map Event.rx, []⟩).1 (by decide)).1,
   ((getResult_failure ⟨1000, 15000⟩ 0x0C 0 (List.replicate 64 0)
      ⟨1, 5, List.replicate 32 0, OBD_STATES.OBD_CONNECTED⟩
      ⟨[52, 49, 32, 48, 53, 32, 54, 52, 13, 62].map Event.rx, []⟩).1 (by decide)).2.2.2.2
      (by decide)⟩

/-- C14 as stated fails: with the counter at 5 and PID 0x0C expected, the frame
`"41 0C\r>"` carries the PID but no data; `getResponse` resets the counter on
the PID match and then returns no pointer, so `getResult` fails and leaves the
counter at 1, not 6. -/
theorem getResult_failure_counterexample :
    (getResult ⟨1000, 15000⟩ 0x0C 0 (List.replicate 64 0)
        ⟨1, 5, List.replicate 32 0, OBD_STATES.OBD_CONNECTED⟩
        ⟨[52, 49, 32, 48, 67, 13, 62].map Event.rx, []⟩).ok = false ∧
    (getResult ⟨1000, 15000⟩ 0x0C 0 (List.replicate 64 0)
        ⟨1, 5, List.replicate 32 0, OBD_STATES.OBD_CONNECTED⟩
        ⟨[52, 49, 32, 48, 67, 13, 62].map Event.rx, []⟩).obd.errors = 1 := by
  refine ⟨by decide, by decide⟩

end ArduinoOBD
